import Mathlib

/-!
The 8-tap sub-pixel convolution of `aom_dsp/arm/aom_convolve8_neon.c`.

A shallow embedding of the NEON 8-tap convolution kernels and of the two
single-direction passes built from them.

* A vector register is a function from the lane index to the lane value
  (`Vec`); lanes at or beyond the register width are never read.
* Lane values are mathematical integers; every intrinsic reduces its result
  to the width of its lane type (`wrap8`, `wrap16`, `wrap32`) or saturates it
  (`sat16`, `satu8`) exactly where the instruction does.
* Memory is a function from byte addresses to values (`Mem`); a byte load
  reduces modulo 256.  The source image is only read and the destination is
  only written, so the two are separate memories (the buffers do not alias).
* Pointers and strides are integers.  Loops are `do ... while` loops run with
  a fuel bound; running out of fuel yields `none`.
* The arguments `x_step_q4`, `y_step_q4` and the filter of the other
  direction are cast to `void` in the source and are left out.
-/

namespace AomConvolve8

/-- Modelled from the spec: `FILTER_BITS` of `aom_dsp/aom_filter.h`, the
number of fractional bits of a filter tap. -/
def FILTER_BITS : Nat := 7

/-- Modelled from the spec: `SUBPEL_TAPS` of `aom_dsp/aom_filter.h`, the
number of taps of a sub-pixel filter. -/
def SUBPEL_TAPS : Int := 8

/-- Vector register: lane index to lane value. -/
abbrev Vec := Nat → Int

/-- Byte-addressed memory. -/
abbrev Mem := Int → Int

/-! ## Lane arithmetic -/

/-- Modular reduction to a signed 8-bit lane. -/
def wrap8 (x : Int) : Int := (x + 128) % 256 - 128

/-- Modular reduction to a signed 16-bit lane. -/
def wrap16 (x : Int) : Int := (x + 32768) % 65536 - 32768

/-- Modular reduction to a signed 32-bit lane. -/
def wrap32 (x : Int) : Int := (x + 2147483648) % 4294967296 - 2147483648

/-- Saturation to the signed 16-bit range. -/
def sat16 (x : Int) : Int :=
  if x < -32768 then -32768 else if 32767 < x then 32767 else x

/-- Saturation to the unsigned 8-bit range. -/
def satu8 (x : Int) : Int :=
  if x < 0 then 0 else if 255 < x then 255 else x

/-! ## NEON intrinsics (Arm C Language Extensions) -/

def vget_low_s16 (v : Vec) : Vec := fun i => v i

def vget_high_s16 (v : Vec) : Vec := fun i => v (i + 4)

def vcombine_s16 (lo hi : Vec) : Vec := fun i => if i < 4 then lo i else hi (i - 4)

/-- Lane-wise product by one lane of `v`, low 16 bits kept. -/
def vmul_lane_s16 (a v : Vec) (lane : Nat) : Vec := fun i => wrap16 (a i * v lane)

/-- Lane-wise multiply-accumulate by one lane of `v`, low 16 bits kept. -/
def vmla_lane_s16 (acc a v : Vec) (lane : Nat) : Vec :=
  fun i => wrap16 (acc i + a i * v lane)

/-- Lane-wise saturating addition. -/
def vqadd_s16 (a b : Vec) : Vec := fun i => sat16 (a i + b i)

def vmulq_lane_s16 (a v : Vec) (lane : Nat) : Vec := fun i => wrap16 (a i * v lane)

def vmlaq_lane_s16 (acc a v : Vec) (lane : Nat) : Vec :=
  fun i => wrap16 (acc i + a i * v lane)

def vqaddq_s16 (a b : Vec) : Vec := fun i => sat16 (a i + b i)

/-- Rounding shift right by `n`, narrowed with saturation to unsigned 8 bits. -/
def vqrshrun_n_s16 (a : Vec) (n : Nat) : Vec :=
  fun i => satu8 ((a i + 2 ^ (n - 1)) / 2 ^ n)

/-- Zero extension of unsigned 8-bit lanes to 16 bits. -/
def vmovl_u8 (a : Vec) : Vec := fun i => a i

/-- Unsigned 16-bit lanes read as signed 16-bit lanes. -/
def vreinterpretq_s16_u16 (a : Vec) : Vec := fun i => wrap16 (a i)

/-- Load of eight 16-bit taps. -/
def vld1q_s16 (p : Nat → Int) : Vec := fun i => p i

/-- Load of 8 consecutive bytes. -/
def vld1_u8 (m : Mem) (p : Int) : Vec := fun i => m (p + i) % 256

/-- Load of 16 consecutive bytes. -/
def vld1q_u8 (m : Mem) (p : Int) : Vec := fun i => m (p + i) % 256

/-- Store of the 8 lanes of `v` to 8 consecutive bytes. -/
def vst1_u8 (m : Mem) (p : Int) (v : Vec) : Mem :=
  fun a => if p ≤ a ∧ a < p + 8 then v (a - p).toNat else m a

/-- Store of one 32-bit lane (4 bytes) of `v`. -/
def vst1_lane_u32 (m : Mem) (p : Int) (v : Vec) (lane : Nat) : Mem :=
  fun a => if p ≤ a ∧ a < p + 4 then v (4 * lane + (a - p).toNat) else m a

/-- Narrowing of signed 16-bit lanes to their low 8 bits. -/
def vmovn_s16 (a : Vec) : Vec := fun i => wrap8 (a i)

/-- Lane-wise product by a scalar, low 16 bits kept. -/
def vmulq_n_s16 (a : Vec) (n : Int) : Vec := fun i => wrap16 (a i * n)

/-- Sum across the 8 lanes, low 16 bits kept. -/
def vaddvq_s16 (a : Vec) : Int :=
  wrap16 (a 0 + a 1 + a 2 + a 3 + a 4 + a 5 + a 6 + a 7)

def vdupq_n_s32 (x : Int) : Vec := fun _ => x

def vdupq_n_u8 (x : Int) : Vec := fun _ => x

/-- Lane-wise subtraction of unsigned bytes, modulo 256. -/
def vsubq_u8 (a b : Vec) : Vec := fun i => (a i - b i) % 256

/-- Unsigned bytes read as signed bytes. -/
def vreinterpretq_s8_u8 (a : Vec) : Vec := fun i => wrap8 (a i)

/-- Table lookup in a 16-byte register; an index of 16 or more gives 0. -/
def vqtbl1q_s8 (t idx : Vec) : Vec :=
  fun i => if idx i < 16 then t (idx i).toNat else 0

/-- Signed dot product of groups of four bytes of `a` with the four bytes of
group `lane` of `b`, accumulated on the 32-bit lanes of `r`. -/
def vdotq_lane_s32 (r a b : Vec) (lane : Nat) : Vec :=
  fun i => wrap32 (r i + a (4 * i) * b (4 * lane) + a (4 * i + 1) * b (4 * lane + 1)
    + a (4 * i + 2) * b (4 * lane + 2) + a (4 * i + 3) * b (4 * lane + 3))

/-- Saturating narrowing of signed 32-bit lanes to 16 bits. -/
def vqmovn_s32 (a : Vec) : Vec := fun i => sat16 (a i)

/-! ## The tap kernel (source lines 27-65) -/

def convolve8_4 (s0 s1 s2 s3 s4 s5 s6 s7 filter : Vec) : Vec :=
  let filter_lo := vget_low_s16 filter
  let filter_hi := vget_high_s16 filter
  let sum := vmul_lane_s16 s0 filter_lo 0
  let sum := vmla_lane_s16 sum s1 filter_lo 1
  let sum := vmla_lane_s16 sum s2 filter_lo 2
  let sum := vmla_lane_s16 sum s5 filter_hi 1
  let sum := vmla_lane_s16 sum s6 filter_hi 2
  let sum := vmla_lane_s16 sum s7 filter_hi 3
  let sum := vqadd_s16 sum (vmul_lane_s16 s3 filter_lo 3)
  let sum := vqadd_s16 sum (vmul_lane_s16 s4 filter_hi 0)
  sum

def convolve8_8 (s0 s1 s2 s3 s4 s5 s6 s7 filter : Vec) : Vec :=
  let filter_lo := vget_low_s16 filter
  let filter_hi := vget_high_s16 filter
  let sum := vmulq_lane_s16 s0 filter_lo 0
  let sum := vmlaq_lane_s16 sum s1 filter_lo 1
  let sum := vmlaq_lane_s16 sum s2 filter_lo 2
  let sum := vmlaq_lane_s16 sum s5 filter_hi 1
  let sum := vmlaq_lane_s16 sum s6 filter_hi 2
  let sum := vmlaq_lane_s16 sum s7 filter_hi 3
  let sum := vqaddq_s16 sum (vmulq_lane_s16 s3 filter_lo 3)
  let sum := vqaddq_s16 sum (vmulq_lane_s16 s4 filter_hi 0)
  vqrshrun_n_s16 sum FILTER_BITS

/-! ## The dot-product kernel (source lines 69-131) -/

def dot_prod_permute_tbl : List Int :=
  [0, 1, 2,  3,  1, 2,  3,  4,  2,  3,  4,  5,  3,  4,  5,  6,
   4, 5, 6,  7,  5, 6,  7,  8,  6,  7,  8,  9,  7,  8,  9,  10,
   8, 9, 10, 11, 9, 10, 11, 12, 10, 11, 12, 13, 11, 12, 13, 14]

/-- Load of two consecutive 16-byte registers from a constant table. -/
def vld1q_u8_x2 (t : List Int) : Vec × Vec :=
  (fun i => t.getD i 0, fun i => t.getD (16 + i) 0)

/-- Load of three consecutive 16-byte registers from a constant table. -/
def vld1q_u8_x3 (t : List Int) : Vec × Vec × Vec :=
  (fun i => t.getD i 0, fun i => t.getD (16 + i) 0, fun i => t.getD (32 + i) 0)

/-- The 32-bit accumulator `sum` of `convolve8_4_sdot` (lines 83-94), before
the narrowing of line 97. -/
def convolve8_4_sdot_sum (samples filter correction range_limit : Vec)
    (permute_tbl : Vec × Vec) : Vec :=
  let clamped_samples := vreinterpretq_s8_u8 (vsubq_u8 samples range_limit)
  let permuted_samples0 := vqtbl1q_s8 clamped_samples permute_tbl.1
  let permuted_samples1 := vqtbl1q_s8 clamped_samples permute_tbl.2
  let sum := vdotq_lane_s32 correction permuted_samples0 filter 0
  let sum := vdotq_lane_s32 sum permuted_samples1 filter 1
  sum

def convolve8_4_sdot (samples filter correction range_limit : Vec)
    (permute_tbl : Vec × Vec) : Vec :=
  let sum := convolve8_4_sdot_sum samples filter correction range_limit permute_tbl
  vqmovn_s32 sum

/-- The 32-bit accumulators `sum0`, `sum1` of `convolve8_8_sdot`
(lines 109-126), before the narrowing of lines 129-130. -/
def convolve8_8_sdot_sums (samples filter correction range_limit : Vec)
    (permute_tbl : Vec × Vec × Vec) : Vec × Vec :=
  let clamped_samples := vreinterpretq_s8_u8 (vsubq_u8 samples range_limit)
  let permuted_samples0 := vqtbl1q_s8 clamped_samples permute_tbl.1
  let permuted_samples1 := vqtbl1q_s8 clamped_samples permute_tbl.2.1
  let permuted_samples2 := vqtbl1q_s8 clamped_samples permute_tbl.2.2
  let sum0 := vdotq_lane_s32 correction permuted_samples0 filter 0
  let sum0 := vdotq_lane_s32 sum0 permuted_samples1 filter 1
  let sum1 := vdotq_lane_s32 correction permuted_samples1 filter 0
  let sum1 := vdotq_lane_s32 sum1 permuted_samples2 filter 1
  (sum0, sum1)

def convolve8_8_sdot (samples filter correction range_limit : Vec)
    (permute_tbl : Vec × Vec × Vec) : Vec :=
  let sums := convolve8_8_sdot_sums samples filter correction range_limit permute_tbl
  let sum := vcombine_s16 (vqmovn_s32 sums.1) (vqmovn_s32 sums.2)
  vqrshrun_n_s16 sum FILTER_BITS

/-! ## Helpers of `aom_dsp/arm/mem_neon.h` and `aom_dsp/arm/transpose_neon.h`

The two headers are included by the source file; the helpers below are the
ones the passes call. -/

/-- Modelled from the spec: `load_u8_8x4` of `mem_neon.h`, four rows of 8
bytes at `s`, `s + p`, `s + 2p`, `s + 3p`. -/
def load_u8_8x4 (m : Mem) (s p : Int) : Vec × Vec × Vec × Vec :=
  (vld1_u8 m s, vld1_u8 m (s + p), vld1_u8 m (s + 2 * p), vld1_u8 m (s + 3 * p))

/-- Modelled from the spec: `load_u8_8x7` of `mem_neon.h`, seven rows of 8
bytes. -/
def load_u8_8x7 (m : Mem) (s p : Int) : Vec × Vec × Vec × Vec × Vec × Vec × Vec :=
  (vld1_u8 m s, vld1_u8 m (s + p), vld1_u8 m (s + 2 * p), vld1_u8 m (s + 3 * p),
   vld1_u8 m (s + 4 * p), vld1_u8 m (s + 5 * p), vld1_u8 m (s + 6 * p))

/-- Modelled from the spec: `load_u8_8x8` of `mem_neon.h`, eight rows of 8
bytes. -/
def load_u8_8x8 (m : Mem) (s p : Int) :
    Vec × Vec × Vec × Vec × Vec × Vec × Vec × Vec :=
  (vld1_u8 m s, vld1_u8 m (s + p), vld1_u8 m (s + 2 * p), vld1_u8 m (s + 3 * p),
   vld1_u8 m (s + 4 * p), vld1_u8 m (s + 5 * p), vld1_u8 m (s + 6 * p),
   vld1_u8 m (s + 7 * p))

/-- Modelled from the spec: `load_u8_16x4` of `mem_neon.h`, four rows of 16
bytes. -/
def load_u8_16x4 (m : Mem) (s p : Int) : Vec × Vec × Vec × Vec :=
  (vld1q_u8 m s, vld1q_u8 m (s + p), vld1q_u8 m (s + 2 * p), vld1q_u8 m (s + 3 * p))

/-- Modelled from the spec: `store_u8_4x1` of `mem_neon.h`, the 4 bytes of
32-bit lane `lane` of `s0` stored at `s`. -/
def store_u8_4x1 (m : Mem) (s : Int) (s0 : Vec) (lane : Nat) : Mem :=
  vst1_lane_u32 m s s0 lane

/-- Modelled from the spec: `store_u8_8x4` of `mem_neon.h`, four rows of 8
bytes stored at `s`, `s + p`, `s + 2p`, `s + 3p`. -/
def store_u8_8x4 (m : Mem) (s p : Int) (s0 s1 s2 s3 : Vec) : Mem :=
  let m := vst1_u8 m s s0
  let m := vst1_u8 m (s + p) s1
  let m := vst1_u8 m (s + 2 * p) s2
  let m := vst1_u8 m (s + 3 * p) s3
  m

/-- Modelled from the spec: `store_u8_8x8` of `mem_neon.h`, eight rows of 8
bytes. -/
def store_u8_8x8 (m : Mem) (s p : Int) (s0 s1 s2 s3 s4 s5 s6 s7 : Vec) : Mem :=
  let m := vst1_u8 m s s0
  let m := vst1_u8 m (s + p) s1
  let m := vst1_u8 m (s + 2 * p) s2
  let m := vst1_u8 m (s + 3 * p) s3
  let m := vst1_u8 m (s + 4 * p) s4
  let m := vst1_u8 m (s + 5 * p) s5
  let m := vst1_u8 m (s + 6 * p) s6
  let m := vst1_u8 m (s + 7 * p) s7
  m

/-- Lane `j` of the result is lane `i` of the `j`-th of eight registers. -/
def column8 (a0 a1 a2 a3 a4 a5 a6 a7 : Vec) (i : Nat) : Vec :=
  fun j => match j with
    | 0 => a0 i | 1 => a1 i | 2 => a2 i | 3 => a3 i
    | 4 => a4 i | 5 => a5 i | 6 => a6 i | _ => a7 i

/-- Modelled from the spec: `transpose_u8_8x8` of `transpose_neon.h`, the
transpose of an 8x8 tile of bytes held in eight registers. -/
def transpose_u8_8x8 (a0 a1 a2 a3 a4 a5 a6 a7 : Vec) :
    Vec × Vec × Vec × Vec × Vec × Vec × Vec × Vec :=
  (column8 a0 a1 a2 a3 a4 a5 a6 a7 0, column8 a0 a1 a2 a3 a4 a5 a6 a7 1,
   column8 a0 a1 a2 a3 a4 a5 a6 a7 2, column8 a0 a1 a2 a3 a4 a5 a6 a7 3,
   column8 a0 a1 a2 a3 a4 a5 a6 a7 4, column8 a0 a1 a2 a3 a4 a5 a6 a7 5,
   column8 a0 a1 a2 a3 a4 a5 a6 a7 6, column8 a0 a1 a2 a3 a4 a5 a6 a7 7)

/-- Modelled from the spec: `transpose_u8_4x8` of `transpose_neon.h`, the
transpose of the left 4 columns of eight rows into four registers of 8
lanes. -/
def transpose_u8_4x8 (a0 a1 a2 a3 a4 a5 a6 a7 : Vec) : Vec × Vec × Vec × Vec :=
  (column8 a0 a1 a2 a3 a4 a5 a6 a7 0, column8 a0 a1 a2 a3 a4 a5 a6 a7 1,
   column8 a0 a1 a2 a3 a4 a5 a6 a7 2, column8 a0 a1 a2 a3 a4 a5 a6 a7 3)

/-- Lanes 0-3 are lane `i` of the four registers, lanes 4-7 are lane
`i + 4` of the four registers. -/
def column4 (a0 a1 a2 a3 : Vec) (i : Nat) : Vec :=
  fun j => match j with
    | 0 => a0 i | 1 => a1 i | 2 => a2 i | 3 => a3 i
    | 4 => a0 (i + 4) | 5 => a1 (i + 4) | 6 => a2 (i + 4) | _ => a3 (i + 4)

/-- Modelled from the spec: `transpose_u8_8x4` of `transpose_neon.h`; four
rows of 8 bytes become four registers, register `i` holding column `i` in its
low half and column `i + 4` in its high half. -/
def transpose_u8_8x4 (a0 a1 a2 a3 : Vec) : Vec × Vec × Vec × Vec :=
  (column4 a0 a1 a2 a3 0, column4 a0 a1 a2 a3 1,
   column4 a0 a1 a2 a3 2, column4 a0 a1 a2 a3 3)

/-- Modelled from the spec: `transpose_u8_4x4` of `transpose_neon.h`; the
input registers hold rows 0,1 and rows 2,3 of a 4x4 tile, the output
registers hold columns 0,2 and columns 1,3. -/
def transpose_u8_4x4 (a0 a1 : Vec) : Vec × Vec :=
  (fun j => match j with
    | 0 => a0 0 | 1 => a0 4 | 2 => a1 0 | 3 => a1 4
    | 4 => a0 2 | 5 => a0 6 | 6 => a1 2 | _ => a1 6,
   fun j => match j with
    | 0 => a0 1 | 1 => a0 5 | 2 => a1 1 | 3 => a1 5
    | 4 => a0 3 | 5 => a0 7 | 6 => a1 3 | _ => a1 7)

/-! ## Loops -/

/-- A `do body while (cond)` loop run for at most `fuel` iterations. -/
def do_while {σ : Type} (body : σ → Option σ) (cond : σ → Bool) : Nat → σ → Option σ
  | 0, _ => none
  | fuel + 1, s =>
    match body s with
    | none => none
    | some s1 => if cond s1 then do_while body cond fuel s1 else some s1

/-- Loop state of a loop that walks the image: source pointer, destination
pointer, remaining count (`w`, `h`, `width` or `height` in the source) and the
destination memory. -/
structure Walk where
  src : Int
  dst : Int
  cnt : Int
  out : Mem

/-- Loop state of a loop with the rolling registers `s0 ... s6`. -/
structure Roll where
  src : Int
  dst : Int
  cnt : Int
  s0 : Vec
  s1 : Vec
  s2 : Vec
  s3 : Vec
  s4 : Vec
  s5 : Vec
  s6 : Vec
  out : Mem

/-! ## Horizontal pass, portable build (source lines 211-384) -/

namespace Portable

/-- Body of the loop of the `h == 4` branch (lines 243-275): one 4x4 tile. -/
def horiz_h4_body (S : Mem) (src_stride dst_stride : Int) (filter : Vec)
    (st : Roll) : Roll :=
  let (t0, t1, t2, t3) := load_u8_8x4 S st.src src_stride
  let (t0, t1, t2, t3) := transpose_u8_8x4 t0 t1 t2 t3
  let s7 := vget_low_s16 (vreinterpretq_s16_u16 (vmovl_u8 t0))
  let s8 := vget_low_s16 (vreinterpretq_s16_u16 (vmovl_u8 t1))
  let s9 := vget_low_s16 (vreinterpretq_s16_u16 (vmovl_u8 t2))
  let s10 := vget_low_s16 (vreinterpretq_s16_u16 (vmovl_u8 t3))
  let d0 := convolve8_4 st.s0 st.s1 st.s2 st.s3 st.s4 st.s5 st.s6 s7 filter
  let d1 := convolve8_4 st.s1 st.s2 st.s3 st.s4 st.s5 st.s6 s7 s8 filter
  let d2 := convolve8_4 st.s2 st.s3 st.s4 st.s5 st.s6 s7 s8 s9 filter
  let d3 := convolve8_4 st.s3 st.s4 st.s5 st.s6 s7 s8 s9 s10 filter
  let d01 := vqrshrun_n_s16 (vcombine_s16 d0 d1) FILTER_BITS
  let d23 := vqrshrun_n_s16 (vcombine_s16 d2 d3) FILTER_BITS
  let (d01, d23) := transpose_u8_4x4 d01 d23
  let out := store_u8_4x1 st.out (st.dst + 0 * dst_stride) d01 0
  let out := store_u8_4x1 out (st.dst + 1 * dst_stride) d23 0
  let out := store_u8_4x1 out (st.dst + 2 * dst_stride) d01 1
  let out := store_u8_4x1 out (st.dst + 3 * dst_stride) d23 1
  { src := st.src + 4, dst := st.dst + 4, cnt := st.cnt - 4,
    s0 := st.s4, s1 := st.s5, s2 := st.s6, s3 := s7, s4 := s8, s5 := s9, s6 := s10,
    out := out }

/-- Registers loaded before the loop of the `h == 4` branch (lines 231-241). -/
def horiz_h4_init (S : Mem) (src src_stride : Int) (D : Mem) (dst w : Int) : Roll :=
  let (t0, t1, t2, t3) := load_u8_8x4 S src src_stride
  let (t0, t1, t2, t3) := transpose_u8_8x4 t0 t1 t2 t3
  let s0 := vget_low_s16 (vreinterpretq_s16_u16 (vmovl_u8 t0))
  let s1 := vget_low_s16 (vreinterpretq_s16_u16 (vmovl_u8 t1))
  let s2 := vget_low_s16 (vreinterpretq_s16_u16 (vmovl_u8 t2))
  let s3 := vget_low_s16 (vreinterpretq_s16_u16 (vmovl_u8 t3))
  let s4 := vget_high_s16 (vreinterpretq_s16_u16 (vmovl_u8 t0))
  let s5 := vget_high_s16 (vreinterpretq_s16_u16 (vmovl_u8 t1))
  let s6 := vget_high_s16 (vreinterpretq_s16_u16 (vmovl_u8 t2))
  { src := src + 7, dst := dst, cnt := w,
    s0 := s0, s1 := s1, s2 := s2, s3 := s3, s4 := s4, s5 := s5, s6 := s6, out := D }

/-- Body of the loop of the `w == 4` branch (lines 281-319): one tile of 8
rows by 4 columns. -/
def horiz_w4_body (S : Mem) (src_stride dst_stride : Int) (filter : Vec)
    (st : Walk) : Walk :=
  let (t0, t1, t2, t3, t4, t5, t6, t7) := load_u8_8x8 S st.src src_stride
  let (t0, t1, t2, t3, t4, t5, t6, _) := transpose_u8_8x8 t0 t1 t2 t3 t4 t5 t6 t7
  let s0 := vreinterpretq_s16_u16 (vmovl_u8 t0)
  let s1 := vreinterpretq_s16_u16 (vmovl_u8 t1)
  let s2 := vreinterpretq_s16_u16 (vmovl_u8 t2)
  let s3 := vreinterpretq_s16_u16 (vmovl_u8 t3)
  let s4 := vreinterpretq_s16_u16 (vmovl_u8 t4)
  let s5 := vreinterpretq_s16_u16 (vmovl_u8 t5)
  let s6 := vreinterpretq_s16_u16 (vmovl_u8 t6)
  let (t0, t1, t2, t3, t4, t5, t6, t7) := load_u8_8x8 S (st.src + 7) src_stride
  let (t0, t1, t2, t3) := transpose_u8_4x8 t0 t1 t2 t3 t4 t5 t6 t7
  let s7 := vreinterpretq_s16_u16 (vmovl_u8 t0)
  let s8 := vreinterpretq_s16_u16 (vmovl_u8 t1)
  let s9 := vreinterpretq_s16_u16 (vmovl_u8 t2)
  let s10 := vreinterpretq_s16_u16 (vmovl_u8 t3)
  let d0 := convolve8_8 s0 s1 s2 s3 s4 s5 s6 s7 filter
  let d1 := convolve8_8 s1 s2 s3 s4 s5 s6 s7 s8 filter
  let d2 := convolve8_8 s2 s3 s4 s5 s6 s7 s8 s9 filter
  let d3 := convolve8_8 s3 s4 s5 s6 s7 s8 s9 s10 filter
  let (d0, d1, d2, d3) := transpose_u8_8x4 d0 d1 d2 d3
  let out := store_u8_4x1 st.out (st.dst + 0 * dst_stride) d0 0
  let out := store_u8_4x1 out (st.dst + 1 * dst_stride) d1 0
  let out := store_u8_4x1 out (st.dst + 2 * dst_stride) d2 0
  let out := store_u8_4x1 out (st.dst + 3 * dst_stride) d3 0
  let out := store_u8_4x1 out (st.dst + 4 * dst_stride) d0 1
  let out := store_u8_4x1 out (st.dst + 5 * dst_stride) d1 1
  let out := store_u8_4x1 out (st.dst + 6 * dst_stride) d2 1
  let out := store_u8_4x1 out (st.dst + 7 * dst_stride) d3 1
  { src := st.src + 8 * src_stride, dst := st.dst + 8 * dst_stride,
    cnt := st.cnt - 8, out := out }

/-- Body of the inner loop of the 8x8 branch (lines 342-377): one 8x8 tile. -/
def horiz_8x8_body (S : Mem) (src_stride dst_stride : Int) (filter : Vec)
    (st : Roll) : Roll :=
  let (t0, t1, t2, t3, t4, t5, t6, t7) := load_u8_8x8 S st.src src_stride
  let (t0, t1, t2, t3, t4, t5, t6, t7) := transpose_u8_8x8 t0 t1 t2 t3 t4 t5 t6 t7
  let s7 := vreinterpretq_s16_u16 (vmovl_u8 t0)
  let s8 := vreinterpretq_s16_u16 (vmovl_u8 t1)
  let s9 := vreinterpretq_s16_u16 (vmovl_u8 t2)
  let s10 := vreinterpretq_s16_u16 (vmovl_u8 t3)
  let s11 := vreinterpretq_s16_u16 (vmovl_u8 t4)
  let s12 := vreinterpretq_s16_u16 (vmovl_u8 t5)
  let s13 := vreinterpretq_s16_u16 (vmovl_u8 t6)
  let s14 := vreinterpretq_s16_u16 (vmovl_u8 t7)
  let d0 := convolve8_8 st.s0 st.s1 st.s2 st.s3 st.s4 st.s5 st.s6 s7 filter
  let d1 := convolve8_8 st.s1 st.s2 st.s3 st.s4 st.s5 st.s6 s7 s8 filter
  let d2 := convolve8_8 st.s2 st.s3 st.s4 st.s5 st.s6 s7 s8 s9 filter
  let d3 := convolve8_8 st.s3 st.s4 st.s5 st.s6 s7 s8 s9 s10 filter
  let d4 := convolve8_8 st.s4 st.s5 st.s6 s7 s8 s9 s10 s11 filter
  let d5 := convolve8_8 st.s5 st.s6 s7 s8 s9 s10 s11 s12 filter
  let d6 := convolve8_8 st.s6 s7 s8 s9 s10 s11 s12 s13 filter
  let d7 := convolve8_8 s7 s8 s9 s10 s11 s12 s13 s14 filter
  let (d0, d1, d2, d3, d4, d5, d6, d7) := transpose_u8_8x8 d0 d1 d2 d3 d4 d5 d6 d7
  let out := store_u8_8x8 st.out st.dst dst_stride d0 d1 d2 d3 d4 d5 d6 d7
  { src := st.src + 8, dst := st.dst + 8, cnt := st.cnt - 8,
    s0 := s8, s1 := s9, s2 := s10, s3 := s11, s4 := s12, s5 := s13, s6 := s14,
    out := out }

/-- Registers and pointers set before the inner loop of the 8x8 branch
(lines 328-340). -/
def horiz_8x8_init (S : Mem) (src_stride : Int) (w : Int) (st : Walk) : Roll :=
  let (t0, t1, t2, t3, t4, t5, t6, t7) := load_u8_8x8 S st.src src_stride
  let (t0, t1, t2, t3, t4, t5, t6, _) := transpose_u8_8x8 t0 t1 t2 t3 t4 t5 t6 t7
  let s0 := vreinterpretq_s16_u16 (vmovl_u8 t0)
  let s1 := vreinterpretq_s16_u16 (vmovl_u8 t1)
  let s2 := vreinterpretq_s16_u16 (vmovl_u8 t2)
  let s3 := vreinterpretq_s16_u16 (vmovl_u8 t3)
  let s4 := vreinterpretq_s16_u16 (vmovl_u8 t4)
  let s5 := vreinterpretq_s16_u16 (vmovl_u8 t5)
  let s6 := vreinterpretq_s16_u16 (vmovl_u8 t6)
  { src := st.src + 7, dst := st.dst, cnt := w,
    s0 := s0, s1 := s1, s2 := s2, s3 := s3, s4 := s4, s5 := s5, s6 := s6,
    out := st.out }

/-- Body of the outer loop of the 8x8 branch (lines 327-381): one band of 8
rows. -/
def horiz_8x8_band (fuel : Nat) (S : Mem) (src_stride dst_stride : Int)
    (filter : Vec) (w : Int) (st : Walk) : Option Walk :=
  match do_while (fun r => some (horiz_8x8_body S src_stride dst_stride filter r))
      (fun r => decide (r.cnt ≠ 0)) fuel (horiz_8x8_init S src_stride w st) with
  | none => none
  | some r => some { src := st.src + 8 * src_stride, dst := st.dst + 8 * dst_stride,
                     cnt := st.cnt - 8, out := r.out }

/-- The portable `aom_convolve8_horiz_neon`: `S` is the source memory, `D` the
destination memory before the call; the result is the destination memory
after the call. The two assertions of lines 218-219 stop the call before any
store when `dst` or `dst_stride` is not a multiple of 4: the result is `none`
when an assertion fails or the fuel runs out. -/
def aom_convolve8_horiz_neon (fuel : Nat) (S : Mem) (src src_stride : Int)
    (D : Mem) (dst dst_stride : Int) (filter_x : Nat → Int) (w h : Int) :
    Option Mem :=
  let filter := vld1q_s16 filter_x
  if dst % 4 = 0 then
    if dst_stride % 4 = 0 then
      let src := src - (SUBPEL_TAPS / 2 - 1)
      if h = 4 then
        (do_while (fun r => some (horiz_h4_body S src_stride dst_stride filter r))
          (fun r => decide (r.cnt ≠ 0)) fuel
          (horiz_h4_init S src src_stride D dst w)).map (fun r => r.out)
      else if w = 4 then
        (do_while (fun r => some (horiz_w4_body S src_stride dst_stride filter r))
          (fun r => decide (r.cnt > 0)) fuel
          { src := src, dst := dst, cnt := h, out := D }).map (fun r => r.out)
      else
        (do_while (horiz_8x8_band fuel S src_stride dst_stride filter w)
          (fun r => decide (r.cnt > 0)) fuel
          { src := src, dst := dst, cnt := h, out := D }).map (fun r => r.out)
    else none
  else none

end Portable

/-! ## Horizontal pass, dot-product build (source lines 133-207) -/

namespace DotProd

/-- Body of the loop of the `w == 4` branch (lines 155-176): 4 rows of 4
columns. -/
def horiz_w4_body (S : Mem) (src_stride dst_stride : Int)
    (filter correction range_limit : Vec) (perm_tbl : Vec × Vec) (st : Walk) : Walk :=
  let (s0, s1, s2, s3) := load_u8_16x4 S st.src src_stride
  let t0 := convolve8_4_sdot s0 filter correction range_limit perm_tbl
  let t1 := convolve8_4_sdot s1 filter correction range_limit perm_tbl
  let t2 := convolve8_4_sdot s2 filter correction range_limit perm_tbl
  let t3 := convolve8_4_sdot s3 filter correction range_limit perm_tbl
  let d01 := vqrshrun_n_s16 (vcombine_s16 t0 t1) FILTER_BITS
  let d23 := vqrshrun_n_s16 (vcombine_s16 t2 t3) FILTER_BITS
  let out := store_u8_4x1 st.out (st.dst + 0 * dst_stride) d01 0
  let out := store_u8_4x1 out (st.dst + 1 * dst_stride) d01 1
  let out := store_u8_4x1 out (st.dst + 2 * dst_stride) d23 0
  let out := store_u8_4x1 out (st.dst + 3 * dst_stride) d23 1
  { src := st.src + 4 * src_stride, dst := st.dst + 4 * dst_stride,
    cnt := st.cnt - 4, out := out }

/-- Body of the inner loop of the wide branch (lines 188-201): 4 rows of 8
columns. -/
def horiz_8x4_body (S : Mem) (src_stride dst_stride : Int)
    (filter correction range_limit : Vec) (perm_tbl : Vec × Vec × Vec)
    (st : Walk) : Walk :=
  let (s0, s1, s2, s3) := load_u8_16x4 S st.src src_stride
  let d0 := convolve8_8_sdot s0 filter correction range_limit perm_tbl
  let d1 := convolve8_8_sdot s1 filter correction range_limit perm_tbl
  let d2 := convolve8_8_sdot s2 filter correction range_limit perm_tbl
  let d3 := convolve8_8_sdot s3 filter correction range_limit perm_tbl
  let out := store_u8_8x4 st.out st.dst dst_stride d0 d1 d2 d3
  { src := st.src + 8, dst := st.dst + 8, cnt := st.cnt - 8, out := out }

/-- Body of the outer loop of the wide branch (lines 184-205): one band of 4
rows. -/
def horiz_8x4_band (fuel : Nat) (S : Mem) (src_stride dst_stride : Int)
    (filter correction range_limit : Vec) (perm_tbl : Vec × Vec × Vec) (w : Int)
    (st : Walk) : Option Walk :=
  match do_while
      (fun r => some (horiz_8x4_body S src_stride dst_stride filter correction
        range_limit perm_tbl r))
      (fun r => decide (r.cnt ≠ 0)) fuel
      { src := st.src, dst := st.dst, cnt := w, out := st.out } with
  | none => none
  | some r => some { src := st.src + 4 * src_stride, dst := st.dst + 4 * dst_stride,
                     cnt := st.cnt - 4, out := r.out }

/-- The dot-product `aom_convolve8_horiz_neon`. The two assertions of lines
144-145 stop the call before any store when `dst` or `dst_stride` is not a
multiple of 4: the result is `none` when an assertion fails or the fuel runs
out. -/
def aom_convolve8_horiz_neon (fuel : Nat) (S : Mem) (src src_stride : Int)
    (D : Mem) (dst dst_stride : Int) (filter_x : Nat → Int) (w h : Int) :
    Option Mem :=
  let filter := vmovn_s16 (vld1q_s16 filter_x)
  let correct_tmp := vmulq_n_s16 (vld1q_s16 filter_x) 128
  let correction := vdupq_n_s32 (vaddvq_s16 correct_tmp)
  let range_limit := vdupq_n_u8 128
  if dst % 4 = 0 then
    if dst_stride % 4 = 0 then
      let src := src - (SUBPEL_TAPS / 2 - 1)
      if w = 4 then
        let perm_tbl := vld1q_u8_x2 dot_prod_permute_tbl
        (do_while
          (fun r => some (horiz_w4_body S src_stride dst_stride filter correction
            range_limit perm_tbl r))
          (fun r => decide (r.cnt > 0)) fuel
          { src := src, dst := dst, cnt := h, out := D }).map (fun r => r.out)
      else
        let perm_tbl := vld1q_u8_x3 dot_prod_permute_tbl
        (do_while
          (horiz_8x4_band fuel S src_stride dst_stride filter correction range_limit
            perm_tbl w)
          (fun r => decide (r.cnt > 0)) fuel
          { src := src, dst := dst, cnt := h, out := D }).map (fun r => r.out)
    else none
  else none

end DotProd

/-! ## Vertical pass (source lines 388-500) -/

/-- Body of the loop of the `w == 4` branch (lines 419-448): 4 rows of 4
columns. -/
def vert_w4_body (S : Mem) (src_stride dst_stride : Int) (filter : Vec)
    (st : Roll) : Roll :=
  let (t0, t1, t2, t3) := load_u8_8x4 S st.src src_stride
  let s7 := vget_low_s16 (vreinterpretq_s16_u16 (vmovl_u8 t0))
  let s8 := vget_low_s16 (vreinterpretq_s16_u16 (vmovl_u8 t1))
  let s9 := vget_low_s16 (vreinterpretq_s16_u16 (vmovl_u8 t2))
  let s10 := vget_low_s16 (vreinterpretq_s16_u16 (vmovl_u8 t3))
  let d0 := convolve8_4 st.s0 st.s1 st.s2 st.s3 st.s4 st.s5 st.s6 s7 filter
  let d1 := convolve8_4 st.s1 st.s2 st.s3 st.s4 st.s5 st.s6 s7 s8 filter
  let d2 := convolve8_4 st.s2 st.s3 st.s4 st.s5 st.s6 s7 s8 s9 filter
  let d3 := convolve8_4 st.s3 st.s4 st.s5 st.s6 s7 s8 s9 s10 filter
  let d01 := vqrshrun_n_s16 (vcombine_s16 d0 d1) FILTER_BITS
  let d23 := vqrshrun_n_s16 (vcombine_s16 d2 d3) FILTER_BITS
  let out := store_u8_4x1 st.out (st.dst + 0 * dst_stride) d01 0
  let out := store_u8_4x1 out (st.dst + 1 * dst_stride) d01 1
  let out := store_u8_4x1 out (st.dst + 2 * dst_stride) d23 0
  let out := store_u8_4x1 out (st.dst + 3 * dst_stride) d23 1
  { src := st.src + 4 * src_stride, dst := st.dst + 4 * dst_stride,
    cnt := st.cnt - 4,
    s0 := st.s4, s1 := st.s5, s2 := st.s6, s3 := s7, s4 := s8, s5 := s9, s6 := s10,
    out := out }

/-- Registers loaded before the loop of the `w == 4` branch (lines 408-417). -/
def vert_w4_init (S : Mem) (src src_stride : Int) (D : Mem) (dst h : Int) : Roll :=
  let (t0, t1, t2, t3, t4, t5, t6) := load_u8_8x7 S src src_stride
  let s0 := vget_low_s16 (vreinterpretq_s16_u16 (vmovl_u8 t0))
  let s1 := vget_low_s16 (vreinterpretq_s16_u16 (vmovl_u8 t1))
  let s2 := vget_low_s16 (vreinterpretq_s16_u16 (vmovl_u8 t2))
  let s3 := vget_low_s16 (vreinterpretq_s16_u16 (vmovl_u8 t3))
  let s4 := vget_low_s16 (vreinterpretq_s16_u16 (vmovl_u8 t4))
  let s5 := vget_low_s16 (vreinterpretq_s16_u16 (vmovl_u8 t5))
  let s6 := vget_low_s16 (vreinterpretq_s16_u16 (vmovl_u8 t6))
  { src := src + 7 * src_stride, dst := dst, cnt := h,
    s0 := s0, s1 := s1, s2 := s2, s3 := s3, s4 := s4, s5 := s5, s6 := s6, out := D }

/-- Body of the inner loop of the wide branch (lines 470-494): 4 rows of 8
columns. -/
def vert_8x4_body (S : Mem) (src_stride dst_stride : Int) (filter : Vec)
    (st : Roll) : Roll :=
  let (t0, t1, t2, t3) := load_u8_8x4 S st.src src_stride
  let s7 := vreinterpretq_s16_u16 (vmovl_u8 t0)
  let s8 := vreinterpretq_s16_u16 (vmovl_u8 t1)
  let s9 := vreinterpretq_s16_u16 (vmovl_u8 t2)
  let s10 := vreinterpretq_s16_u16 (vmovl_u8 t3)
  let d0 := convolve8_8 st.s0 st.s1 st.s2 st.s3 st.s4 st.s5 st.s6 s7 filter
  let d1 := convolve8_8 st.s1 st.s2 st.s3 st.s4 st.s5 st.s6 s7 s8 filter
  let d2 := convolve8_8 st.s2 st.s3 st.s4 st.s5 st.s6 s7 s8 s9 filter
  let d3 := convolve8_8 st.s3 st.s4 st.s5 st.s6 s7 s8 s9 s10 filter
  let out := store_u8_8x4 st.out st.dst dst_stride d0 d1 d2 d3
  { src := st.src + 4 * src_stride, dst := st.dst + 4 * dst_stride,
    cnt := st.cnt - 4,
    s0 := st.s4, s1 := st.s5, s2 := st.s6, s3 := s7, s4 := s8, s5 := s9, s6 := s10,
    out := out }

/-- Registers and pointers set before the inner loop of the wide branch
(lines 457-468). -/
def vert_8x4_init (S : Mem) (src_stride : Int) (h : Int) (st : Walk) : Roll :=
  let (t0, t1, t2, t3, t4, t5, t6) := load_u8_8x7 S st.src src_stride
  let s0 := vreinterpretq_s16_u16 (vmovl_u8 t0)
  let s1 := vreinterpretq_s16_u16 (vmovl_u8 t1)
  let s2 := vreinterpretq_s16_u16 (vmovl_u8 t2)
  let s3 := vreinterpretq_s16_u16 (vmovl_u8 t3)
  let s4 := vreinterpretq_s16_u16 (vmovl_u8 t4)
  let s5 := vreinterpretq_s16_u16 (vmovl_u8 t5)
  let s6 := vreinterpretq_s16_u16 (vmovl_u8 t6)
  { src := st.src + 7 * src_stride, dst := st.dst, cnt := h,
    s0 := s0, s1 := s1, s2 := s2, s3 := s3, s4 := s4, s5 := s5, s6 := s6,
    out := st.out }

/-- Body of the outer loop of the wide branch (lines 456-498): one strip of 8
columns. -/
def vert_8x4_strip (fuel : Nat) (S : Mem) (src_stride dst_stride : Int)
    (filter : Vec) (h : Int) (st : Walk) : Option Walk :=
  match do_while (fun r => some (vert_8x4_body S src_stride dst_stride filter r))
      (fun r => decide (r.cnt ≠ 0)) fuel (vert_8x4_init S src_stride h st) with
  | none => none
  | some r => some { src := st.src + 8, dst := st.dst + 8, cnt := st.cnt - 8,
                     out := r.out }

/-- The vertical pass `aom_convolve8_vert_neon`. The two assertions of lines
395-396 stop the call before any store when `dst` or `dst_stride` is not a
multiple of 4: the result is `none` when an assertion fails or the fuel runs
out. -/
def aom_convolve8_vert_neon (fuel : Nat) (S : Mem) (src src_stride : Int)
    (D : Mem) (dst dst_stride : Int) (filter_y : Nat → Int) (w h : Int) :
    Option Mem :=
  let filter := vld1q_s16 filter_y
  if dst % 4 = 0 then
    if dst_stride % 4 = 0 then
      let src := src - (SUBPEL_TAPS / 2 - 1) * src_stride
      if w = 4 then
        (do_while (fun r => some (vert_w4_body S src_stride dst_stride filter r))
          (fun r => decide (r.cnt ≠ 0)) fuel
          (vert_w4_init S src src_stride D dst h)).map (fun r => r.out)
      else
        (do_while (vert_8x4_strip fuel S src_stride dst_stride filter h)
          (fun r => decide (r.cnt ≠ 0)) fuel
          { src := src, dst := dst, cnt := w, out := D }).map (fun r => r.out)
    else none
  else none

/-! ## Reference quantities -/

/-- Exact integer sum of the eight products `x k * f k`. -/
def dot8 (x f : Nat → Int) : Int :=
  x 0 * f 0 + x 1 * f 1 + x 2 * f 2 + x 3 * f 3 + x 4 * f 4 + x 5 * f 5
    + x 6 * f 6 + x 7 * f 7

/-- Round to nearest (halves up) after division by `2 ^ FILTER_BITS`, clamped
to `[0, 255]`. -/
def round_clamp (S : Int) : Int := min 255 (max 0 ((S + 64) / 128))

/-- The value fits a signed 16-bit lane. -/
def fits16 (x : Int) : Prop := -32768 ≤ x ∧ x ≤ 32767

instance (x : Int) : Decidable (fits16 x) := by unfold fits16; infer_instance

/-- Single-lane tap kernel: `convolve8_8` on registers that hold sample `x k`
in every lane, read at lane 0. -/
def convolve8_lane (x : Nat → Int) (filter : Vec) : Int :=
  convolve8_8 (fun _ => x 0) (fun _ => x 1) (fun _ => x 2) (fun _ => x 3)
    (fun _ => x 4) (fun _ => x 5) (fun _ => x 6) (fun _ => x 7) filter 0

/-- No product and no running sum of the accumulation of `convolve8_8`, in its
order (terms 0, 1, 2, 5, 6, 7, then 3), leaves the signed 16-bit range. -/
def no_overflow16 (x f : Nat → Int) : Prop :=
  fits16 (x 0 * f 0) ∧ fits16 (x 1 * f 1) ∧ fits16 (x 2 * f 2) ∧ fits16 (x 3 * f 3)
  ∧ fits16 (x 4 * f 4) ∧ fits16 (x 5 * f 5) ∧ fits16 (x 6 * f 6) ∧ fits16 (x 7 * f 7)
  ∧ fits16 (x 0 * f 0 + x 1 * f 1)
  ∧ fits16 (x 0 * f 0 + x 1 * f 1 + x 2 * f 2)
  ∧ fits16 (x 0 * f 0 + x 1 * f 1 + x 2 * f 2 + x 5 * f 5)
  ∧ fits16 (x 0 * f 0 + x 1 * f 1 + x 2 * f 2 + x 5 * f 5 + x 6 * f 6)
  ∧ fits16 (x 0 * f 0 + x 1 * f 1 + x 2 * f 2 + x 5 * f 5 + x 6 * f 6 + x 7 * f 7)
  ∧ fits16 (x 0 * f 0 + x 1 * f 1 + x 2 * f 2 + x 5 * f 5 + x 6 * f 6 + x 7 * f 7
      + x 3 * f 3)

instance (x f : Nat → Int) : Decidable (no_overflow16 x f) := by
  unfold no_overflow16; infer_instance

/-! ## Blocks of destination memory -/

/-- The byte of memory `m` at address `a`. -/
def px (m : Mem) (a : Int) : Int := m a % 256

/-- Memory `D1` is `D0` with the block of `R` rows and `C` columns at `dst`
(row stride `ds`) set to `val`, and nothing else changed. -/
def Wrote (D0 D1 : Mem) (dst ds : Int) (R C : Nat) (val : Nat → Nat → Int) : Prop :=
  (∀ r c, r < R → c < C → D1 (dst + r * ds + c) = val r c) ∧
  (∀ a, (∀ r c, r < R → c < C → a ≠ dst + r * ds + c) → D1 a = D0 a)

/-- Row `r` of a tile whose rows are the given registers, read from lane `o r`
on. -/
def tile_rows (vs : List Vec) (o : List Nat) : Nat → Nat → Int :=
  fun r c => (vs.getD r (fun _ => 0)) (o.getD r 0 + c)

/-! ## Windows and registers -/

/-- The 8 samples of a row window starting at address `p`. -/
def row_window (S : Mem) (p : Int) : Nat → Int := fun k => px S (p + k)

/-- The 8 samples of a column window starting at address `p`. -/
def col_window (S : Mem) (p ss : Int) : Nat → Int := fun k => px S (p + k * ss)

/-- The rolling registers of `st` hold the 7 source rows that end just above
the row at `st.src`, on the first `N` lanes. -/
def VInv (S : Mem) (ss : Int) (N : Nat) (st : Roll) : Prop :=
  (∀ i, i < N → st.s0 i = px S (st.src - 7 * ss + i)) ∧
  (∀ i, i < N → st.s1 i = px S (st.src - 6 * ss + i)) ∧
  (∀ i, i < N → st.s2 i = px S (st.src - 5 * ss + i)) ∧
  (∀ i, i < N → st.s3 i = px S (st.src - 4 * ss + i)) ∧
  (∀ i, i < N → st.s4 i = px S (st.src - 3 * ss + i)) ∧
  (∀ i, i < N → st.s5 i = px S (st.src - 2 * ss + i)) ∧
  (∀ i, i < N → st.s6 i = px S (st.src - 1 * ss + i))

/-- Entry `(r, c)` of a tile whose columns are the given registers: lane `r`
of register `c`. -/
def tile_cols (vs : List Vec) : Nat → Nat → Int :=
  fun r c => (vs.getD c (fun _ => 0)) r

/-- The rolling registers of `st` hold the 7 source columns that end just left
of the column at `st.src`, for `N` rows. -/
def HInv (S : Mem) (ss : Int) (N : Nat) (st : Roll) : Prop :=
  (∀ i, i < N → st.s0 i = px S (st.src - 7 + i * ss)) ∧
  (∀ i, i < N → st.s1 i = px S (st.src - 6 + i * ss)) ∧
  (∀ i, i < N → st.s2 i = px S (st.src - 5 + i * ss)) ∧
  (∀ i, i < N → st.s3 i = px S (st.src - 4 + i * ss)) ∧
  (∀ i, i < N → st.s4 i = px S (st.src - 3 + i * ss)) ∧
  (∀ i, i < N → st.s5 i = px S (st.src - 2 + i * ss)) ∧
  (∀ i, i < N → st.s6 i = px S (st.src - 1 + i * ss))

/-- The samples that one lane `i` of eight registers feeds to the tap kernel. -/
def lane_window (s0 s1 s2 s3 s4 s5 s6 s7 : Vec) (i : Nat) : Nat → Int :=
  fun k => match k with
    | 0 => s0 i | 1 => s1 i | 2 => s2 i | 3 => s3 i
    | 4 => s4 i | 5 => s5 i | 6 => s6 i | _ => s7 i

/-- The rolling registers of `st` hold, on the first `N` lanes, the 7
consecutive source rows that start at address `p`. -/
def holds_rows (S : Mem) (p ss : Int) (N : Nat) (st : Roll) : Prop :=
  ∀ i, i < N →
    st.s0 i = px S (p + 0 * ss + i) ∧ st.s1 i = px S (p + 1 * ss + i) ∧
    st.s2 i = px S (p + 2 * ss + i) ∧ st.s3 i = px S (p + 3 * ss + i) ∧
    st.s4 i = px S (p + 4 * ss + i) ∧ st.s5 i = px S (p + 5 * ss + i) ∧
    st.s6 i = px S (p + 6 * ss + i)

/-- The 8 samples that output lane `n` of the dot-product kernel reads from a
16-byte chunk. -/
def sdot_window (samples : Vec) (n : Nat) : Nat → Int := fun k => samples (n + k)

/-- The value is a signed 8-bit value. -/
def fits8 (x : Int) : Prop := -128 ≤ x ∧ x ≤ 127

instance (x : Int) : Decidable (fits8 x) := by unfold fits8; infer_instance

/-- Sum of the eight taps. -/
def tap_sum (f : Nat → Int) : Int := f 0 + f 1 + f 2 + f 3 + f 4 + f 5 + f 6 + f 7

/-- The 32-bit accumulation of the dot-product kernel for one output: the
samples `x` re-biased by 128, the taps narrowed to 8 bits, two dot products of
four terms accumulated on the correction. -/
def sdot_acc (x f : Nat → Int) : Int :=
  wrap32 (wrap32 (vaddvq_s16 (vmulq_n_s16 (vld1q_s16 f) 128)
      + wrap8 ((x 0 - 128) % 256) * wrap8 (f 0) + wrap8 ((x 1 - 128) % 256) * wrap8 (f 1)
      + wrap8 ((x 2 - 128) % 256) * wrap8 (f 2) + wrap8 ((x 3 - 128) % 256) * wrap8 (f 3))
    + wrap8 ((x 4 - 128) % 256) * wrap8 (f 4) + wrap8 ((x 5 - 128) % 256) * wrap8 (f 5)
    + wrap8 ((x 6 - 128) % 256) * wrap8 (f 6) + wrap8 ((x 7 - 128) % 256) * wrap8 (f 7))

/-- The byte the dot-product kernel produces for one output: the accumulator
narrowed with saturation to 16 bits, then rounded, shifted and saturated. -/
def sdot_lane (x f : Nat → Int) : Int := satu8 ((sat16 (sdot_acc x f) + 64) / 128)

/-- The accumulation of `convolve8_8` with every 16-bit addition replaced by a
saturating addition, followed by the same rounding narrow: the reference of
the saturation-boundary property. -/
def convolve8_sat_lane (x f : Nat → Int) : Int :=
  satu8 ((sat16 (sat16 (sat16 (sat16 (sat16 (sat16 (sat16 (wrap16 (x 0 * f 0)
    + wrap16 (x 1 * f 1)) + wrap16 (x 2 * f 2)) + wrap16 (x 5 * f 5))
    + wrap16 (x 6 * f 6)) + wrap16 (x 7 * f 7)) + wrap16 (x 3 * f 3))
    + wrap16 (x 4 * f 4)) + 64) / 128)

/-- Every product fits 16 bits. -/
def products_fit16 (x f : Nat → Int) : Prop :=
  fits16 (x 0 * f 0) ∧ fits16 (x 1 * f 1) ∧ fits16 (x 2 * f 2) ∧ fits16 (x 3 * f 3)
  ∧ fits16 (x 4 * f 4) ∧ fits16 (x 5 * f 5) ∧ fits16 (x 6 * f 6) ∧ fits16 (x 7 * f 7)

instance (x f : Nat → Int) : Decidable (products_fit16 x f) := by
  unfold products_fit16; infer_instance

/-- The running sums over the six outer terms (0, 1, 2, 5, 6, 7), the ones
added with `vmla`, fit 16 bits. -/
def outer_sums_fit16 (x f : Nat → Int) : Prop :=
  fits16 (x 0 * f 0 + x 1 * f 1)
  ∧ fits16 (x 0 * f 0 + x 1 * f 1 + x 2 * f 2)
  ∧ fits16 (x 0 * f 0 + x 1 * f 1 + x 2 * f 2 + x 5 * f 5)
  ∧ fits16 (x 0 * f 0 + x 1 * f 1 + x 2 * f 2 + x 5 * f 5 + x 6 * f 6)
  ∧ fits16 (x 0 * f 0 + x 1 * f 1 + x 2 * f 2 + x 5 * f 5 + x 6 * f 6 + x 7 * f 7)

instance (x f : Nat → Int) : Decidable (outer_sums_fit16 x f) := by
  unfold outer_sums_fit16; infer_instance

/-- The half-pel bilinear kernel. -/
def halfpel_taps : Nat → Int := fun k => ([0, 0, 0, 64, 64, 0, 0, 0] : List Int).getD k 0

/-- The sharpening kernel of the reference scenario. -/
def sharp_taps : Nat → Int := fun k => ([1, -5, 20, 90, 20, -5, 1, 0] : List Int).getD k 0

/-- Division by 128 rounded to nearest with halves away from zero, the
rounding of a floating-point reference. -/
def round_half_away (S : Int) : Int :=
  if 0 ≤ S then (S + 64) / 128 else -((-S + 64) / 128)

/-! ## Scalar evaluation, identity kernel, window bounds and row tiles -/

/-- Direct scalar evaluation of the tap kernel on one lane: the six outer
products summed exactly and reduced to 16 bits, the product of term 3 and the
product of term 4 each reduced to 16 bits and added with saturation, then the
rounding shift by 7 with saturation to `[0, 255]`. -/
def scalar_eval (x f : Nat → Int) : Int :=
  satu8 ((sat16 (sat16 (wrap16 (x 0 * f 0 + x 1 * f 1 + x 2 * f 2 + x 5 * f 5
    + x 6 * f 6 + x 7 * f 7) + wrap16 (x 3 * f 3)) + wrap16 (x 4 * f 4)) + 64) / 128)

/-- The identity kernel. -/
def identity_taps : Nat → Int := fun k => ([0, 0, 0, 128, 0, 0, 0, 0] : List Int).getD k 0

/-- The smallest of the eight samples of a window. -/
def window_min (x : Nat → Int) : Int :=
  min (x 0) (min (x 1) (min (x 2) (min (x 3) (min (x 4) (min (x 5) (min (x 6) (x 7)))))))

/-- The largest of the eight samples of a window. -/
def window_max (x : Nat → Int) : Int :=
  max (x 0) (max (x 1) (max (x 2) (max (x 3) (max (x 4) (max (x 5) (max (x 6) (x 7)))))))

/-- The two chained 4-term dot products of the dot-product kernel for output
`n`: clamped samples `c (n) ... c (n + 7)` against taps `0 ... 7`, accumulated
on `corr` in 32 bits. -/
def sdot_sum (c filter : Vec) (corr : Int) (n : Nat) : Int :=
  wrap32 (wrap32 (corr + c n * filter 0 + c (n + 1) * filter 1 + c (n + 2) * filter 2
      + c (n + 3) * filter 3)
    + c (n + 4) * filter 4 + c (n + 5) * filter 5 + c (n + 6) * filter 6
    + c (n + 7) * filter 7)

/-- Number of destination rows the portable horizontal pass writes for a
height `h`: 4 in the `h == 4` branch, otherwise `h` rounded up to a multiple of
8, because the other branches store tiles of 8 rows while `h > 0`. -/
def portable_rows (h : Int) : Int := if h = 4 then 4 else 8 * ((h + 7) / 8)

/-! ## Traces of the source loads -/

/-- State of a loop in the trace of the source loads of a pass: the source
pointer, the remaining count and the row loads done so far, in order, each
given by the address of its first byte and its number of bytes. -/
structure Trace where
  src : Int
  cnt : Int
  log : List (Int × Nat)

/-- Modelled from the spec: the row loads of a helper `load_u8_<bytes>x<rows>`
of `mem_neon.h` called with pointer `s` and stride `p`, that is `rows` loads of
`bytes` bytes at `s`, `s + p`, ... -/
def load_rows (s p : Int) (rows bytes : Nat) : List (Int × Nat) :=
  (List.range rows).map (fun (i : Nat) => (s + (i : Int) * p, bytes))

/-- Loads of one iteration of the row loop of the vertical pass (lines 420
and 471): `load_u8_8x4` at the row pointer, which then advances by 4 rows. -/
def vert_body_loads (src_stride : Int) (st : Trace) : Trace :=
  { src := st.src + 4 * src_stride, cnt := st.cnt - 4,
    log := st.log ++ load_rows st.src src_stride 4 8 }

/-- Loads of one strip of 8 columns of the vertical pass (lines 456-498):
`load_u8_8x7` at the strip pointer, then the row loop from 7 rows below. -/
def vert_strip_loads (fuel : Nat) (src_stride h : Int) (st : Trace) : Option Trace :=
  match do_while (fun r => some (vert_body_loads src_stride r))
      (fun r => decide (r.cnt ≠ 0)) fuel
      { src := st.src + 7 * src_stride, cnt := h,
        log := st.log ++ load_rows st.src src_stride 7 8 } with
  | none => none
  | some r => some { src := st.src + 8, cnt := st.cnt - 8, log := r.log }

/-- The source row loads of `aom_convolve8_vert_neon`, in program order. -/
def vert_loads (fuel : Nat) (src src_stride w h : Int) : Option (List (Int × Nat)) :=
  let src := src - (SUBPEL_TAPS / 2 - 1) * src_stride
  if w = 4 then
    (do_while (fun r => some (vert_body_loads src_stride r))
      (fun r => decide (r.cnt ≠ 0)) fuel
      { src := src + 7 * src_stride, cnt := h,
        log := load_rows src src_stride 7 8 }).map (fun r => r.log)
  else
    (do_while (vert_strip_loads fuel src_stride h) (fun r => decide (r.cnt ≠ 0)) fuel
      { src := src, cnt := w, log := [] }).map (fun r => r.log)

/-- The row loads of one column batch of the vertical pass as the claim lists
them: source rows `-3, -2, ..., h + 3` of the batch that starts at column
`col`, one load of 8 bytes each. -/
def batch_rows (src src_stride : Int) (h : Nat) (col : Int) : List (Int × Nat) :=
  (List.range (h + 7)).map
    (fun (j : Nat) => (src + col + ((j : Int) - 3) * src_stride, 8))

/-- Loads of one iteration of the column loop of the portable `h == 4` branch
(line 244): `load_u8_8x4` at the column pointer, which advances by 4. -/
def Portable.horiz_h4_loads (src_stride : Int) (st : Trace) : Trace :=
  { src := st.src + 4, cnt := st.cnt - 4,
    log := st.log ++ load_rows st.src src_stride 4 8 }

/-- Loads of one iteration of the row loop of the portable `w == 4` branch
(lines 282 and 292): `load_u8_8x8` at `src` and at `src + 7`. -/
def Portable.horiz_w4_loads (src_stride : Int) (st : Trace) : Trace :=
  { src := st.src + 8 * src_stride, cnt := st.cnt - 8,
    log := st.log ++ load_rows st.src src_stride 8 8 ++
      load_rows (st.src + 7) src_stride 8 8 }

/-- Loads of one iteration of the inner loop of the portable 8x8 branch
(line 343): `load_u8_8x8` at `s`, which advances by 8. -/
def Portable.horiz_8x8_loads (src_stride : Int) (st : Trace) : Trace :=
  { src := st.src + 8, cnt := st.cnt - 8,
    log := st.log ++ load_rows st.src src_stride 8 8 }

/-- Loads of one band of 8 rows of the portable 8x8 branch (lines 327-380):
`load_u8_8x8` at `src`, then the inner loop from `src + 7`. -/
def Portable.horiz_band_loads (fuel : Nat) (src_stride w : Int) (st : Trace) :
    Option Trace :=
  match do_while (fun r => some (Portable.horiz_8x8_loads src_stride r))
      (fun r => decide (r.cnt ≠ 0)) fuel
      { src := st.src + 7, cnt := w,
        log := st.log ++ load_rows st.src src_stride 8 8 } with
  | none => none
  | some r => some { src := st.src + 8 * src_stride, cnt := st.cnt - 8, log := r.log }

/-- The source row loads of the portable `aom_convolve8_horiz_neon`, in
program order. -/
def Portable.horiz_loads (fuel : Nat) (src src_stride w h : Int) :
    Option (List (Int × Nat)) :=
  let src := src - (SUBPEL_TAPS / 2 - 1)
  if h = 4 then
    (do_while (fun r => some (Portable.horiz_h4_loads src_stride r))
      (fun r => decide (r.cnt ≠ 0)) fuel
      { src := src + 7, cnt := w, log := load_rows src src_stride 4 8 }).map
      (fun r => r.log)
  else if w = 4 then
    (do_while (fun r => some (Portable.horiz_w4_loads src_stride r))
      (fun r => decide (r.cnt > 0)) fuel
      { src := src, cnt := h, log := [] }).map (fun r => r.log)
  else
    (do_while (Portable.horiz_band_loads fuel src_stride w)
      (fun r => decide (r.cnt > 0)) fuel
      { src := src, cnt := h, log := [] }).map (fun r => r.log)

/-- Loads of one iteration of the row loop of the dot-product `w == 4` branch
(line 159): `load_u8_16x4` at `src`, which advances by 4 rows. -/
def DotProd.horiz_w4_loads (src_stride : Int) (st : Trace) : Trace :=
  { src := st.src + 4 * src_stride, cnt := st.cnt - 4,
    log := st.log ++ load_rows st.src src_stride 4 16 }

/-- Loads of one iteration of the inner loop of the dot-product wide branch
(line 189): `load_u8_16x4` at `s`, which advances by 8. -/
def DotProd.horiz_8x4_loads (src_stride : Int) (st : Trace) : Trace :=
  { src := st.src + 8, cnt := st.cnt - 8,
    log := st.log ++ load_rows st.src src_stride 4 16 }

/-- Loads of one band of 4 rows of the dot-product wide branch (lines
184-205). -/
def DotProd.horiz_band_loads (fuel : Nat) (src_stride w : Int) (st : Trace) :
    Option Trace :=
  match do_while (fun r => some (DotProd.horiz_8x4_loads src_stride r))
      (fun r => decide (r.cnt ≠ 0)) fuel
      { src := st.src, cnt := w, log := st.log } with
  | none => none
  | some r => some { src := st.src + 4 * src_stride, cnt := st.cnt - 4, log := r.log }

/-- The source row loads of the dot-product `aom_convolve8_horiz_neon`, in
program order. -/
def DotProd.horiz_loads (fuel : Nat) (src src_stride w h : Int) :
    Option (List (Int × Nat)) :=
  let src := src - (SUBPEL_TAPS / 2 - 1)
  if w = 4 then
    (do_while (fun r => some (DotProd.horiz_w4_loads src_stride r))
      (fun r => decide (r.cnt > 0)) fuel
      { src := src, cnt := h, log := [] }).map (fun r => r.log)
  else
    (do_while (DotProd.horiz_band_loads fuel src_stride w)
      (fun r => decide (r.cnt > 0)) fuel
      { src := src, cnt := h, log := [] }).map (fun r => r.log)

/-- The byte at address `a` lies in a row `r` with `0 ≤ r < rows` and a column
`c` with `lo ≤ c ≤ hi` of the source block at `src`. -/
def in_region (src src_stride rows lo hi a : Int) : Prop :=
  ∃ r c : Int, 0 ≤ r ∧ r < rows ∧ lo ≤ c ∧ c ≤ hi ∧ a = src + r * src_stride + c

/-- Every byte of every row load of the list lies in the region. -/
def loads_within (L : List (Int × Nat)) (src src_stride rows lo hi : Int) : Prop :=
  ∀ e ∈ L, ∀ j : Nat, j < e.2 → in_region src src_stride rows lo hi (e.1 + j)

/-- Bytes past the last output column that the portable horizontal pass
loads: 7 in the branches `h == 4` and `w == 4`, 3 in the 8x8 branch. -/
def portable_right_margin (w h : Int) : Int := if h = 4 ∨ w = 4 then 7 else 3

/-- Bytes past the last output column that the dot-product horizontal pass
loads: 8 in the branch `w == 4`, 4 in the wide branch. -/
def dotprod_right_margin (w : Int) : Int := if w = 4 then 8 else 4

/-- Source rows that the dot-product horizontal pass walks: whole tiles of 4
rows. -/
def dotprod_rows (h : Int) : Int := 4 * ((h + 3) / 4)

/-! ## The tap kernel on one lane -/

theorem convolve8_8_lane (s0 s1 s2 s3 s4 s5 s6 s7 filter : Vec) (i : Nat) :
    convolve8_8 s0 s1 s2 s3 s4 s5 s6 s7 filter i =
      convolve8_lane (lane_window s0 s1 s2 s3 s4 s5 s6 s7 i) filter := by
  simp only [convolve8_lane, convolve8_8, vmulq_lane_s16, vmlaq_lane_s16, vqaddq_s16,
    vqrshrun_n_s16, vget_low_s16, vget_high_s16, lane_window]

theorem wrap16_of_fits16 {x : Int} (h : fits16 x) : wrap16 x = x := by
  unfold fits16 at h; unfold wrap16; omega

theorem sat16_of_fits16 {x : Int} (h : fits16 x) : sat16 x = x := by
  unfold fits16 at h; unfold sat16; omega

theorem satu8_shift_sat16 (x : Int) :
    satu8 ((sat16 x + 64) / 128) = min 255 (max 0 ((x + 64) / 128)) := by
  unfold satu8 sat16; omega

theorem convolve8_lane_unfold (x : Nat → Int) (filter : Vec) :
    convolve8_lane x filter =
      satu8 ((sat16 (sat16 (wrap16 (wrap16 (wrap16 (wrap16 (wrap16 (wrap16 (x 0 * filter 0)
        + x 1 * filter 1) + x 2 * filter 2) + x 5 * filter 5) + x 6 * filter 6)
        + x 7 * filter 7) + wrap16 (x 3 * filter 3)) + wrap16 (x 4 * filter 4)) + 64) / 128) := by
  simp only [convolve8_lane, convolve8_8, vmulq_lane_s16, vmlaq_lane_s16, vqaddq_s16,
    vqrshrun_n_s16, vget_low_s16, vget_high_s16, FILTER_BITS]
  norm_num

theorem convolve8_lane_exact (x : Nat → Int) (filter : Vec)
    (h : no_overflow16 x filter) :
    convolve8_lane x filter = round_clamp (dot8 x filter) := by
  obtain ⟨h0, h1, h2, h3, h4, h5, h6, h7, a1, a2, a5, a6, a7, a3⟩ := h
  rw [convolve8_lane_unfold, wrap16_of_fits16 h0, wrap16_of_fits16 a1, wrap16_of_fits16 a2,
    wrap16_of_fits16 a5, wrap16_of_fits16 a6, wrap16_of_fits16 a7, wrap16_of_fits16 h3,
    wrap16_of_fits16 h4, sat16_of_fits16 a3, satu8_shift_sat16]
  unfold round_clamp dot8
  congr 4
  ring

theorem addr_inj {ds : Int} {r1 r2 c1 c2 : Nat} (h1 : (c1 : Int) < ds)
    (h2 : (c2 : Int) < ds) (h : (r1 : Int) * ds + c1 = r2 * ds + c2) :
    r1 = r2 ∧ c1 = c2 := by
  have hr : r1 = r2 := by
    rcases lt_trichotomy r1 r2 with hlt | heq | hgt
    · exfalso
      have : (r1 : Int) + 1 ≤ r2 := by exact_mod_cast hlt
      have hds : (0 : Int) ≤ ds := by omega
      nlinarith [mul_le_mul_of_nonneg_right this hds]
    · exact heq
    · exfalso
      have : (r2 : Int) + 1 ≤ r1 := by exact_mod_cast hgt
      have hds : (0 : Int) ≤ ds := by omega
      nlinarith [mul_le_mul_of_nonneg_right this hds]
  subst hr
  exact ⟨rfl, by omega⟩

theorem Wrote.vcat {D0 D1 D2 : Mem} {dst dst2 ds : Int} {R R1 R2 C : Nat}
    {val v1 v2 : Nat → Nat → Int}
    (h1 : Wrote D0 D1 dst ds R1 C v1) (h2 : Wrote D1 D2 dst2 ds R2 C v2)
    (hd : dst2 = dst + R1 * ds) (hR : R = R1 + R2) (hC : (C : Int) ≤ ds)
    (e1 : ∀ r c, r < R1 → c < C → val r c = v1 r c)
    (e2 : ∀ r c, r < R2 → c < C → val (R1 + r) c = v2 r c) :
    Wrote D0 D2 dst ds R C val := by
  subst hd hR
  refine ⟨fun r c hr hc => ?_, fun a ha => ?_⟩
  · by_cases hlt : r < R1
    · rw [e1 r c hlt hc, ← h1.1 r c hlt hc]
      apply h2.2
      intro r' c' hr' hc' heq
      have hc1 : (c : Int) < ds := by omega
      have hc2 : (c' : Int) < ds := by omega
      have := @addr_inj ds r (R1 + r') c c' hc1 hc2 (by push_cast; linarith)
      omega
    · obtain ⟨k, rfl⟩ : ∃ k, r = R1 + k := ⟨r - R1, by omega⟩
      rw [e2 k c (by omega) hc, ← h2.1 k c (by omega) hc]
      congr 1; push_cast; ring1
  · rw [h2.2 a, h1.2 a]
    · intro r c hr hc; exact ha r c (by omega) hc
    · intro r c hr hc heq
      apply ha (R1 + r) c (by omega) hc
      rw [heq]; push_cast; ring1

theorem Wrote.hcat {D0 D1 D2 : Mem} {dst dst2 ds : Int} {R C C1 C2 : Nat}
    {val v1 v2 : Nat → Nat → Int}
    (h1 : Wrote D0 D1 dst ds R C1 v1) (h2 : Wrote D1 D2 dst2 ds R C2 v2)
    (hd : dst2 = dst + C1) (hCs : C = C1 + C2) (hC : (C : Int) ≤ ds)
    (e1 : ∀ r c, r < R → c < C1 → val r c = v1 r c)
    (e2 : ∀ r c, r < R → c < C2 → val r (C1 + c) = v2 r c) :
    Wrote D0 D2 dst ds R C val := by
  subst hd hCs
  refine ⟨fun r c hr hc => ?_, fun a ha => ?_⟩
  · by_cases hlt : c < C1
    · rw [e1 r c hr hlt, ← h1.1 r c hr hlt]
      apply h2.2
      intro r' c' hr' hc' heq
      have hc1 : (c : Int) < ds := by omega
      have hc2 : ((C1 + c' : Nat) : Int) < ds := by push_cast at hC ⊢; omega
      have := @addr_inj ds r r' c (C1 + c') hc1 hc2 (by push_cast; linarith)
      omega
    · obtain ⟨k, rfl⟩ : ∃ k, c = C1 + k := ⟨c - C1, by omega⟩
      rw [e2 r k hr (by omega), ← h2.1 r k hr (by omega)]
      congr 1; push_cast; ring1
  · rw [h2.2 a, h1.2 a]
    · intro r c hr hc; exact ha r c hr (by omega)
    · intro r c hr hc heq
      apply ha r (C1 + c) hr (by omega)
      rw [heq]; push_cast; ring1

theorem wrote_vst1_u8 (D : Mem) (p ds : Int) (v : Vec) :
    Wrote D (vst1_u8 D p v) p ds 1 8 (fun _ c => v c) := by
  refine ⟨fun r c hr hc => ?_, fun a ha => ?_⟩
  · obtain rfl : r = 0 := by omega
    have h : p ≤ p + ((0 : Nat) : Int) * ds + c ∧ p + ((0 : Nat) : Int) * ds + c < p + 8 := by
      constructor <;> push_cast <;> omega
    simp only [vst1_u8, h, and_self, if_true]
    congr 1; push_cast; omega
  · have h : ¬ (p ≤ a ∧ a < p + 8) := by
      rintro ⟨h1, h2⟩
      apply ha 0 (a - p).toNat (by omega) (by omega)
      push_cast; omega
    simp only [vst1_u8, h, if_false]

theorem wrote_store_u8_4x1 (D : Mem) (p ds : Int) (v : Vec) (lane : Nat) :
    Wrote D (store_u8_4x1 D p v lane) p ds 1 4 (fun _ c => v (4 * lane + c)) := by
  refine ⟨fun r c hr hc => ?_, fun a ha => ?_⟩
  · obtain rfl : r = 0 := by omega
    have h : p ≤ p + ((0 : Nat) : Int) * ds + c ∧ p + ((0 : Nat) : Int) * ds + c < p + 4 := by
      constructor <;> push_cast <;> omega
    simp only [store_u8_4x1, vst1_lane_u32, h, and_self, if_true]
    congr 2; push_cast; omega
  · have h : ¬ (p ≤ a ∧ a < p + 4) := by
      rintro ⟨h1, h2⟩
      apply ha 0 (a - p).toNat (by omega) (by omega)
      push_cast; omega
    simp only [store_u8_4x1, vst1_lane_u32, h, if_false]

theorem Wrote.vsnoc4 {D0 D1 : Mem} {p q ds : Int} {R R1 : Nat} {val : Nat → Nat → Int}
    {v : Vec} {lane : Nat}
    (h1 : Wrote D0 D1 p ds R1 4 val) (hq : q = p + R1 * ds) (hR : R = R1 + 1)
    (hds : 4 ≤ ds) (e : ∀ c, c < 4 → val R1 c = v (4 * lane + c)) :
    Wrote D0 (store_u8_4x1 D1 q v lane) p ds R 4 val :=
  Wrote.vcat h1 (wrote_store_u8_4x1 D1 q ds v lane) hq hR (by exact_mod_cast hds)
    (fun _ _ _ _ => rfl)
    (fun r c hr hc => by obtain rfl : r = 0 := by omega
                         exact e c hc)

theorem Wrote.vsnoc8 {D0 D1 : Mem} {p q ds : Int} {R R1 : Nat} {val : Nat → Nat → Int}
    {v : Vec}
    (h1 : Wrote D0 D1 p ds R1 8 val) (hq : q = p + R1 * ds) (hR : R = R1 + 1)
    (hds : 8 ≤ ds) (e : ∀ c, c < 8 → val R1 c = v c) :
    Wrote D0 (vst1_u8 D1 q v) p ds R 8 val :=
  Wrote.vcat h1 (wrote_vst1_u8 D1 q ds v) hq hR (by exact_mod_cast hds)
    (fun _ _ _ _ => rfl)
    (fun r c hr hc => by obtain rfl : r = 0 := by omega
                         exact e c hc)

theorem Wrote.nil (D : Mem) (p ds : Int) (C : Nat) (val : Nat → Nat → Int) :
    Wrote D D p ds 0 C val :=
  ⟨fun r _ hr _ => absurd hr (Nat.not_lt_zero r), fun _ _ => rfl⟩

theorem wrote_rows4x4 (D : Mem) (p ds : Int) (v0 v1 v2 v3 : Vec) (l0 l1 l2 l3 : Nat)
    (hds : 4 ≤ ds) :
    Wrote D (store_u8_4x1 (store_u8_4x1 (store_u8_4x1 (store_u8_4x1 D (p + 0 * ds) v0 l0)
      (p + 1 * ds) v1 l1) (p + 2 * ds) v2 l2) (p + 3 * ds) v3 l3) p ds 4 4
      (tile_rows [v0, v1, v2, v3] [4 * l0, 4 * l1, 4 * l2, 4 * l3]) := by
  refine Wrote.vsnoc4 (Wrote.vsnoc4 (Wrote.vsnoc4 (Wrote.vsnoc4 (Wrote.nil D p ds 4 _)
    ?_ rfl hds ?_) ?_ rfl hds ?_) ?_ rfl hds ?_) ?_ rfl hds ?_
  all_goals first | (push_cast; ring1) | (intro c _; simp [tile_rows])

theorem wrote_rows8x4 (D : Mem) (p ds : Int) (v0 v1 v2 v3 v4 v5 v6 v7 : Vec)
    (l0 l1 l2 l3 l4 l5 l6 l7 : Nat) (hds : 4 ≤ ds) :
    Wrote D (store_u8_4x1 (store_u8_4x1 (store_u8_4x1 (store_u8_4x1
      (store_u8_4x1 (store_u8_4x1 (store_u8_4x1 (store_u8_4x1 D (p + 0 * ds) v0 l0)
      (p + 1 * ds) v1 l1) (p + 2 * ds) v2 l2) (p + 3 * ds) v3 l3)
      (p + 4 * ds) v4 l4) (p + 5 * ds) v5 l5) (p + 6 * ds) v6 l6) (p + 7 * ds) v7 l7)
      p ds 8 4
      (tile_rows [v0, v1, v2, v3, v4, v5, v6, v7]
        [4 * l0, 4 * l1, 4 * l2, 4 * l3, 4 * l4, 4 * l5, 4 * l6, 4 * l7]) := by
  refine Wrote.vsnoc4 (Wrote.vsnoc4 (Wrote.vsnoc4 (Wrote.vsnoc4 (Wrote.vsnoc4 (Wrote.vsnoc4
    (Wrote.vsnoc4 (Wrote.vsnoc4 (Wrote.nil D p ds 4 _)
    ?_ rfl hds ?_) ?_ rfl hds ?_) ?_ rfl hds ?_) ?_ rfl hds ?_)
    ?_ rfl hds ?_) ?_ rfl hds ?_) ?_ rfl hds ?_) ?_ rfl hds ?_
  all_goals first | (push_cast; ring1) | (intro c _; simp [tile_rows])

theorem wrote_store_u8_8x4 (D : Mem) (p ds : Int) (v0 v1 v2 v3 : Vec) (hds : 8 ≤ ds) :
    Wrote D (store_u8_8x4 D p ds v0 v1 v2 v3) p ds 4 8
      (tile_rows [v0, v1, v2, v3] []) := by
  unfold store_u8_8x4
  refine Wrote.vsnoc8 (Wrote.vsnoc8 (Wrote.vsnoc8 (Wrote.vsnoc8 (Wrote.nil D p ds 8 _)
    ?_ rfl hds ?_) ?_ rfl hds ?_) ?_ rfl hds ?_) ?_ rfl hds ?_
  all_goals first | (push_cast; ring1) | (intro c _; simp [tile_rows])

theorem wrote_store_u8_8x8 (D : Mem) (p ds : Int) (v0 v1 v2 v3 v4 v5 v6 v7 : Vec)
    (hds : 8 ≤ ds) :
    Wrote D (store_u8_8x8 D p ds v0 v1 v2 v3 v4 v5 v6 v7) p ds 8 8
      (tile_rows [v0, v1, v2, v3, v4, v5, v6, v7] []) := by
  unfold store_u8_8x8
  refine Wrote.vsnoc8 (Wrote.vsnoc8 (Wrote.vsnoc8 (Wrote.vsnoc8 (Wrote.vsnoc8 (Wrote.vsnoc8
    (Wrote.vsnoc8 (Wrote.vsnoc8 (Wrote.nil D p ds 8 _)
    ?_ rfl hds ?_) ?_ rfl hds ?_) ?_ rfl hds ?_) ?_ rfl hds ?_)
    ?_ rfl hds ?_) ?_ rfl hds ?_) ?_ rfl hds ?_) ?_ rfl hds ?_
  all_goals first | (push_cast; ring1) | (intro c _; simp [tile_rows])

theorem Wrote.congr {D0 D1 : Mem} {p ds : Int} {R C : Nat} {v1 v2 : Nat → Nat → Int}
    (h : Wrote D0 D1 p ds R C v1) (e : ∀ r c, r < R → c < C → v1 r c = v2 r c) :
    Wrote D0 D1 p ds R C v2 :=
  ⟨fun r c hr hc => (h.1 r c hr hc).trans (e r c hr hc), h.2⟩

theorem px_range (S : Mem) (a : Int) : 0 ≤ px S a ∧ px S a ≤ 255 := by
  unfold px; omega

theorem wrap16_px (S : Mem) (a : Int) : wrap16 (px S a) = px S a := by
  have := px_range S a
  unfold wrap16; omega

theorem reg_low (S : Mem) (p : Int) (i : Nat) :
    vget_low_s16 (vreinterpretq_s16_u16 (vmovl_u8 (vld1_u8 S p))) i = px S (p + i) :=
  wrap16_px S (p + i)

theorem reg_full (S : Mem) (p : Int) (i : Nat) :
    vreinterpretq_s16_u16 (vmovl_u8 (vld1_u8 S p)) i = px S (p + i) :=
  wrap16_px S (p + i)

theorem conv8_lane_of {s0 s1 s2 s3 s4 s5 s6 s7 : Vec} (filter : Vec) {i : Nat}
    {x : Nat → Int} (h0 : s0 i = x 0) (h1 : s1 i = x 1) (h2 : s2 i = x 2)
    (h3 : s3 i = x 3) (h4 : s4 i = x 4) (h5 : s5 i = x 5) (h6 : s6 i = x 6)
    (h7 : s7 i = x 7) :
    convolve8_8 s0 s1 s2 s3 s4 s5 s6 s7 filter i = convolve8_lane x filter := by
  simp only [convolve8_lane, convolve8_8, vmulq_lane_s16, vmlaq_lane_s16, vqaddq_s16,
    vqrshrun_n_s16, vget_low_s16, vget_high_s16, h0, h1, h2, h3, h4, h5, h6, h7]

theorem conv4_lane_of {s0 s1 s2 s3 s4 s5 s6 s7 : Vec} (filter : Vec) {i : Nat}
    {x : Nat → Int} (h0 : s0 i = x 0) (h1 : s1 i = x 1) (h2 : s2 i = x 2)
    (h3 : s3 i = x 3) (h4 : s4 i = x 4) (h5 : s5 i = x 5) (h6 : s6 i = x 6)
    (h7 : s7 i = x 7) :
    vqrshrun_n_s16 (convolve8_4 s0 s1 s2 s3 s4 s5 s6 s7 filter) FILTER_BITS i
      = convolve8_lane x filter := by
  simp only [convolve8_lane, convolve8_8, convolve8_4, vmulq_lane_s16, vmlaq_lane_s16,
    vqaddq_s16, vmul_lane_s16, vmla_lane_s16, vqadd_s16,
    vqrshrun_n_s16, vget_low_s16, vget_high_s16, h0, h1, h2, h3, h4, h5, h6, h7]

theorem vqrshrun_combine_lo (a b : Vec) (n i : Nat) (h : i < 4) :
    vqrshrun_n_s16 (vcombine_s16 a b) n i = vqrshrun_n_s16 a n i := by
  simp only [vqrshrun_n_s16, vcombine_s16, h, if_true]

theorem vqrshrun_combine_hi (a b : Vec) (n i : Nat) :
    vqrshrun_n_s16 (vcombine_s16 a b) n (4 + i) = vqrshrun_n_s16 b n i := by
  have h : ¬ (4 + i < 4) := by omega
  simp only [vqrshrun_n_s16, vcombine_s16, h, if_false, Nat.add_sub_cancel_left]

/-! ## Loops that stack tiles -/

theorem do_while_succ {σ : Type} (body : σ → Option σ) (cond : σ → Bool) (fuel : Nat)
    (s s1 : σ) (h : body s = some s1) :
    do_while body cond (fuel + 1) s
      = if cond s1 then do_while body cond fuel s1 else some s1 := by
  simp only [do_while, h]

/-- A loop whose every iteration writes a tile of `step` rows below the
previous one writes, after `n + 1` iterations, a block of `step * (n + 1)`
rows. -/
theorem do_while_vstack {σ : Type} (body : σ → Option σ) (cond : σ → Bool)
    (Inv : σ → Prop) (out : σ → Mem) (dst cnt : σ → Int) (ds : Int) (step C : Nat)
    (val : σ → Nat → Nat → Int) (hC : (C : Int) ≤ ds)
    (hbody : ∀ st, Inv st → ∃ st1, body st = some st1 ∧ Inv st1 ∧
      cnt st1 = cnt st - step ∧ dst st1 = dst st + step * ds ∧
      Wrote (out st) (out st1) (dst st) ds step C (val st) ∧
      (∀ r c, val st1 r c = val st (step + r) c))
    (hcond : ∀ st (k : Nat), cnt st = step * k → (cond st = true ↔ k ≠ 0))
    (n : Nat) : ∀ (st : σ) (fuel : Nat), cnt st = step * (n + 1 : Nat) → n + 1 ≤ fuel →
      Inv st → ∃ st2, do_while body cond fuel st = some st2 ∧
        Wrote (out st) (out st2) (dst st) ds (step * (n + 1)) C (val st) := by
  induction n with
  | zero =>
    intro st fuel hcnt hfuel hinv
    obtain ⟨f, rfl⟩ : ∃ f, fuel = f + 1 := ⟨fuel - 1, by omega⟩
    obtain ⟨st1, hb, _, hc1, _, hw, _⟩ := hbody st hinv
    have hc : cond st1 = false := by
      have := hcond st1 0 (by rw [hc1, hcnt]; push_cast; ring)
      simpa using this
    refine ⟨st1, ?_, ?_⟩
    · rw [do_while_succ body cond f st st1 hb, hc]; rfl
    · simpa using hw
  | succ n ih =>
    intro st fuel hcnt hfuel hinv
    obtain ⟨f, rfl⟩ : ∃ f, fuel = f + 1 := ⟨fuel - 1, by omega⟩
    obtain ⟨st1, hb, hinv1, hc1, hd1, hw, hv⟩ := hbody st hinv
    have hcnt1 : cnt st1 = step * (n + 1 : Nat) := by
      rw [hc1, hcnt]; push_cast; ring1
    have hc : cond st1 = true := (hcond st1 (n + 1) hcnt1).2 (by omega)
    obtain ⟨st2, hrun, hw2⟩ := ih st1 f hcnt1 (by omega) hinv1
    refine ⟨st2, ?_, ?_⟩
    · rw [do_while_succ body cond f st st1 hb, hc]; exact hrun
    · exact Wrote.vcat hw hw2 hd1 (by ring) hC (fun _ _ _ _ => rfl)
        (fun r c _ _ => (hv r c).symm)

/-- A loop whose every iteration writes a tile of `step` columns right of
the previous one writes, after `n + 1` iterations, a block of
`step * (n + 1)` columns. -/
theorem do_while_hstack {σ : Type} (body : σ → Option σ) (cond : σ → Bool)
    (Inv : σ → Prop) (out : σ → Mem) (dst cnt : σ → Int) (ds : Int) (step R : Nat)
    (val : σ → Nat → Nat → Int)
    (hbody : ∀ st, Inv st → ∃ st1, body st = some st1 ∧ Inv st1 ∧
      cnt st1 = cnt st - step ∧ dst st1 = dst st + step ∧
      Wrote (out st) (out st1) (dst st) ds R step (val st) ∧
      (∀ r c, val st1 r c = val st r (step + c)))
    (hcond : ∀ st (k : Nat), cnt st = step * k → (cond st = true ↔ k ≠ 0))
    (n : Nat) : ∀ (st : σ) (fuel : Nat), cnt st = step * (n + 1 : Nat) → n + 1 ≤ fuel →
      ((step * (n + 1) : Nat) : Int) ≤ ds →
      Inv st → ∃ st2, do_while body cond fuel st = some st2 ∧
        Wrote (out st) (out st2) (dst st) ds R (step * (n + 1)) (val st) := by
  induction n with
  | zero =>
    intro st fuel hcnt hfuel hds hinv
    obtain ⟨f, rfl⟩ : ∃ f, fuel = f + 1 := ⟨fuel - 1, by omega⟩
    obtain ⟨st1, hb, _, hc1, _, hw, _⟩ := hbody st hinv
    have hc : cond st1 = false := by
      have := hcond st1 0 (by rw [hc1, hcnt]; push_cast; ring)
      simpa using this
    refine ⟨st1, ?_, ?_⟩
    · rw [do_while_succ body cond f st st1 hb, hc]; rfl
    · simpa using hw
  | succ n ih =>
    intro st fuel hcnt hfuel hds hinv
    obtain ⟨f, rfl⟩ : ∃ f, fuel = f + 1 := ⟨fuel - 1, by omega⟩
    obtain ⟨st1, hb, hinv1, hc1, hd1, hw, hv⟩ := hbody st hinv
    have hcnt1 : cnt st1 = step * (n + 1 : Nat) := by
      rw [hc1, hcnt]; push_cast; ring1
    have hc : cond st1 = true := (hcond st1 (n + 1) hcnt1).2 (by omega)
    have hds1 : ((step * (n + 1) : Nat) : Int) ≤ ds := by
      push_cast at hds ⊢; nlinarith
    obtain ⟨st2, hrun, hw2⟩ := ih st1 f hcnt1 (by omega) hds1 hinv1
    refine ⟨st2, ?_, ?_⟩
    · rw [do_while_succ body cond f st st1 hb, hc]; exact hrun
    · exact Wrote.hcat hw hw2 hd1 (by ring) hds
        (fun _ _ _ _ => rfl) (fun r c _ _ => (hv r c).symm)

/-! ## Vertical pass: tiles and rolling registers -/

theorem vert_w4_tile (S : Mem) (ss ds : Int) (filter : Vec) (st : Roll)
    (hds : 4 ≤ ds) (hinv : VInv S ss 4 st) :
    Wrote st.out (vert_w4_body S ss ds filter st).out st.dst ds 4 4
      (fun r c => convolve8_lane (col_window S (st.src - 7 * ss + r * ss + c) ss) filter) := by
  obtain ⟨f0, f1, f2, f3, f4, f5, f6⟩ := hinv
  have f7 : ∀ i, i < 4 → vget_low_s16 (vreinterpretq_s16_u16 (vmovl_u8 (vld1_u8 S st.src))) i = px S (st.src + i) :=
    fun i _ => reg_low S _ i
  have f8 : ∀ i, i < 4 → vget_low_s16 (vreinterpretq_s16_u16 (vmovl_u8 (vld1_u8 S (st.src + ss)))) i = px S (st.src + ss + i) :=
    fun i _ => reg_low S _ i
  have f9 : ∀ i, i < 4 → vget_low_s16 (vreinterpretq_s16_u16 (vmovl_u8 (vld1_u8 S (st.src + 2 * ss)))) i = px S (st.src + 2 * ss + i) :=
    fun i _ => reg_low S _ i
  have f10 : ∀ i, i < 4 → vget_low_s16 (vreinterpretq_s16_u16 (vmovl_u8 (vld1_u8 S (st.src + 3 * ss)))) i = px S (st.src + 3 * ss + i) :=
    fun i _ => reg_low S _ i
  simp only [vert_w4_body, load_u8_8x4]
  refine Wrote.congr (wrote_rows4x4 st.out st.dst ds _ _ _ _ 0 1 0 1 hds) ?_
  intro r c hr hc
  interval_cases r
  · simp only [tile_rows, List.getD_cons_succ, List.getD_cons_zero, Nat.mul_zero, Nat.zero_add]
    rw [vqrshrun_combine_lo _ _ _ _ hc]
    refine conv4_lane_of filter ?_ ?_ ?_ ?_ ?_ ?_ ?_ ?_
    · exact (f0 c hc).trans (congrArg (px S) (by push_cast; ring1))
    · exact (f1 c hc).trans (congrArg (px S) (by push_cast; ring1))
    · exact (f2 c hc).trans (congrArg (px S) (by push_cast; ring1))
    · exact (f3 c hc).trans (congrArg (px S) (by push_cast; ring1))
    · exact (f4 c hc).trans (congrArg (px S) (by push_cast; ring1))
    · exact (f5 c hc).trans (congrArg (px S) (by push_cast; ring1))
    · exact (f6 c hc).trans (congrArg (px S) (by push_cast; ring1))
    · exact (f7 c hc).trans (congrArg (px S) (by push_cast; ring1))
  · simp only [tile_rows, List.getD_cons_succ, List.getD_cons_zero, Nat.mul_one]
    rw [vqrshrun_combine_hi]
    refine conv4_lane_of filter ?_ ?_ ?_ ?_ ?_ ?_ ?_ ?_
    · exact (f1 c hc).trans (congrArg (px S) (by push_cast; ring1))
    · exact (f2 c hc).trans (congrArg (px S) (by push_cast; ring1))
    · exact (f3 c hc).trans (congrArg (px S) (by push_cast; ring1))
    · exact (f4 c hc).trans (congrArg (px S) (by push_cast; ring1))
    · exact (f5 c hc).trans (congrArg (px S) (by push_cast; ring1))
    · exact (f6 c hc).trans (congrArg (px S) (by push_cast; ring1))
    · exact (f7 c hc).trans (congrArg (px S) (by push_cast; ring1))
    · exact (f8 c hc).trans (congrArg (px S) (by push_cast; ring1))
  · simp only [tile_rows, List.getD_cons_succ, List.getD_cons_zero, Nat.mul_zero, Nat.zero_add]
    rw [vqrshrun_combine_lo _ _ _ _ hc]
    refine conv4_lane_of filter ?_ ?_ ?_ ?_ ?_ ?_ ?_ ?_
    · exact (f2 c hc).trans (congrArg (px S) (by push_cast; ring1))
    · exact (f3 c hc).trans (congrArg (px S) (by push_cast; ring1))
    · exact (f4 c hc).trans (congrArg (px S) (by push_cast; ring1))
    · exact (f5 c hc).trans (congrArg (px S) (by push_cast; ring1))
    · exact (f6 c hc).trans (congrArg (px S) (by push_cast; ring1))
    · exact (f7 c hc).trans (congrArg (px S) (by push_cast; ring1))
    · exact (f8 c hc).trans (congrArg (px S) (by push_cast; ring1))
    · exact (f9 c hc).trans (congrArg (px S) (by push_cast; ring1))
  · simp only [tile_rows, List.getD_cons_succ, List.getD_cons_zero, Nat.mul_one]
    rw [vqrshrun_combine_hi]
    refine conv4_lane_of filter ?_ ?_ ?_ ?_ ?_ ?_ ?_ ?_
    · exact (f3 c hc).trans (congrArg (px S) (by push_cast; ring1))
    · exact (f4 c hc).trans (congrArg (px S) (by push_cast; ring1))
    · exact (f5 c hc).trans (congrArg (px S) (by push_cast; ring1))
    · exact (f6 c hc).trans (congrArg (px S) (by push_cast; ring1))
    · exact (f7 c hc).trans (congrArg (px S) (by push_cast; ring1))
    · exact (f8 c hc).trans (congrArg (px S) (by push_cast; ring1))
    · exact (f9 c hc).trans (congrArg (px S) (by push_cast; ring1))
    · exact (f10 c hc).trans (congrArg (px S) (by push_cast; ring1))

theorem vert_8x4_tile (S : Mem) (ss ds : Int) (filter : Vec) (st : Roll)
    (hds : 8 ≤ ds) (hinv : VInv S ss 8 st) :
    Wrote st.out (vert_8x4_body S ss ds filter st).out st.dst ds 4 8
      (fun r c => convolve8_lane (col_window S (st.src - 7 * ss + r * ss + c) ss) filter) := by
  obtain ⟨f0, f1, f2, f3, f4, f5, f6⟩ := hinv
  have f7 : ∀ i, i < 8 → vreinterpretq_s16_u16 (vmovl_u8 (vld1_u8 S st.src)) i = px S (st.src + i) :=
    fun i _ => reg_full S _ i
  have f8 : ∀ i, i < 8 → vreinterpretq_s16_u16 (vmovl_u8 (vld1_u8 S (st.src + ss))) i = px S (st.src + ss + i) :=
    fun i _ => reg_full S _ i
  have f9 : ∀ i, i < 8 → vreinterpretq_s16_u16 (vmovl_u8 (vld1_u8 S (st.src + 2 * ss))) i = px S (st.src + 2 * ss + i) :=
    fun i _ => reg_full S _ i
  have f10 : ∀ i, i < 8 → vreinterpretq_s16_u16 (vmovl_u8 (vld1_u8 S (st.src + 3 * ss))) i = px S (st.src + 3 * ss + i) :=
    fun i _ => reg_full S _ i
  simp only [vert_8x4_body, load_u8_8x4]
  refine Wrote.congr (wrote_store_u8_8x4 st.out st.dst ds _ _ _ _ hds) ?_
  intro r c hr hc
  interval_cases r
  · simp only [tile_rows, List.getD_cons_succ, List.getD_cons_zero, List.getD_nil, Nat.zero_add]
    refine conv8_lane_of filter ?_ ?_ ?_ ?_ ?_ ?_ ?_ ?_
    · exact (f0 c hc).trans (congrArg (px S) (by push_cast; ring1))
    · exact (f1 c hc).trans (congrArg (px S) (by push_cast; ring1))
    · exact (f2 c hc).trans (congrArg (px S) (by push_cast; ring1))
    · exact (f3 c hc).trans (congrArg (px S) (by push_cast; ring1))
    · exact (f4 c hc).trans (congrArg (px S) (by push_cast; ring1))
    · exact (f5 c hc).trans (congrArg (px S) (by push_cast; ring1))
    · exact (f6 c hc).trans (congrArg (px S) (by push_cast; ring1))
    · exact (f7 c hc).trans (congrArg (px S) (by push_cast; ring1))
  · simp only [tile_rows, List.getD_cons_succ, List.getD_cons_zero, List.getD_nil, Nat.zero_add]
    refine conv8_lane_of filter ?_ ?_ ?_ ?_ ?_ ?_ ?_ ?_
    · exact (f1 c hc).trans (congrArg (px S) (by push_cast; ring1))
    · exact (f2 c hc).trans (congrArg (px S) (by push_cast; ring1))
    · exact (f3 c hc).trans (congrArg (px S) (by push_cast; ring1))
    · exact (f4 c hc).trans (congrArg (px S) (by push_cast; ring1))
    · exact (f5 c hc).trans (congrArg (px S) (by push_cast; ring1))
    · exact (f6 c hc).trans (congrArg (px S) (by push_cast; ring1))
    · exact (f7 c hc).trans (congrArg (px S) (by push_cast; ring1))
    · exact (f8 c hc).trans (congrArg (px S) (by push_cast; ring1))
  · simp only [tile_rows, List.getD_cons_succ, List.getD_cons_zero, List.getD_nil, Nat.zero_add]
    refine conv8_lane_of filter ?_ ?_ ?_ ?_ ?_ ?_ ?_ ?_
    · exact (f2 c hc).trans (congrArg (px S) (by push_cast; ring1))
    · exact (f3 c hc).trans (congrArg (px S) (by push_cast; ring1))
    · exact (f4 c hc).trans (congrArg (px S) (by push_cast; ring1))
    · exact (f5 c hc).trans (congrArg (px S) (by push_cast; ring1))
    · exact (f6 c hc).trans (congrArg (px S) (by push_cast; ring1))
    · exact (f7 c hc).trans (congrArg (px S) (by push_cast; ring1))
    · exact (f8 c hc).trans (congrArg (px S) (by push_cast; ring1))
    · exact (f9 c hc).trans (congrArg (px S) (by push_cast; ring1))
  · simp only [tile_rows, List.getD_cons_succ, List.getD_cons_zero, List.getD_nil, Nat.zero_add]
    refine conv8_lane_of filter ?_ ?_ ?_ ?_ ?_ ?_ ?_ ?_
    · exact (f3 c hc).trans (congrArg (px S) (by push_cast; ring1))
    · exact (f4 c hc).trans (congrArg (px S) (by push_cast; ring1))
    · exact (f5 c hc).trans (congrArg (px S) (by push_cast; ring1))
    · exact (f6 c hc).trans (congrArg (px S) (by push_cast; ring1))
    · exact (f7 c hc).trans (congrArg (px S) (by push_cast; ring1))
    · exact (f8 c hc).trans (congrArg (px S) (by push_cast; ring1))
    · exact (f9 c hc).trans (congrArg (px S) (by push_cast; ring1))
    · exact (f10 c hc).trans (congrArg (px S) (by push_cast; ring1))

theorem vert_w4_init_inv (S : Mem) (src ss : Int) (D : Mem) (dst h : Int) :
    VInv S ss 4 (vert_w4_init S src ss D dst h) := by
  simp only [vert_w4_init, load_u8_8x7, VInv]
  refine ⟨?_, ?_, ?_, ?_, ?_, ?_, ?_⟩ <;> intro i _ <;>
    exact (reg_low S _ i).trans (congrArg (px S) (by ring1))

theorem vert_w4_body_inv (S : Mem) (ss ds : Int) (filter : Vec) (st : Roll)
    (hinv : VInv S ss 4 st) : VInv S ss 4 (vert_w4_body S ss ds filter st) := by
  obtain ⟨_, _, _, _, f4, f5, f6⟩ := hinv
  simp only [vert_w4_body, load_u8_8x4, VInv]
  refine ⟨?_, ?_, ?_, ?_, ?_, ?_, ?_⟩ <;> intro i hi
  · exact (f4 i hi).trans (congrArg (px S) (by ring1))
  · exact (f5 i hi).trans (congrArg (px S) (by ring1))
  · exact (f6 i hi).trans (congrArg (px S) (by ring1))
  · exact (reg_low S _ i).trans (congrArg (px S) (by ring1))
  · exact (reg_low S _ i).trans (congrArg (px S) (by ring1))
  · exact (reg_low S _ i).trans (congrArg (px S) (by ring1))
  · exact (reg_low S _ i).trans (congrArg (px S) (by ring1))

theorem vert_8x4_init_inv (S : Mem) (ss h : Int) (st : Walk) :
    VInv S ss 8 (vert_8x4_init S ss h st) := by
  simp only [vert_8x4_init, load_u8_8x7, VInv]
  refine ⟨?_, ?_, ?_, ?_, ?_, ?_, ?_⟩ <;> intro i _ <;>
    exact (reg_full S _ i).trans (congrArg (px S) (by ring1))

theorem vert_8x4_body_inv (S : Mem) (ss ds : Int) (filter : Vec) (st : Roll)
    (hinv : VInv S ss 8 st) : VInv S ss 8 (vert_8x4_body S ss ds filter st) := by
  obtain ⟨_, _, _, _, f4, f5, f6⟩ := hinv
  simp only [vert_8x4_body, load_u8_8x4, VInv]
  refine ⟨?_, ?_, ?_, ?_, ?_, ?_, ?_⟩ <;> intro i hi
  · exact (f4 i hi).trans (congrArg (px S) (by ring1))
  · exact (f5 i hi).trans (congrArg (px S) (by ring1))
  · exact (f6 i hi).trans (congrArg (px S) (by ring1))
  · exact (reg_full S _ i).trans (congrArg (px S) (by ring1))
  · exact (reg_full S _ i).trans (congrArg (px S) (by ring1))
  · exact (reg_full S _ i).trans (congrArg (px S) (by ring1))
  · exact (reg_full S _ i).trans (congrArg (px S) (by ring1))

/-! ## Vertical pass: loops -/

theorem cond_ne_zero_iff (step : Nat) (hstep : 0 < step) (cnt : Int) (k : Nat)
    (h : cnt = step * k) : (decide (cnt ≠ 0) = true ↔ k ≠ 0) := by
  subst h
  simp only [decide_eq_true_eq, ne_eq, mul_eq_zero, Nat.cast_eq_zero]
  omega

theorem cond_pos_iff (step : Nat) (hstep : 0 < step) (cnt : Int) (k : Nat)
    (h : cnt = step * k) : (decide (cnt > 0) = true ↔ k ≠ 0) := by
  subst h
  simp only [decide_eq_true_eq, gt_iff_lt]
  constructor
  · intro h0 hk; subst hk; simp at h0
  · intro hk; positivity

theorem vert_w4_loop (S : Mem) (ss ds : Int) (filter : Vec) (hds : 4 ≤ ds) (n : Nat)
    (st : Roll) (fuel : Nat) (hcnt : st.cnt = 4 * (n + 1 : Nat)) (hfuel : n + 1 ≤ fuel)
    (hinv : VInv S ss 4 st) :
    ∃ st2, do_while (fun r => some (vert_w4_body S ss ds filter r))
        (fun r => decide (r.cnt ≠ 0)) fuel st = some st2 ∧
      Wrote st.out st2.out st.dst ds (4 * (n + 1)) 4
        (fun r c => convolve8_lane (col_window S (st.src - 7 * ss + r * ss + c) ss) filter) := by
  refine do_while_vstack _ _ (VInv S ss 4) (fun r => r.out) (fun r => r.dst)
    (fun r => r.cnt) ds 4 4
    (fun st r c => convolve8_lane (col_window S (st.src - 7 * ss + r * ss + c) ss) filter)
    (by exact_mod_cast hds) ?_ ?_ n st fuel (by exact_mod_cast hcnt) hfuel hinv
  · intro st hinv
    refine ⟨_, rfl, vert_w4_body_inv S ss ds filter st hinv, ?_, ?_,
      vert_w4_tile S ss ds filter st hds hinv, ?_⟩
    · simp only [vert_w4_body, load_u8_8x4]; push_cast; ring1
    · simp only [vert_w4_body, load_u8_8x4]; push_cast; ring1
    · intro r c
      simp only [vert_w4_body, load_u8_8x4]
      exact congrArg (fun p => convolve8_lane (col_window S p ss) filter)
        (by push_cast; ring1)
  · intro st k hk
    exact cond_ne_zero_iff 4 (by norm_num) st.cnt k hk

theorem vert_8x4_loop (S : Mem) (ss ds : Int) (filter : Vec) (hds : 8 ≤ ds) (n : Nat)
    (st : Roll) (fuel : Nat) (hcnt : st.cnt = 4 * (n + 1 : Nat)) (hfuel : n + 1 ≤ fuel)
    (hinv : VInv S ss 8 st) :
    ∃ st2, do_while (fun r => some (vert_8x4_body S ss ds filter r))
        (fun r => decide (r.cnt ≠ 0)) fuel st = some st2 ∧
      Wrote st.out st2.out st.dst ds (4 * (n + 1)) 8
        (fun r c => convolve8_lane (col_window S (st.src - 7 * ss + r * ss + c) ss) filter) := by
  refine do_while_vstack _ _ (VInv S ss 8) (fun r => r.out) (fun r => r.dst)
    (fun r => r.cnt) ds 4 8
    (fun st r c => convolve8_lane (col_window S (st.src - 7 * ss + r * ss + c) ss) filter)
    (by exact_mod_cast hds) ?_ ?_ n st fuel (by exact_mod_cast hcnt) hfuel hinv
  · intro st hinv
    refine ⟨_, rfl, vert_8x4_body_inv S ss ds filter st hinv, ?_, ?_,
      vert_8x4_tile S ss ds filter st hds hinv, ?_⟩
    · simp only [vert_8x4_body, load_u8_8x4]; push_cast; ring1
    · simp only [vert_8x4_body, load_u8_8x4]; push_cast; ring1
    · intro r c
      simp only [vert_8x4_body, load_u8_8x4]
      exact congrArg (fun p => convolve8_lane (col_window S p ss) filter)
        (by push_cast; ring1)
  · intro st k hk
    exact cond_ne_zero_iff 4 (by norm_num) st.cnt k hk

theorem vert_8x4_strip_spec (S : Mem) (ss ds : Int) (filter : Vec) (hds : 8 ≤ ds)
    (n : Nat) (fuel : Nat) (hfuel : n + 1 ≤ fuel) (st : Walk) :
    ∃ st1, vert_8x4_strip fuel S ss ds filter (4 * (n + 1 : Nat)) st = some st1 ∧
      st1.cnt = st.cnt - 8 ∧ st1.dst = st.dst + 8 ∧ st1.src = st.src + 8 ∧
      Wrote st.out st1.out st.dst ds (4 * (n + 1)) 8
        (fun r c => convolve8_lane (col_window S (st.src + r * ss + c) ss) filter) := by
  obtain ⟨r2, hrun, hw⟩ := vert_8x4_loop S ss ds filter hds n
    (vert_8x4_init S ss (4 * (n + 1 : Nat)) st) fuel
    (by simp only [vert_8x4_init, load_u8_8x7]) hfuel (vert_8x4_init_inv S ss _ st)
  refine ⟨{ src := st.src + 8, dst := st.dst + 8, cnt := st.cnt - 8, out := r2.out },
    by simp only [vert_8x4_strip, hrun], rfl, rfl, rfl, ?_⟩
  refine Wrote.congr (by simpa only [vert_8x4_init, load_u8_8x7] using hw) ?_
  intro r c _ _
  exact congrArg (fun p => convolve8_lane (col_window S p ss) filter) (by ring1)

theorem vert_wide_loop (S : Mem) (ss ds : Int) (filter : Vec) (n m : Nat)
    (fuel : Nat) (hfuel : n + 1 ≤ fuel) (hfuel2 : m + 1 ≤ fuel)
    (hds : ((8 * (m + 1) : Nat) : Int) ≤ ds) (st : Walk)
    (hcnt : st.cnt = 8 * (m + 1 : Nat)) :
    ∃ st2, do_while (vert_8x4_strip fuel S ss ds filter (4 * (n + 1 : Nat)))
        (fun r => decide (r.cnt ≠ 0)) fuel st = some st2 ∧
      Wrote st.out st2.out st.dst ds (4 * (n + 1)) (8 * (m + 1))
        (fun r c => convolve8_lane (col_window S (st.src + r * ss + c) ss) filter) := by
  have hds8 : 8 ≤ ds := by push_cast at hds; nlinarith
  refine do_while_hstack _ _ (fun _ => True) (fun r => r.out) (fun r => r.dst)
    (fun r => r.cnt) ds 8 (4 * (n + 1))
    (fun st r c => convolve8_lane (col_window S (st.src + r * ss + c) ss) filter)
    ?_ ?_ m st fuel (by exact_mod_cast hcnt) hfuel2 hds trivial
  · intro st _
    obtain ⟨st1, h1, h2, h3, h4, h5⟩ := vert_8x4_strip_spec S ss ds filter hds8 n fuel hfuel st
    refine ⟨st1, h1, trivial, by exact_mod_cast h2, by exact_mod_cast h3, h5, ?_⟩
    intro r c
    simp only [h4]
    exact congrArg (fun p => convolve8_lane (col_window S p ss) filter)
      (by push_cast; ring1)
  · intro st k hk
    exact cond_ne_zero_iff 8 (by norm_num) st.cnt k hk

theorem taps_offset : SUBPEL_TAPS / 2 - 1 = 3 := by decide

theorem exists_mul_succ {k : Int} {x : Int} (hk : 0 < k) (hx : 0 < x) (hd : k ∣ x) :
    ∃ n : Nat, x = k * (n + 1 : Nat) := by
  obtain ⟨q, rfl⟩ := hd
  have hq : 0 < q := by
    by_contra hq
    have : q ≤ 0 := by omega
    nlinarith
  refine ⟨(q - 1).toNat, ?_⟩
  have : ((q - 1).toNat : Int) = q - 1 := Int.toNat_of_nonneg (by omega)
  push_cast
  rw [this]; ring

/-- The vertical pass writes the whole block, each byte being the tap kernel
of its column window, and changes nothing else. -/
theorem vert_pass_spec (fuel : Nat) (S : Mem) (src ss : Int) (D : Mem) (dst ds : Int)
    (filter_y : Nat → Int) (w h : Int) (hw : w = 4 ∨ (0 < w ∧ 8 ∣ w))
    (hh : 0 < h ∧ 4 ∣ h) (hds : w ≤ ds)
    (hdst : dst % 4 = 0) (hstr : ds % 4 = 0) (hfuel : w + h ≤ fuel) :
    ∃ D1, aom_convolve8_vert_neon fuel S src ss D dst ds filter_y w h = some D1 ∧
      Wrote D D1 dst ds h.toNat w.toNat
        (fun r c => convolve8_lane (col_window S (src + (r - 3) * ss + c) ss) filter_y) := by
  obtain ⟨n, rfl⟩ := exists_mul_succ (by norm_num) hh.1 hh.2
  have hn : (4 * ((n + 1 : Nat) : Int)).toNat = 4 * (n + 1) := by
    have : (4 * ((n + 1 : Nat) : Int)) = ((4 * (n + 1) : Nat) : Int) := by push_cast; ring
    rw [this, Int.toNat_natCast]
  rw [hn]
  rcases hw with rfl | ⟨hw0, hw8⟩
  · obtain ⟨st2, hrun, hwr⟩ := vert_w4_loop S ss ds (vld1q_s16 filter_y) hds n
      (vert_w4_init S (src - (SUBPEL_TAPS / 2 - 1) * ss) ss D dst (4 * (n + 1 : Nat))) fuel
      (by simp only [vert_w4_init, load_u8_8x7]) (by push_cast at hfuel; omega)
      (vert_w4_init_inv S _ ss D dst _)
    refine ⟨st2.out, ?_, ?_⟩
    · simp only [aom_convolve8_vert_neon, if_pos hdst, if_pos hstr, if_true, hrun, Option.map_some']
    · refine Wrote.congr (by simpa only [vert_w4_init, load_u8_8x7] using hwr) ?_
      intro r c _ _
      exact congrArg (fun p => convolve8_lane (col_window S p ss) filter_y)
        (by rw [taps_offset]; ring1)
  · obtain ⟨m, rfl⟩ := exists_mul_succ (by norm_num) hw0 hw8
    have hm : (8 * ((m + 1 : Nat) : Int)).toNat = 8 * (m + 1) := by
      have : (8 * ((m + 1 : Nat) : Int)) = ((8 * (m + 1) : Nat) : Int) := by push_cast; ring
      rw [this, Int.toNat_natCast]
    rw [hm]
    have hne : ¬ (8 * ((m + 1 : Nat) : Int) = 4) := by omega
    obtain ⟨st2, hrun, hwr⟩ := vert_wide_loop S ss ds (vld1q_s16 filter_y) n m fuel
      (by push_cast at hfuel; omega) (by push_cast at hfuel; omega)
      (by push_cast at hds ⊢; linarith)
      { src := src - (SUBPEL_TAPS / 2 - 1) * ss, dst := dst,
        cnt := 8 * ((m + 1 : Nat) : Int), out := D } rfl
    refine ⟨st2.out, ?_, ?_⟩
    · simp only [aom_convolve8_vert_neon, if_pos hdst, if_pos hstr,
        hne, if_false, hrun, Option.map_some']
    · refine Wrote.congr hwr ?_
      intro r c _ _
      exact congrArg (fun p => convolve8_lane (col_window S p ss) filter_y)
        (by simp only [taps_offset]; ring1)

/-! ## Horizontal pass, portable build: transposed tiles -/

theorem wrote_T4x4 (D : Mem) (p ds : Int) (d0 d1 d2 d3 : Vec) (n : Nat) (hds : 4 ≤ ds) :
    Wrote D
      (store_u8_4x1 (store_u8_4x1 (store_u8_4x1 (store_u8_4x1 D (p + 0 * ds)
        (transpose_u8_4x4 (vqrshrun_n_s16 (vcombine_s16 d0 d1) n)
          (vqrshrun_n_s16 (vcombine_s16 d2 d3) n)).1 0)
        (p + 1 * ds)
        (transpose_u8_4x4 (vqrshrun_n_s16 (vcombine_s16 d0 d1) n)
          (vqrshrun_n_s16 (vcombine_s16 d2 d3) n)).2 0)
        (p + 2 * ds)
        (transpose_u8_4x4 (vqrshrun_n_s16 (vcombine_s16 d0 d1) n)
          (vqrshrun_n_s16 (vcombine_s16 d2 d3) n)).1 1)
        (p + 3 * ds)
        (transpose_u8_4x4 (vqrshrun_n_s16 (vcombine_s16 d0 d1) n)
          (vqrshrun_n_s16 (vcombine_s16 d2 d3) n)).2 1)
      p ds 4 4
      (tile_cols [vqrshrun_n_s16 d0 n, vqrshrun_n_s16 d1 n, vqrshrun_n_s16 d2 n,
        vqrshrun_n_s16 d3 n]) := by
  refine Wrote.congr (wrote_rows4x4 D p ds _ _ _ _ 0 0 1 1 hds) ?_
  intro r c hr hc
  interval_cases r <;> interval_cases c <;>
    simp [tile_rows, tile_cols, transpose_u8_4x4, vqrshrun_n_s16, vcombine_s16]

theorem wrote_T8x4 (D : Mem) (p ds : Int) (d0 d1 d2 d3 : Vec) (hds : 4 ≤ ds) :
    Wrote D
      (store_u8_4x1 (store_u8_4x1 (store_u8_4x1 (store_u8_4x1
        (store_u8_4x1 (store_u8_4x1 (store_u8_4x1 (store_u8_4x1 D (p + 0 * ds)
        (transpose_u8_8x4 d0 d1 d2 d3).1 0)
        (p + 1 * ds) (transpose_u8_8x4 d0 d1 d2 d3).2.1 0)
        (p + 2 * ds) (transpose_u8_8x4 d0 d1 d2 d3).2.2.1 0)
        (p + 3 * ds) (transpose_u8_8x4 d0 d1 d2 d3).2.2.2 0)
        (p + 4 * ds) (transpose_u8_8x4 d0 d1 d2 d3).1 1)
        (p + 5 * ds) (transpose_u8_8x4 d0 d1 d2 d3).2.1 1)
        (p + 6 * ds) (transpose_u8_8x4 d0 d1 d2 d3).2.2.1 1)
        (p + 7 * ds) (transpose_u8_8x4 d0 d1 d2 d3).2.2.2 1)
      p ds 8 4 (tile_cols [d0, d1, d2, d3]) := by
  refine Wrote.congr (wrote_rows8x4 D p ds _ _ _ _ _ _ _ _ 0 0 0 0 1 1 1 1 hds) ?_
  intro r c hr hc
  interval_cases r <;> interval_cases c <;>
    simp [tile_rows, tile_cols, transpose_u8_8x4, column4]

theorem wrote_T8x8 (D : Mem) (p ds : Int) (d0 d1 d2 d3 d4 d5 d6 d7 : Vec) (hds : 8 ≤ ds) :
    Wrote D
      (store_u8_8x8 D p ds
        (transpose_u8_8x8 d0 d1 d2 d3 d4 d5 d6 d7).1
        (transpose_u8_8x8 d0 d1 d2 d3 d4 d5 d6 d7).2.1
        (transpose_u8_8x8 d0 d1 d2 d3 d4 d5 d6 d7).2.2.1
        (transpose_u8_8x8 d0 d1 d2 d3 d4 d5 d6 d7).2.2.2.1
        (transpose_u8_8x8 d0 d1 d2 d3 d4 d5 d6 d7).2.2.2.2.1
        (transpose_u8_8x8 d0 d1 d2 d3 d4 d5 d6 d7).2.2.2.2.2.1
        (transpose_u8_8x8 d0 d1 d2 d3 d4 d5 d6 d7).2.2.2.2.2.2.1
        (transpose_u8_8x8 d0 d1 d2 d3 d4 d5 d6 d7).2.2.2.2.2.2.2)
      p ds 8 8 (tile_cols [d0, d1, d2, d3, d4, d5, d6, d7]) := by
  refine Wrote.congr (wrote_store_u8_8x8 D p ds _ _ _ _ _ _ _ _ hds) ?_
  intro r c hr hc
  interval_cases r <;> interval_cases c <;>
    simp [tile_rows, tile_cols, transpose_u8_8x8, column8]

theorem col8_load (S : Mem) (p ss : Int) (k i : Nat) (hi : i < 8) :
    column8 (vld1_u8 S p) (vld1_u8 S (p + ss)) (vld1_u8 S (p + 2 * ss))
      (vld1_u8 S (p + 3 * ss)) (vld1_u8 S (p + 4 * ss)) (vld1_u8 S (p + 5 * ss))
      (vld1_u8 S (p + 6 * ss)) (vld1_u8 S (p + 7 * ss)) k i = px S (p + k + i * ss) := by
  interval_cases i <;> simp only [column8] <;>
    exact congrArg (px S) (by push_cast; ring1)

theorem col4_load_lo (S : Mem) (p ss : Int) (k i : Nat) (hi : i < 4) :
    column4 (vld1_u8 S p) (vld1_u8 S (p + ss)) (vld1_u8 S (p + 2 * ss))
      (vld1_u8 S (p + 3 * ss)) k i = px S (p + k + i * ss) := by
  interval_cases i <;> simp only [column4] <;>
    exact congrArg (px S) (by push_cast; ring1)

theorem col4_load_hi (S : Mem) (p ss : Int) (k i : Nat) (hi : i < 4) :
    column4 (vld1_u8 S p) (vld1_u8 S (p + ss)) (vld1_u8 S (p + 2 * ss))
      (vld1_u8 S (p + 3 * ss)) k (i + 4) = px S (p + (k + 4) + i * ss) := by
  interval_cases i <;> simp only [column4] <;>
    exact congrArg (px S) (by push_cast; ring1)


/-! ## Horizontal pass, portable build: registers and tiles -/

theorem reg_col4_lo (S : Mem) (p ss : Int) (k i : Nat) (hi : i < 4) :
    vget_low_s16 (vreinterpretq_s16_u16 (vmovl_u8 (column4 (vld1_u8 S p)
      (vld1_u8 S (p + ss)) (vld1_u8 S (p + 2 * ss)) (vld1_u8 S (p + 3 * ss)) k))) i
      = px S (p + k + i * ss) := by
  simp only [vget_low_s16, vreinterpretq_s16_u16, vmovl_u8]
  rw [col4_load_lo S p ss k i hi, wrap16_px]

theorem reg_col4_hi (S : Mem) (p ss : Int) (k i : Nat) (hi : i < 4) :
    vget_high_s16 (vreinterpretq_s16_u16 (vmovl_u8 (column4 (vld1_u8 S p)
      (vld1_u8 S (p + ss)) (vld1_u8 S (p + 2 * ss)) (vld1_u8 S (p + 3 * ss)) k))) i
      = px S (p + (k + 4) + i * ss) := by
  simp only [vget_high_s16, vreinterpretq_s16_u16, vmovl_u8]
  rw [col4_load_hi S p ss k i hi, wrap16_px]

theorem reg_col8 (S : Mem) (p ss : Int) (k i : Nat) (hi : i < 8) :
    vreinterpretq_s16_u16 (vmovl_u8 (column8 (vld1_u8 S p) (vld1_u8 S (p + ss))
      (vld1_u8 S (p + 2 * ss)) (vld1_u8 S (p + 3 * ss)) (vld1_u8 S (p + 4 * ss))
      (vld1_u8 S (p + 5 * ss)) (vld1_u8 S (p + 6 * ss)) (vld1_u8 S (p + 7 * ss)) k)) i
      = px S (p + k + i * ss) := by
  simp only [vreinterpretq_s16_u16, vmovl_u8]
  rw [col8_load S p ss k i hi, wrap16_px]

theorem horiz_h4_init_inv (S : Mem) (src ss : Int) (D : Mem) (dst w : Int) :
    HInv S ss 4 (Portable.horiz_h4_init S src ss D dst w) := by
  simp only [Portable.horiz_h4_init, load_u8_8x4, transpose_u8_8x4, HInv]
  refine ⟨?_, ?_, ?_, ?_, ?_, ?_, ?_⟩ <;> intro i hi
  · exact (reg_col4_lo S src ss 0 i hi).trans (congrArg (px S) (by push_cast; ring1))
  · exact (reg_col4_lo S src ss 1 i hi).trans (congrArg (px S) (by push_cast; ring1))
  · exact (reg_col4_lo S src ss 2 i hi).trans (congrArg (px S) (by push_cast; ring1))
  · exact (reg_col4_lo S src ss 3 i hi).trans (congrArg (px S) (by push_cast; ring1))
  · exact (reg_col4_hi S src ss 0 i hi).trans (congrArg (px S) (by push_cast; ring1))
  · exact (reg_col4_hi S src ss 1 i hi).trans (congrArg (px S) (by push_cast; ring1))
  · exact (reg_col4_hi S src ss 2 i hi).trans (congrArg (px S) (by push_cast; ring1))

theorem horiz_h4_body_inv (S : Mem) (ss ds : Int) (filter : Vec) (st : Roll)
    (hinv : HInv S ss 4 st) : HInv S ss 4 (Portable.horiz_h4_body S ss ds filter st) := by
  obtain ⟨_, _, _, _, f4, f5, f6⟩ := hinv
  simp only [Portable.horiz_h4_body, load_u8_8x4, transpose_u8_8x4, HInv]
  refine ⟨?_, ?_, ?_, ?_, ?_, ?_, ?_⟩ <;> intro i hi
  · exact (f4 i hi).trans (congrArg (px S) (by ring1))
  · exact (f5 i hi).trans (congrArg (px S) (by ring1))
  · exact (f6 i hi).trans (congrArg (px S) (by ring1))
  · exact (reg_col4_lo S st.src ss 0 i hi).trans (congrArg (px S) (by push_cast; ring1))
  · exact (reg_col4_lo S st.src ss 1 i hi).trans (congrArg (px S) (by push_cast; ring1))
  · exact (reg_col4_lo S st.src ss 2 i hi).trans (congrArg (px S) (by push_cast; ring1))
  · exact (reg_col4_lo S st.src ss 3 i hi).trans (congrArg (px S) (by push_cast; ring1))

theorem horiz_8x8_init_inv (S : Mem) (ss w : Int) (st : Walk) :
    HInv S ss 8 (Portable.horiz_8x8_init S ss w st) := by
  simp only [Portable.horiz_8x8_init, load_u8_8x8, transpose_u8_8x8, HInv]
  refine ⟨?_, ?_, ?_, ?_, ?_, ?_, ?_⟩ <;> intro i hi
  · exact (reg_col8 S st.src ss 0 i hi).trans (congrArg (px S) (by push_cast; ring1))
  · exact (reg_col8 S st.src ss 1 i hi).trans (congrArg (px S) (by push_cast; ring1))
  · exact (reg_col8 S st.src ss 2 i hi).trans (congrArg (px S) (by push_cast; ring1))
  · exact (reg_col8 S st.src ss 3 i hi).trans (congrArg (px S) (by push_cast; ring1))
  · exact (reg_col8 S st.src ss 4 i hi).trans (congrArg (px S) (by push_cast; ring1))
  · exact (reg_col8 S st.src ss 5 i hi).trans (congrArg (px S) (by push_cast; ring1))
  · exact (reg_col8 S st.src ss 6 i hi).trans (congrArg (px S) (by push_cast; ring1))

theorem horiz_8x8_body_inv (S : Mem) (ss ds : Int) (filter : Vec) (st : Roll) :
    HInv S ss 8 (Portable.horiz_8x8_body S ss ds filter st) := by
  simp only [Portable.horiz_8x8_body, load_u8_8x8, transpose_u8_8x8, HInv]
  refine ⟨?_, ?_, ?_, ?_, ?_, ?_, ?_⟩ <;> intro i hi
  · exact (reg_col8 S st.src ss 1 i hi).trans (congrArg (px S) (by push_cast; ring1))
  · exact (reg_col8 S st.src ss 2 i hi).trans (congrArg (px S) (by push_cast; ring1))
  · exact (reg_col8 S st.src ss 3 i hi).trans (congrArg (px S) (by push_cast; ring1))
  · exact (reg_col8 S st.src ss 4 i hi).trans (congrArg (px S) (by push_cast; ring1))
  · exact (reg_col8 S st.src ss 5 i hi).trans (congrArg (px S) (by push_cast; ring1))
  · exact (reg_col8 S st.src ss 6 i hi).trans (congrArg (px S) (by push_cast; ring1))
  · exact (reg_col8 S st.src ss 7 i hi).trans (congrArg (px S) (by push_cast; ring1))

theorem horiz_h4_tile (S : Mem) (ss ds : Int) (filter : Vec) (st : Roll)
    (hds : 4 ≤ ds) (hinv : HInv S ss 4 st) :
    Wrote st.out (Portable.horiz_h4_body S ss ds filter st).out st.dst ds 4 4
      (fun r c => convolve8_lane (row_window S (st.src - 7 + r * ss + c)) filter) := by
  obtain ⟨f0, f1, f2, f3, f4, f5, f6⟩ := hinv
  have f7 := reg_col4_lo S st.src ss 0
  have f8 := reg_col4_lo S st.src ss 1
  have f9 := reg_col4_lo S st.src ss 2
  have f10 := reg_col4_lo S st.src ss 3
  simp only [Portable.horiz_h4_body, load_u8_8x4, transpose_u8_8x4]
  refine Wrote.congr (wrote_T4x4 st.out st.dst ds _ _ _ _ FILTER_BITS hds) ?_
  intro r c hr hc
  interval_cases c
  · simp only [tile_cols, List.getD_cons_succ, List.getD_cons_zero]
    refine conv4_lane_of filter ?_ ?_ ?_ ?_ ?_ ?_ ?_ ?_
    · exact (f0 r hr).trans (congrArg (px S) (by push_cast; ring1))
    · exact (f1 r hr).trans (congrArg (px S) (by push_cast; ring1))
    · exact (f2 r hr).trans (congrArg (px S) (by push_cast; ring1))
    · exact (f3 r hr).trans (congrArg (px S) (by push_cast; ring1))
    · exact (f4 r hr).trans (congrArg (px S) (by push_cast; ring1))
    · exact (f5 r hr).trans (congrArg (px S) (by push_cast; ring1))
    · exact (f6 r hr).trans (congrArg (px S) (by push_cast; ring1))
    · exact (f7 r hr).trans (congrArg (px S) (by push_cast; ring1))
  · simp only [tile_cols, List.getD_cons_succ, List.getD_cons_zero]
    refine conv4_lane_of filter ?_ ?_ ?_ ?_ ?_ ?_ ?_ ?_
    · exact (f1 r hr).trans (congrArg (px S) (by push_cast; ring1))
    · exact (f2 r hr).trans (congrArg (px S) (by push_cast; ring1))
    · exact (f3 r hr).trans (congrArg (px S) (by push_cast; ring1))
    · exact (f4 r hr).trans (congrArg (px S) (by push_cast; ring1))
    · exact (f5 r hr).trans (congrArg (px S) (by push_cast; ring1))
    · exact (f6 r hr).trans (congrArg (px S) (by push_cast; ring1))
    · exact (f7 r hr).trans (congrArg (px S) (by push_cast; ring1))
    · exact (f8 r hr).trans (congrArg (px S) (by push_cast; ring1))
  · simp only [tile_cols, List.getD_cons_succ, List.getD_cons_zero]
    refine conv4_lane_of filter ?_ ?_ ?_ ?_ ?_ ?_ ?_ ?_
    · exact (f2 r hr).trans (congrArg (px S) (by push_cast; ring1))
    · exact (f3 r hr).trans (congrArg (px S) (by push_cast; ring1))
    · exact (f4 r hr).trans (congrArg (px S) (by push_cast; ring1))
    · exact (f5 r hr).trans (congrArg (px S) (by push_cast; ring1))
    · exact (f6 r hr).trans (congrArg (px S) (by push_cast; ring1))
    · exact (f7 r hr).trans (congrArg (px S) (by push_cast; ring1))
    · exact (f8 r hr).trans (congrArg (px S) (by push_cast; ring1))
    · exact (f9 r hr).trans (congrArg (px S) (by push_cast; ring1))
  · simp only [tile_cols, List.getD_cons_succ, List.getD_cons_zero]
    refine conv4_lane_of filter ?_ ?_ ?_ ?_ ?_ ?_ ?_ ?_
    · exact (f3 r hr).trans (congrArg (px S) (by push_cast; ring1))
    · exact (f4 r hr).trans (congrArg (px S) (by push_cast; ring1))
    · exact (f5 r hr).trans (congrArg (px S) (by push_cast; ring1))
    · exact (f6 r hr).trans (congrArg (px S) (by push_cast; ring1))
    · exact (f7 r hr).trans (congrArg (px S) (by push_cast; ring1))
    · exact (f8 r hr).trans (congrArg (px S) (by push_cast; ring1))
    · exact (f9 r hr).trans (congrArg (px S) (by push_cast; ring1))
    · exact (f10 r hr).trans (congrArg (px S) (by push_cast; ring1))

theorem horiz_w4_tile (S : Mem) (ss ds : Int) (filter : Vec) (st : Walk)
    (hds : 4 ≤ ds) :
    Wrote st.out (Portable.horiz_w4_body S ss ds filter st).out st.dst ds 8 4
      (fun r c => convolve8_lane (row_window S (st.src + r * ss + c)) filter) := by
  have f0 := reg_col8 S st.src ss 0
  have f1 := reg_col8 S st.src ss 1
  have f2 := reg_col8 S st.src ss 2
  have f3 := reg_col8 S st.src ss 3
  have f4 := reg_col8 S st.src ss 4
  have f5 := reg_col8 S st.src ss 5
  have f6 := reg_col8 S st.src ss 6
  have f7 := reg_col8 S (st.src + 7) ss 0
  have f8 := reg_col8 S (st.src + 7) ss 1
  have f9 := reg_col8 S (st.src + 7) ss 2
  have f10 := reg_col8 S (st.src + 7) ss 3
  simp only [Portable.horiz_w4_body, load_u8_8x8, transpose_u8_8x8, transpose_u8_4x8]
  refine Wrote.congr (wrote_T8x4 st.out st.dst ds _ _ _ _ hds) ?_
  intro r c hr hc
  interval_cases c
  · simp only [tile_cols, List.getD_cons_succ, List.getD_cons_zero]
    refine conv8_lane_of filter ?_ ?_ ?_ ?_ ?_ ?_ ?_ ?_
    · exact (f0 r hr).trans (congrArg (px S) (by push_cast; ring1))
    · exact (f1 r hr).trans (congrArg (px S) (by push_cast; ring1))
    · exact (f2 r hr).trans (congrArg (px S) (by push_cast; ring1))
    · exact (f3 r hr).trans (congrArg (px S) (by push_cast; ring1))
    · exact (f4 r hr).trans (congrArg (px S) (by push_cast; ring1))
    · exact (f5 r hr).trans (congrArg (px S) (by push_cast; ring1))
    · exact (f6 r hr).trans (congrArg (px S) (by push_cast; ring1))
    · exact (f7 r hr).trans (congrArg (px S) (by push_cast; ring1))
  · simp only [tile_cols, List.getD_cons_succ, List.getD_cons_zero]
    refine conv8_lane_of filter ?_ ?_ ?_ ?_ ?_ ?_ ?_ ?_
    · exact (f1 r hr).trans (congrArg (px S) (by push_cast; ring1))
    · exact (f2 r hr).trans (congrArg (px S) (by push_cast; ring1))
    · exact (f3 r hr).trans (congrArg (px S) (by push_cast; ring1))
    · exact (f4 r hr).trans (congrArg (px S) (by push_cast; ring1))
    · exact (f5 r hr).trans (congrArg (px S) (by push_cast; ring1))
    · exact (f6 r hr).trans (congrArg (px S) (by push_cast; ring1))
    · exact (f7 r hr).trans (congrArg (px S) (by push_cast; ring1))
    · exact (f8 r hr).trans (congrArg (px S) (by push_cast; ring1))
  · simp only [tile_cols, List.getD_cons_succ, List.getD_cons_zero]
    refine conv8_lane_of filter ?_ ?_ ?_ ?_ ?_ ?_ ?_ ?_
    · exact (f2 r hr).trans (congrArg (px S) (by push_cast; ring1))
    · exact (f3 r hr).trans (congrArg (px S) (by push_cast; ring1))
    · exact (f4 r hr).trans (congrArg (px S) (by push_cast; ring1))
    · exact (f5 r hr).trans (congrArg (px S) (by push_cast; ring1))
    · exact (f6 r hr).trans (congrArg (px S) (by push_cast; ring1))
    · exact (f7 r hr).trans (congrArg (px S) (by push_cast; ring1))
    · exact (f8 r hr).trans (congrArg (px S) (by push_cast; ring1))
    · exact (f9 r hr).trans (congrArg (px S) (by push_cast; ring1))
  · simp only [tile_cols, List.getD_cons_succ, List.getD_cons_zero]
    refine conv8_lane_of filter ?_ ?_ ?_ ?_ ?_ ?_ ?_ ?_
    · exact (f3 r hr).trans (congrArg (px S) (by push_cast; ring1))
    · exact (f4 r hr).trans (congrArg (px S) (by push_cast; ring1))
    · exact (f5 r hr).trans (congrArg (px S) (by push_cast; ring1))
    · exact (f6 r hr).trans (congrArg (px S) (by push_cast; ring1))
    · exact (f7 r hr).trans (congrArg (px S) (by push_cast; ring1))
    · exact (f8 r hr).trans (congrArg (px S) (by push_cast; ring1))
    · exact (f9 r hr).trans (congrArg (px S) (by push_cast; ring1))
    · exact (f10 r hr).trans (congrArg (px S) (by push_cast; ring1))

theorem horiz_8x8_tile (S : Mem) (ss ds : Int) (filter : Vec) (st : Roll)
    (hds : 8 ≤ ds) (hinv : HInv S ss 8 st) :
    Wrote st.out (Portable.horiz_8x8_body S ss ds filter st).out st.dst ds 8 8
      (fun r c => convolve8_lane (row_window S (st.src - 7 + r * ss + c)) filter) := by
  obtain ⟨f0, f1, f2, f3, f4, f5, f6⟩ := hinv
  have f7 := reg_col8 S st.src ss 0
  have f8 := reg_col8 S st.src ss 1
  have f9 := reg_col8 S st.src ss 2
  have f10 := reg_col8 S st.src ss 3
  have f11 := reg_col8 S st.src ss 4
  have f12 := reg_col8 S st.src ss 5
  have f13 := reg_col8 S st.src ss 6
  have f14 := reg_col8 S st.src ss 7
  simp only [Portable.horiz_8x8_body, load_u8_8x8]
  refine Wrote.congr (wrote_T8x8 st.out st.dst ds _ _ _ _ _ _ _ _ hds) ?_
  intro r c hr hc
  simp only [transpose_u8_8x8]
  interval_cases c
  · simp only [tile_cols, List.getD_cons_succ, List.getD_cons_zero]
    refine conv8_lane_of filter ?_ ?_ ?_ ?_ ?_ ?_ ?_ ?_
    · exact (f0 r hr).trans (congrArg (px S) (by push_cast; ring1))
    · exact (f1 r hr).trans (congrArg (px S) (by push_cast; ring1))
    · exact (f2 r hr).trans (congrArg (px S) (by push_cast; ring1))
    · exact (f3 r hr).trans (congrArg (px S) (by push_cast; ring1))
    · exact (f4 r hr).trans (congrArg (px S) (by push_cast; ring1))
    · exact (f5 r hr).trans (congrArg (px S) (by push_cast; ring1))
    · exact (f6 r hr).trans (congrArg (px S) (by push_cast; ring1))
    · exact (f7 r hr).trans (congrArg (px S) (by push_cast; ring1))
  · simp only [tile_cols, List.getD_cons_succ, List.getD_cons_zero]
    refine conv8_lane_of filter ?_ ?_ ?_ ?_ ?_ ?_ ?_ ?_
    · exact (f1 r hr).trans (congrArg (px S) (by push_cast; ring1))
    · exact (f2 r hr).trans (congrArg (px S) (by push_cast; ring1))
    · exact (f3 r hr).trans (congrArg (px S) (by push_cast; ring1))
    · exact (f4 r hr).trans (congrArg (px S) (by push_cast; ring1))
    · exact (f5 r hr).trans (congrArg (px S) (by push_cast; ring1))
    · exact (f6 r hr).trans (congrArg (px S) (by push_cast; ring1))
    · exact (f7 r hr).trans (congrArg (px S) (by push_cast; ring1))
    · exact (f8 r hr).trans (congrArg (px S) (by push_cast; ring1))
  · simp only [tile_cols, List.getD_cons_succ, List.getD_cons_zero]
    refine conv8_lane_of filter ?_ ?_ ?_ ?_ ?_ ?_ ?_ ?_
    · exact (f2 r hr).trans (congrArg (px S) (by push_cast; ring1))
    · exact (f3 r hr).trans (congrArg (px S) (by push_cast; ring1))
    · exact (f4 r hr).trans (congrArg (px S) (by push_cast; ring1))
    · exact (f5 r hr).trans (congrArg (px S) (by push_cast; ring1))
    · exact (f6 r hr).trans (congrArg (px S) (by push_cast; ring1))
    · exact (f7 r hr).trans (congrArg (px S) (by push_cast; ring1))
    · exact (f8 r hr).trans (congrArg (px S) (by push_cast; ring1))
    · exact (f9 r hr).trans (congrArg (px S) (by push_cast; ring1))
  · simp only [tile_cols, List.getD_cons_succ, List.getD_cons_zero]
    refine conv8_lane_of filter ?_ ?_ ?_ ?_ ?_ ?_ ?_ ?_
    · exact (f3 r hr).trans (congrArg (px S) (by push_cast; ring1))
    · exact (f4 r hr).trans (congrArg (px S) (by push_cast; ring1))
    · exact (f5 r hr).trans (congrArg (px S) (by push_cast; ring1))
    · exact (f6 r hr).trans (congrArg (px S) (by push_cast; ring1))
    · exact (f7 r hr).trans (congrArg (px S) (by push_cast; ring1))
    · exact (f8 r hr).trans (congrArg (px S) (by push_cast; ring1))
    · exact (f9 r hr).trans (congrArg (px S) (by push_cast; ring1))
    · exact (f10 r hr).trans (congrArg (px S) (by push_cast; ring1))
  · simp only [tile_cols, List.getD_cons_succ, List.getD_cons_zero]
    refine conv8_lane_of filter ?_ ?_ ?_ ?_ ?_ ?_ ?_ ?_
    · exact (f4 r hr).trans (congrArg (px S) (by push_cast; ring1))
    · exact (f5 r hr).trans (congrArg (px S) (by push_cast; ring1))
    · exact (f6 r hr).trans (congrArg (px S) (by push_cast; ring1))
    · exact (f7 r hr).trans (congrArg (px S) (by push_cast; ring1))
    · exact (f8 r hr).trans (congrArg (px S) (by push_cast; ring1))
    · exact (f9 r hr).trans (congrArg (px S) (by push_cast; ring1))
    · exact (f10 r hr).trans (congrArg (px S) (by push_cast; ring1))
    · exact (f11 r hr).trans (congrArg (px S) (by push_cast; ring1))
  · simp only [tile_cols, List.getD_cons_succ, List.getD_cons_zero]
    refine conv8_lane_of filter ?_ ?_ ?_ ?_ ?_ ?_ ?_ ?_
    · exact (f5 r hr).trans (congrArg (px S) (by push_cast; ring1))
    · exact (f6 r hr).trans (congrArg (px S) (by push_cast; ring1))
    · exact (f7 r hr).trans (congrArg (px S) (by push_cast; ring1))
    · exact (f8 r hr).trans (congrArg (px S) (by push_cast; ring1))
    · exact (f9 r hr).trans (congrArg (px S) (by push_cast; ring1))
    · exact (f10 r hr).trans (congrArg (px S) (by push_cast; ring1))
    · exact (f11 r hr).trans (congrArg (px S) (by push_cast; ring1))
    · exact (f12 r hr).trans (congrArg (px S) (by push_cast; ring1))
  · simp only [tile_cols, List.getD_cons_succ, List.getD_cons_zero]
    refine conv8_lane_of filter ?_ ?_ ?_ ?_ ?_ ?_ ?_ ?_
    · exact (f6 r hr).trans (congrArg (px S) (by push_cast; ring1))
    · exact (f7 r hr).trans (congrArg (px S) (by push_cast; ring1))
    · exact (f8 r hr).trans (congrArg (px S) (by push_cast; ring1))
    · exact (f9 r hr).trans (congrArg (px S) (by push_cast; ring1))
    · exact (f10 r hr).trans (congrArg (px S) (by push_cast; ring1))
    · exact (f11 r hr).trans (congrArg (px S) (by push_cast; ring1))
    · exact (f12 r hr).trans (congrArg (px S) (by push_cast; ring1))
    · exact (f13 r hr).trans (congrArg (px S) (by push_cast; ring1))
  · simp only [tile_cols, List.getD_cons_succ, List.getD_cons_zero]
    refine conv8_lane_of filter ?_ ?_ ?_ ?_ ?_ ?_ ?_ ?_
    · exact (f7 r hr).trans (congrArg (px S) (by push_cast; ring1))
    · exact (f8 r hr).trans (congrArg (px S) (by push_cast; ring1))
    · exact (f9 r hr).trans (congrArg (px S) (by push_cast; ring1))
    · exact (f10 r hr).trans (congrArg (px S) (by push_cast; ring1))
    · exact (f11 r hr).trans (congrArg (px S) (by push_cast; ring1))
    · exact (f12 r hr).trans (congrArg (px S) (by push_cast; ring1))
    · exact (f13 r hr).trans (congrArg (px S) (by push_cast; ring1))
    · exact (f14 r hr).trans (congrArg (px S) (by push_cast; ring1))

/-! ## Horizontal pass, portable build: loops -/

theorem horiz_h4_loop (S : Mem) (ss ds : Int) (filter : Vec) (n : Nat)
    (st : Roll) (fuel : Nat) (hcnt : st.cnt = 4 * (n + 1 : Nat)) (hfuel : n + 1 ≤ fuel)
    (hds : ((4 * (n + 1) : Nat) : Int) ≤ ds) (hinv : HInv S ss 4 st) :
    ∃ st2, do_while (fun r => some (Portable.horiz_h4_body S ss ds filter r))
        (fun r => decide (r.cnt ≠ 0)) fuel st = some st2 ∧
      Wrote st.out st2.out st.dst ds 4 (4 * (n + 1))
        (fun r c => convolve8_lane (row_window S (st.src - 7 + r * ss + c)) filter) := by
  have hds4 : 4 ≤ ds := by push_cast at hds; nlinarith
  refine do_while_hstack _ _ (HInv S ss 4) (fun r => r.out) (fun r => r.dst)
    (fun r => r.cnt) ds 4 4
    (fun st r c => convolve8_lane (row_window S (st.src - 7 + r * ss + c)) filter)
    ?_ ?_ n st fuel (by exact_mod_cast hcnt) hfuel hds hinv
  · intro st hinv
    refine ⟨_, rfl, horiz_h4_body_inv S ss ds filter st hinv, ?_, ?_,
      horiz_h4_tile S ss ds filter st hds4 hinv, ?_⟩
    · simp only [Portable.horiz_h4_body, load_u8_8x4, transpose_u8_8x4]; push_cast; ring1
    · simp only [Portable.horiz_h4_body, load_u8_8x4, transpose_u8_8x4]; push_cast; ring1
    · intro r c
      simp only [Portable.horiz_h4_body, load_u8_8x4, transpose_u8_8x4]
      exact congrArg (fun p => convolve8_lane (row_window S p) filter)
        (by push_cast; ring1)
  · intro st k hk
    exact cond_ne_zero_iff 4 (by norm_num) st.cnt k hk

theorem horiz_w4_loop (S : Mem) (ss ds : Int) (filter : Vec) (hds : 4 ≤ ds) (n : Nat)
    (st : Walk) (fuel : Nat) (hcnt : st.cnt = 8 * (n + 1 : Nat)) (hfuel : n + 1 ≤ fuel) :
    ∃ st2, do_while (fun r => some (Portable.horiz_w4_body S ss ds filter r))
        (fun r => decide (r.cnt > 0)) fuel st = some st2 ∧
      Wrote st.out st2.out st.dst ds (8 * (n + 1)) 4
        (fun r c => convolve8_lane (row_window S (st.src + r * ss + c)) filter) := by
  refine do_while_vstack _ _ (fun _ => True) (fun r => r.out) (fun r => r.dst)
    (fun r => r.cnt) ds 8 4
    (fun st r c => convolve8_lane (row_window S (st.src + r * ss + c)) filter)
    (by exact_mod_cast hds) ?_ ?_ n st fuel (by exact_mod_cast hcnt) hfuel trivial
  · intro st _
    refine ⟨_, rfl, trivial, ?_, ?_, horiz_w4_tile S ss ds filter st hds, ?_⟩
    · simp only [Portable.horiz_w4_body, load_u8_8x8, transpose_u8_8x8, transpose_u8_4x8]
      push_cast; ring1
    · simp only [Portable.horiz_w4_body, load_u8_8x8, transpose_u8_8x8, transpose_u8_4x8]
      push_cast; ring1
    · intro r c
      simp only [Portable.horiz_w4_body, load_u8_8x8, transpose_u8_8x8, transpose_u8_4x8]
      exact congrArg (fun p => convolve8_lane (row_window S p) filter)
        (by push_cast; ring1)
  · intro st k hk
    exact cond_pos_iff 8 (by norm_num) st.cnt k hk

theorem horiz_8x8_loop (S : Mem) (ss ds : Int) (filter : Vec) (n : Nat)
    (st : Roll) (fuel : Nat) (hcnt : st.cnt = 8 * (n + 1 : Nat)) (hfuel : n + 1 ≤ fuel)
    (hds : ((8 * (n + 1) : Nat) : Int) ≤ ds) (hinv : HInv S ss 8 st) :
    ∃ st2, do_while (fun r => some (Portable.horiz_8x8_body S ss ds filter r))
        (fun r => decide (r.cnt ≠ 0)) fuel st = some st2 ∧
      Wrote st.out st2.out st.dst ds 8 (8 * (n + 1))
        (fun r c => convolve8_lane (row_window S (st.src - 7 + r * ss + c)) filter) := by
  have hds8 : 8 ≤ ds := by push_cast at hds; nlinarith
  refine do_while_hstack _ _ (HInv S ss 8) (fun r => r.out) (fun r => r.dst)
    (fun r => r.cnt) ds 8 8
    (fun st r c => convolve8_lane (row_window S (st.src - 7 + r * ss + c)) filter)
    ?_ ?_ n st fuel (by exact_mod_cast hcnt) hfuel hds hinv
  · intro st hinv
    refine ⟨_, rfl, horiz_8x8_body_inv S ss ds filter st, ?_, ?_,
      horiz_8x8_tile S ss ds filter st hds8 hinv, ?_⟩
    · simp only [Portable.horiz_8x8_body, load_u8_8x8, transpose_u8_8x8]; push_cast; ring1
    · simp only [Portable.horiz_8x8_body, load_u8_8x8, transpose_u8_8x8]; push_cast; ring1
    · intro r c
      simp only [Portable.horiz_8x8_body, load_u8_8x8, transpose_u8_8x8]
      exact congrArg (fun p => convolve8_lane (row_window S p) filter)
        (by push_cast; ring1)
  · intro st k hk
    exact cond_ne_zero_iff 8 (by norm_num) st.cnt k hk

theorem horiz_8x8_band_spec (S : Mem) (ss ds : Int) (filter : Vec) (m : Nat)
    (hds : ((8 * (m + 1) : Nat) : Int) ≤ ds) (fuel : Nat) (hfuel : m + 1 ≤ fuel)
    (st : Walk) :
    ∃ st1, Portable.horiz_8x8_band fuel S ss ds filter (8 * (m + 1 : Nat)) st = some st1 ∧
      st1.cnt = st.cnt - 8 ∧ st1.dst = st.dst + 8 * ds ∧ st1.src = st.src + 8 * ss ∧
      Wrote st.out st1.out st.dst ds 8 (8 * (m + 1))
        (fun r c => convolve8_lane (row_window S (st.src + r * ss + c)) filter) := by
  obtain ⟨r2, hrun, hw⟩ := horiz_8x8_loop S ss ds filter m
    (Portable.horiz_8x8_init S ss (8 * (m + 1 : Nat)) st) fuel
    (by simp only [Portable.horiz_8x8_init, load_u8_8x8, transpose_u8_8x8]) hfuel hds
    (horiz_8x8_init_inv S ss _ st)
  refine ⟨{ src := st.src + 8 * ss, dst := st.dst + 8 * ds, cnt := st.cnt - 8,
            out := r2.out },
    by simp only [Portable.horiz_8x8_band, hrun], rfl, rfl, rfl, ?_⟩
  refine Wrote.congr
    (by simpa only [Portable.horiz_8x8_init, load_u8_8x8, transpose_u8_8x8] using hw) ?_
  intro r c _ _
  exact congrArg (fun p => convolve8_lane (row_window S p) filter) (by ring1)

theorem horiz_wide_loop (S : Mem) (ss ds : Int) (filter : Vec) (n m : Nat)
    (fuel : Nat) (hfuel : n + 1 ≤ fuel) (hfuel2 : m + 1 ≤ fuel)
    (hds : ((8 * (m + 1) : Nat) : Int) ≤ ds) (st : Walk)
    (hcnt : st.cnt = 8 * (n + 1 : Nat)) :
    ∃ st2, do_while (Portable.horiz_8x8_band fuel S ss ds filter (8 * (m + 1 : Nat)))
        (fun r => decide (r.cnt > 0)) fuel st = some st2 ∧
      Wrote st.out st2.out st.dst ds (8 * (n + 1)) (8 * (m + 1))
        (fun r c => convolve8_lane (row_window S (st.src + r * ss + c)) filter) := by
  refine do_while_vstack _ _ (fun _ => True) (fun r => r.out) (fun r => r.dst)
    (fun r => r.cnt) ds 8 (8 * (m + 1))
    (fun st r c => convolve8_lane (row_window S (st.src + r * ss + c)) filter)
    hds ?_ ?_ n st fuel (by exact_mod_cast hcnt) hfuel trivial
  · intro st _
    obtain ⟨st1, h1, h2, h3, h4, h5⟩ := horiz_8x8_band_spec S ss ds filter m hds fuel hfuel2 st
    refine ⟨st1, h1, trivial, by exact_mod_cast h2, by exact_mod_cast h3, h5, ?_⟩
    intro r c
    simp only [h4]
    exact congrArg (fun p => convolve8_lane (row_window S p) filter)
      (by push_cast; ring1)
  · intro st k hk
    exact cond_pos_iff 8 (by norm_num) st.cnt k hk

theorem toNat_mul_succ (k : Nat) (n : Nat) :
    ((k : Int) * ((n + 1 : Nat) : Int)).toNat = k * (n + 1) := by
  have : ((k : Int) * ((n + 1 : Nat) : Int)) = ((k * (n + 1) : Nat) : Int) := by push_cast; ring
  rw [this, Int.toNat_natCast]

/-- The portable horizontal pass writes the whole block, each byte being the
tap kernel of its row window, and changes nothing else. -/
theorem horiz_pass_spec (fuel : Nat) (S : Mem) (src ss : Int) (D : Mem) (dst ds : Int)
    (filter_x : Nat → Int) (w h : Int) (hw : w = 4 ∨ (0 < w ∧ 8 ∣ w))
    (hh : h = 4 ∨ (0 < h ∧ 8 ∣ h)) (hds : w ≤ ds)
    (hdst : dst % 4 = 0) (hstr : ds % 4 = 0) (hfuel : w + h ≤ fuel) :
    ∃ D1, Portable.aom_convolve8_horiz_neon fuel S src ss D dst ds filter_x w h = some D1 ∧
      Wrote D D1 dst ds h.toNat w.toNat
        (fun r c => convolve8_lane (row_window S (src + r * ss + c - 3)) filter_x) := by
  rcases hh with rfl | ⟨hh0, hh8⟩
  · obtain ⟨n, rfl⟩ : ∃ n : Nat, w = 4 * (n + 1 : Nat) := by
      rcases hw with rfl | ⟨hw0, hw8⟩
      · exact ⟨0, by norm_num⟩
      · exact exists_mul_succ (by norm_num) hw0 (Dvd.dvd.trans (by norm_num) hw8)
    have e := toNat_mul_succ 4 n
    simp only [Nat.cast_ofNat] at e
    rw [e]
    obtain ⟨st2, hrun, hwr⟩ := horiz_h4_loop S ss ds (vld1q_s16 filter_x) n
      (Portable.horiz_h4_init S (src - (SUBPEL_TAPS / 2 - 1)) ss D dst (4 * (n + 1 : Nat)))
      fuel (by simp only [Portable.horiz_h4_init, load_u8_8x4, transpose_u8_8x4])
      (by push_cast at hfuel; omega) (by push_cast at hds ⊢; linarith)
      (horiz_h4_init_inv S _ ss D dst _)
    refine ⟨st2.out, ?_, ?_⟩
    · simp only [Portable.aom_convolve8_horiz_neon, if_pos hdst, if_pos hstr,
        if_true, hrun, Option.map_some']
    · refine Wrote.congr
        (by simpa only [Portable.horiz_h4_init, load_u8_8x4, transpose_u8_8x4] using hwr) ?_
      intro r c _ _
      exact congrArg (fun p => convolve8_lane (row_window S p) filter_x)
        (by rw [taps_offset]; ring1)
  · obtain ⟨n, rfl⟩ := exists_mul_succ (by norm_num) hh0 hh8
    have e := toNat_mul_succ 8 n
    simp only [Nat.cast_ofNat] at e
    rw [e]
    have hne : ¬ (8 * ((n + 1 : Nat) : Int) = 4) := by omega
    rcases hw with rfl | ⟨hw0, hw8⟩
    · obtain ⟨st2, hrun, hwr⟩ := horiz_w4_loop S ss ds (vld1q_s16 filter_x) hds n
        { src := src - (SUBPEL_TAPS / 2 - 1), dst := dst, cnt := 8 * ((n + 1 : Nat) : Int),
          out := D } fuel rfl (by push_cast at hfuel; omega)
      refine ⟨st2.out, ?_, ?_⟩
      · simp only [Portable.aom_convolve8_horiz_neon, if_pos hdst, if_pos hstr,
        hne, if_false, if_true, hrun,
          Option.map_some']
      · refine Wrote.congr hwr ?_
        intro r c _ _
        exact congrArg (fun p => convolve8_lane (row_window S p) filter_x)
          (by simp only [taps_offset]; ring1)
    · obtain ⟨m, rfl⟩ := exists_mul_succ (by norm_num) hw0 hw8
      have e2 := toNat_mul_succ 8 m
      simp only [Nat.cast_ofNat] at e2
      rw [e2]
      have hne2 : ¬ (8 * ((m + 1 : Nat) : Int) = 4) := by omega
      obtain ⟨st2, hrun, hwr⟩ := horiz_wide_loop S ss ds (vld1q_s16 filter_x) n m fuel
        (by push_cast at hfuel; omega) (by push_cast at hfuel; omega)
        (by push_cast at hds ⊢; linarith)
        { src := src - (SUBPEL_TAPS / 2 - 1), dst := dst, cnt := 8 * ((n + 1 : Nat) : Int),
          out := D } rfl
      refine ⟨st2.out, ?_, ?_⟩
      · simp only [Portable.aom_convolve8_horiz_neon, if_pos hdst, if_pos hstr,
        hne, hne2, if_false, hrun,
          Option.map_some']
      · refine Wrote.congr hwr ?_
        intro r c _ _
        exact congrArg (fun p => convolve8_lane (row_window S p) filter_x)
          (by simp only [taps_offset]; ring1)

/-! ## The passes compute the tap kernel at every output position -/

theorem Wrote.at {D0 D1 : Mem} {dst ds : Int} {val : Nat → Nat → Int} {w h : Int}
    (hw : Wrote D0 D1 dst ds h.toNat w.toNat val) (r c : Int) (hr0 : 0 ≤ r) (hr : r < h)
    (hc0 : 0 ≤ c) (hc : c < w) : D1 (dst + r * ds + c) = val r.toNat c.toNat := by
  have h1 := hw.1 r.toNat c.toNat (by omega) (by omega)
  rwa [Int.toNat_of_nonneg hr0, Int.toNat_of_nonneg hc0] at h1

theorem vert_w4_iterate (S : Mem) (src ss : Int) (D : Mem) (dst ds : Int) (filter : Vec)
    (h : Int) (k : Nat) :
    VInv S ss 4 ((vert_w4_body S ss ds filter)^[k] (vert_w4_init S src ss D dst h)) ∧
    ((vert_w4_body S ss ds filter)^[k] (vert_w4_init S src ss D dst h)).src
      = src + (4 * k + 7) * ss := by
  induction k with
  | zero =>
    refine ⟨vert_w4_init_inv S src ss D dst h, ?_⟩
    simp only [Function.iterate_zero, id_eq, vert_w4_init, load_u8_8x7]
    push_cast; ring1
  | succ k ih =>
    rw [Function.iterate_succ_apply']
    refine ⟨vert_w4_body_inv S ss ds filter _ ih.1, ?_⟩
    have e : ∀ st : Roll, (vert_w4_body S ss ds filter st).src = st.src + 4 * ss := by
      intro st; simp only [vert_w4_body, load_u8_8x4]
    rw [e, ih.2]; push_cast; ring1

theorem vert_8x4_iterate (S : Mem) (ss ds : Int) (filter : Vec) (h : Int) (st : Walk)
    (k : Nat) :
    VInv S ss 8 ((vert_8x4_body S ss ds filter)^[k] (vert_8x4_init S ss h st)) ∧
    ((vert_8x4_body S ss ds filter)^[k] (vert_8x4_init S ss h st)).src
      = st.src + (4 * k + 7) * ss := by
  induction k with
  | zero =>
    refine ⟨vert_8x4_init_inv S ss h st, ?_⟩
    simp only [Function.iterate_zero, id_eq, vert_8x4_init, load_u8_8x7]
    push_cast; ring1
  | succ k ih =>
    rw [Function.iterate_succ_apply']
    refine ⟨vert_8x4_body_inv S ss ds filter _ ih.1, ?_⟩
    have e : ∀ st : Roll, (vert_8x4_body S ss ds filter st).src = st.src + 4 * ss := by
      intro st; simp only [vert_8x4_body, load_u8_8x4]
    rw [e, ih.2]; push_cast; ring1

theorem holds_rows_of_VInv (S : Mem) (ss p : Int) (N : Nat) (st : Roll)
    (hinv : VInv S ss N st) (hp : st.src = p + 7 * ss) : holds_rows S p ss N st := by
  obtain ⟨f0, f1, f2, f3, f4, f5, f6⟩ := hinv
  intro i hi
  refine ⟨?_, ?_, ?_, ?_, ?_, ?_, ?_⟩
  · exact (f0 i hi).trans (congrArg (px S) (by rw [hp]; ring1))
  · exact (f1 i hi).trans (congrArg (px S) (by rw [hp]; ring1))
  · exact (f2 i hi).trans (congrArg (px S) (by rw [hp]; ring1))
  · exact (f3 i hi).trans (congrArg (px S) (by rw [hp]; ring1))
  · exact (f4 i hi).trans (congrArg (px S) (by rw [hp]; ring1))
  · exact (f5 i hi).trans (congrArg (px S) (by rw [hp]; ring1))
  · exact (f6 i hi).trans (congrArg (px S) (by rw [hp]; ring1))

/-- C1: for `w` equal to 4 or a positive multiple of 8 and `h` equal to 4 or a
positive multiple of 8 (`dst` and `dst_stride`
multiples of 4, as the pass asserts, and destination rows at least `w` bytes
apart), the
portable `aom_convolve8_horiz_neon` returns, given enough fuel, and every
byte `dst[r][c]` of the block is the single-lane tap kernel of the eight
source bytes `src[r][c-3 .. c+4]`; the three tiling branches are covered by
the case split on `h` and `w`. -/
theorem portable_horiz_computes_tap_kernel (fuel : Nat) (S : Mem) (src ss : Int)
    (D : Mem) (dst ds : Int) (filter_x : Nat → Int) (w h : Int)
    (hw : w = 4 ∨ (0 < w ∧ 8 ∣ w)) (hh : h = 4 ∨ (0 < h ∧ 8 ∣ h))
    (hds : w ≤ ds) (hdst : dst % 4 = 0) (hstr : ds % 4 = 0) (hfuel : w + h ≤ fuel) :
    ∃ D1, Portable.aom_convolve8_horiz_neon fuel S src ss D dst ds filter_x w h = some D1 ∧
      ∀ r c : Int, 0 ≤ r → r < h → 0 ≤ c → c < w →
        D1 (dst + r * ds + c)
          = convolve8_lane (row_window S (src + r * ss + c - 3)) filter_x := by
  obtain ⟨D1, hrun, hwr⟩ :=
    horiz_pass_spec fuel S src ss D dst ds filter_x w h hw hh hds hdst hstr hfuel
  refine ⟨D1, hrun, fun r c hr0 hr hc0 hc => ?_⟩
  rw [hwr.at r c hr0 hr hc0 hc, Int.toNat_of_nonneg hr0, Int.toNat_of_nonneg hc0]

theorem portable_horiz_computes_tap_kernel_witness :
    ((8 : Int) = 4 ∨ (0 < (8 : Int) ∧ (8 : Int) ∣ 8)) ∧
    ((4 : Int) = 4 ∨ (0 < (4 : Int) ∧ (8 : Int) ∣ 4)) ∧ (8 : Int) ≤ 8 ∧
    (0 : Int) % 4 = 0 ∧ (8 : Int) % 4 = 0 ∧
    (8 : Int) + 4 ≤ (12 : Nat) ∧
    ∃ D1, Portable.aom_convolve8_horiz_neon 12 (fun a => a) 0 16 (fun _ => 0) 0 8
        (fun k => if k = 3 then 64 else if k = 4 then 64 else 0) 8 4 = some D1 ∧
      ∀ r c : Int, 0 ≤ r → r < 4 → 0 ≤ c → c < 8 →
        D1 (0 + r * 8 + c)
          = convolve8_lane (row_window (fun a => a) (0 + r * 16 + c - 3))
              (fun k => if k = 3 then 64 else if k = 4 then 64 else 0) :=
  ⟨by decide, by decide, by decide, by decide, by decide, by decide,
    portable_horiz_computes_tap_kernel 12 (fun a => a) 0 16 (fun _ => 0) 0 8
      (fun k => if k = 3 then 64 else if k = 4 then 64 else 0) 8 4
      (by decide) (by decide) (by decide) (by decide) (by decide) (by decide)⟩

/-- C2: for `w` equal to 4 or a positive multiple of 8 and `h` a positive
multiple of 4 (`dst` and `dst_stride`
multiples of 4, as the pass asserts, and destination rows at least `w` bytes
apart),
`aom_convolve8_vert_neon` returns, given enough fuel, and every byte
`dst[r][c]` of the block is the single-lane tap kernel of the eight source
bytes `src[r-3 .. r+4][c]`; after `k` groups of 4 output rows the rolling
registers `s0 ... s6` hold source rows `r-3 .. r+3` of the next output row
`r = 4k`, in the `w == 4` loop and in the loop of every strip of 8 columns. -/
theorem vert_computes_tap_kernel (fuel : Nat) (S : Mem) (src ss : Int)
    (D : Mem) (dst ds : Int) (filter_y : Nat → Int) (w h : Int)
    (hw : w = 4 ∨ (0 < w ∧ 8 ∣ w)) (hh : 0 < h ∧ 4 ∣ h)
    (hds : w ≤ ds) (hdst : dst % 4 = 0) (hstr : ds % 4 = 0) (hfuel : w + h ≤ fuel) :
    (∃ D1, aom_convolve8_vert_neon fuel S src ss D dst ds filter_y w h = some D1 ∧
      ∀ r c : Int, 0 ≤ r → r < h → 0 ≤ c → c < w →
        D1 (dst + r * ds + c)
          = convolve8_lane (col_window S (src + (r - 3) * ss + c) ss) filter_y) ∧
    (∀ k : Nat, holds_rows S (src + (4 * k - 3) * ss) ss 4
      ((vert_w4_body S ss ds (vld1q_s16 filter_y))^[k]
        (vert_w4_init S (src - (SUBPEL_TAPS / 2 - 1) * ss) ss D dst h))) ∧
    (∀ (k : Nat) (st : Walk), holds_rows S (st.src + 4 * k * ss) ss 8
      ((vert_8x4_body S ss ds (vld1q_s16 filter_y))^[k] (vert_8x4_init S ss h st))) := by
  refine ⟨?_, fun k => ?_, fun k st => ?_⟩
  · obtain ⟨D1, hrun, hwr⟩ :=
      vert_pass_spec fuel S src ss D dst ds filter_y w h hw hh hds hdst hstr hfuel
    refine ⟨D1, hrun, fun r c hr0 hr hc0 hc => ?_⟩
    rw [hwr.at r c hr0 hr hc0 hc, Int.toNat_of_nonneg hr0, Int.toNat_of_nonneg hc0]
  · obtain ⟨h1, h2⟩ := vert_w4_iterate S (src - (SUBPEL_TAPS / 2 - 1) * ss) ss D dst ds
      (vld1q_s16 filter_y) h k
    exact holds_rows_of_VInv S ss _ 4 _ h1 (by rw [h2, taps_offset]; ring1)
  · obtain ⟨h1, h2⟩ := vert_8x4_iterate S ss ds (vld1q_s16 filter_y) h st k
    exact holds_rows_of_VInv S ss _ 8 _ h1 (by rw [h2]; ring1)

theorem vert_computes_tap_kernel_witness :
    ((8 : Int) = 4 ∨ (0 < (8 : Int) ∧ (8 : Int) ∣ 8)) ∧
    (0 < (12 : Int) ∧ (4 : Int) ∣ 12) ∧ (8 : Int) ≤ 8 ∧ (0 : Int) % 4 = 0 ∧ (8 : Int) % 4 = 0 ∧
    (8 : Int) + 12 ≤ (20 : Nat) ∧
    ((∃ D1, aom_convolve8_vert_neon 20 (fun a => a) 0 16 (fun _ => 0) 0 8
        (fun k => if k = 3 then 64 else if k = 4 then 64 else 0) 8 12 = some D1 ∧
      ∀ r c : Int, 0 ≤ r → r < 12 → 0 ≤ c → c < 8 →
        D1 (0 + r * 8 + c)
          = convolve8_lane (col_window (fun a => a) (0 + (r - 3) * 16 + c) 16)
              (fun k => if k = 3 then 64 else if k = 4 then 64 else 0)) ∧
    (∀ k : Nat, holds_rows (fun a => a) (0 + (4 * k - 3) * 16) 16 4
      ((vert_w4_body (fun a => a) 16 8
          (vld1q_s16 (fun k => if k = 3 then 64 else if k = 4 then 64 else 0)))^[k]
        (vert_w4_init (fun a => a) (0 - (SUBPEL_TAPS / 2 - 1) * 16) 16 (fun _ => 0) 0 12))) ∧
    (∀ (k : Nat) (st : Walk), holds_rows (fun a => a) (st.src + 4 * k * 16) 16 8
      ((vert_8x4_body (fun a => a) 16 8
          (vld1q_s16 (fun k => if k = 3 then 64 else if k = 4 then 64 else 0)))^[k]
        (vert_8x4_init (fun a => a) 16 12 st)))) :=
  ⟨by decide, by decide, by decide, by decide, by decide, by decide,
    vert_computes_tap_kernel 20 (fun a => a) 0 16 (fun _ => 0) 0 8
      (fun k => if k = 3 then 64 else if k = 4 then 64 else 0) 8 12
      (by decide) (by decide) (by decide) (by decide) (by decide) (by decide)⟩

/-- C3: when no product and no running sum of the accumulation of
`convolve8_8`, in its order (terms 0, 1, 2, 5, 6, 7, then 3), leaves the signed
16-bit range, lane `i` of the result is `min 255 (max 0 ((S + 64) / 128))` for
the exact sum `S` of the eight products; the last addition (term 4) may
saturate. -/
theorem convolve8_8_exact_rounding (s0 s1 s2 s3 s4 s5 s6 s7 filter : Vec) (i : Nat)
    (h : no_overflow16 (lane_window s0 s1 s2 s3 s4 s5 s6 s7 i) filter) :
    convolve8_8 s0 s1 s2 s3 s4 s5 s6 s7 filter i
      = min 255 (max 0 ((dot8 (lane_window s0 s1 s2 s3 s4 s5 s6 s7 i) filter + 64) / 128)) := by
  rw [convolve8_8_lane]
  exact convolve8_lane_exact _ filter h

theorem convolve8_8_exact_rounding_witness :
    no_overflow16 (lane_window (fun _ => 10) (fun _ => 20) (fun _ => 30) (fun _ => 255)
        (fun _ => 255) (fun _ => 40) (fun _ => 50) (fun _ => 60) 0)
      (fun k => if k = 3 then 128 else if k = 4 then 128 else -1) ∧
    convolve8_8 (fun _ => 10) (fun _ => 20) (fun _ => 30) (fun _ => 255)
        (fun _ => 255) (fun _ => 40) (fun _ => 50) (fun _ => 60)
        (fun k => if k = 3 then 128 else if k = 4 then 128 else -1) 0
      = min 255 (max 0 ((dot8 (lane_window (fun _ => 10) (fun _ => 20) (fun _ => 30)
          (fun _ => 255) (fun _ => 255) (fun _ => 40) (fun _ => 50) (fun _ => 60) 0)
          (fun k => if k = 3 then 128 else if k = 4 then 128 else -1) + 64) / 128)) :=
  ⟨by decide, convolve8_8_exact_rounding _ _ _ _ _ _ _ _ _ 0 (by decide)⟩

/-! ## The dot-product kernel -/

theorem perm_views3 (c : Vec) (n : Nat) (hn : n < 4) :
    (vqtbl1q_s8 c (vld1q_u8_x3 dot_prod_permute_tbl).1 (4 * n) = c n ∧
     vqtbl1q_s8 c (vld1q_u8_x3 dot_prod_permute_tbl).1 (4 * n + 1) = c (n + 1) ∧
     vqtbl1q_s8 c (vld1q_u8_x3 dot_prod_permute_tbl).1 (4 * n + 2) = c (n + 2) ∧
     vqtbl1q_s8 c (vld1q_u8_x3 dot_prod_permute_tbl).1 (4 * n + 3) = c (n + 3)) ∧
    (vqtbl1q_s8 c (vld1q_u8_x3 dot_prod_permute_tbl).2.1 (4 * n) = c (n + 4) ∧
     vqtbl1q_s8 c (vld1q_u8_x3 dot_prod_permute_tbl).2.1 (4 * n + 1) = c (n + 5) ∧
     vqtbl1q_s8 c (vld1q_u8_x3 dot_prod_permute_tbl).2.1 (4 * n + 2) = c (n + 6) ∧
     vqtbl1q_s8 c (vld1q_u8_x3 dot_prod_permute_tbl).2.1 (4 * n + 3) = c (n + 7)) ∧
    (vqtbl1q_s8 c (vld1q_u8_x3 dot_prod_permute_tbl).2.2 (4 * n) = c (n + 8) ∧
     vqtbl1q_s8 c (vld1q_u8_x3 dot_prod_permute_tbl).2.2 (4 * n + 1) = c (n + 9) ∧
     vqtbl1q_s8 c (vld1q_u8_x3 dot_prod_permute_tbl).2.2 (4 * n + 2) = c (n + 10) ∧
     vqtbl1q_s8 c (vld1q_u8_x3 dot_prod_permute_tbl).2.2 (4 * n + 3) = c (n + 11)) := by
  interval_cases n <;>
    simp [vqtbl1q_s8, vld1q_u8_x3, dot_prod_permute_tbl]

theorem perm_views2 (c : Vec) (n : Nat) (hn : n < 4) :
    (vqtbl1q_s8 c (vld1q_u8_x2 dot_prod_permute_tbl).1 (4 * n) = c n ∧
     vqtbl1q_s8 c (vld1q_u8_x2 dot_prod_permute_tbl).1 (4 * n + 1) = c (n + 1) ∧
     vqtbl1q_s8 c (vld1q_u8_x2 dot_prod_permute_tbl).1 (4 * n + 2) = c (n + 2) ∧
     vqtbl1q_s8 c (vld1q_u8_x2 dot_prod_permute_tbl).1 (4 * n + 3) = c (n + 3)) ∧
    (vqtbl1q_s8 c (vld1q_u8_x2 dot_prod_permute_tbl).2 (4 * n) = c (n + 4) ∧
     vqtbl1q_s8 c (vld1q_u8_x2 dot_prod_permute_tbl).2 (4 * n + 1) = c (n + 5) ∧
     vqtbl1q_s8 c (vld1q_u8_x2 dot_prod_permute_tbl).2 (4 * n + 2) = c (n + 6) ∧
     vqtbl1q_s8 c (vld1q_u8_x2 dot_prod_permute_tbl).2 (4 * n + 3) = c (n + 7)) := by
  interval_cases n <;>
    simp [vqtbl1q_s8, vld1q_u8_x2, dot_prod_permute_tbl]

/-- Lanes of the accumulators of `convolve8_8_sdot` as the scalar accumulation
of the window of each lane. -/
theorem sdot8_sums_lane (samples : Vec) (filter_x : Nat → Int) (n : Nat) (hn : n < 4) :
    (convolve8_8_sdot_sums samples (vmovn_s16 (vld1q_s16 filter_x))
        (vdupq_n_s32 (vaddvq_s16 (vmulq_n_s16 (vld1q_s16 filter_x) 128)))
        (vdupq_n_u8 128) (vld1q_u8_x3 dot_prod_permute_tbl)).1 n
      = sdot_acc (sdot_window samples n) filter_x ∧
    (convolve8_8_sdot_sums samples (vmovn_s16 (vld1q_s16 filter_x))
        (vdupq_n_s32 (vaddvq_s16 (vmulq_n_s16 (vld1q_s16 filter_x) 128)))
        (vdupq_n_u8 128) (vld1q_u8_x3 dot_prod_permute_tbl)).2 n
      = sdot_acc (sdot_window samples (n + 4)) filter_x := by
  obtain ⟨⟨a0, a1, a2, a3⟩, ⟨b0, b1, b2, b3⟩, ⟨c0, c1, c2, c3⟩⟩ :=
    perm_views3 (vreinterpretq_s8_u8 (vsubq_u8 samples (vdupq_n_u8 128))) n hn
  constructor
  · simp only [convolve8_8_sdot_sums, vdotq_lane_s32, a0, a1, a2, a3, b0, b1, b2, b3]
    simp only [sdot_acc, sdot_window, vreinterpretq_s8_u8, vsubq_u8, vdupq_n_u8,
      vdupq_n_s32, vmovn_s16, vld1q_s16, Nat.mul_zero, Nat.zero_add, Nat.mul_one,
      Nat.add_zero]
  · simp only [convolve8_8_sdot_sums, vdotq_lane_s32, b0, b1, b2, b3, c0, c1, c2, c3]
    simp only [sdot_acc, sdot_window, vreinterpretq_s8_u8, vsubq_u8, vdupq_n_u8,
      vdupq_n_s32, vmovn_s16, vld1q_s16, Nat.mul_zero, Nat.zero_add, Nat.mul_one,
      Nat.add_zero, Nat.add_assoc, Nat.reduceAdd]

theorem sdot4_sum_lane (samples : Vec) (filter_x : Nat → Int) (n : Nat) (hn : n < 4) :
    convolve8_4_sdot_sum samples (vmovn_s16 (vld1q_s16 filter_x))
        (vdupq_n_s32 (vaddvq_s16 (vmulq_n_s16 (vld1q_s16 filter_x) 128)))
        (vdupq_n_u8 128) (vld1q_u8_x2 dot_prod_permute_tbl) n
      = sdot_acc (sdot_window samples n) filter_x := by
  obtain ⟨⟨a0, a1, a2, a3⟩, ⟨b0, b1, b2, b3⟩⟩ :=
    perm_views2 (vreinterpretq_s8_u8 (vsubq_u8 samples (vdupq_n_u8 128))) n hn
  simp only [convolve8_4_sdot_sum, vdotq_lane_s32, a0, a1, a2, a3, b0, b1, b2, b3]
  simp only [sdot_acc, sdot_window, vreinterpretq_s8_u8, vsubq_u8, vdupq_n_u8,
    vdupq_n_s32, vmovn_s16, vld1q_s16, Nat.mul_zero, Nat.zero_add, Nat.mul_one,
    Nat.add_zero]

theorem mul_bound {a b : Int} (ha : -128 ≤ a ∧ a ≤ 127) (hb : -128 ≤ b ∧ b ≤ 127) :
    -16384 ≤ a * b ∧ a * b ≤ 16384 := by
  obtain ⟨ha1, ha2⟩ := ha
  obtain ⟨hb1, hb2⟩ := hb
  constructor <;> nlinarith

/-- The correction identity: with taps that fit 8 bits and `128 * tap_sum`
that fits 16 bits, the accumulation on the re-biased samples is the exact
sum of products. -/
theorem sdot_acc_exact (x f : Nat → Int) (hx : ∀ k, k < 8 → 0 ≤ x k ∧ x k ≤ 255)
    (hf : ∀ k, k < 8 → fits8 (f k)) (hsum : fits16 (128 * tap_sum f)) :
    sdot_acc x f = dot8 x f := by
  have x0 := hx 0 (by norm_num); have x1 := hx 1 (by norm_num)
  have x2 := hx 2 (by norm_num); have x3 := hx 3 (by norm_num)
  have x4 := hx 4 (by norm_num); have x5 := hx 5 (by norm_num)
  have x6 := hx 6 (by norm_num); have x7 := hx 7 (by norm_num)
  have f0 := hf 0 (by norm_num); have f1 := hf 1 (by norm_num)
  have f2 := hf 2 (by norm_num); have f3 := hf 3 (by norm_num)
  have f4 := hf 4 (by norm_num); have f5 := hf 5 (by norm_num)
  have f6 := hf 6 (by norm_num); have f7 := hf 7 (by norm_num)
  unfold fits8 at f0 f1 f2 f3 f4 f5 f6 f7
  unfold fits16 tap_sum at hsum
  have w8 : ∀ t : Int, -128 ≤ t ∧ t ≤ 127 → wrap8 t = t := by
    intro t ht; unfold wrap8; omega
  have b8 : ∀ s : Int, 0 ≤ s ∧ s ≤ 255 → wrap8 ((s - 128) % 256) = s - 128 := by
    intro s hs; unfold wrap8; omega
  have b8r : ∀ s : Int, 0 ≤ s ∧ s ≤ 255 → -128 ≤ s - 128 ∧ s - 128 ≤ 127 := by
    intro s hs; omega
  have hcorr : vaddvq_s16 (vmulq_n_s16 (vld1q_s16 f) 128) = 128 * tap_sum f := by
    simp only [vaddvq_s16, vmulq_n_s16, vld1q_s16, wrap16, tap_sum]
    omega
  have m0 := mul_bound (b8r _ x0) f0; have m1 := mul_bound (b8r _ x1) f1
  have m2 := mul_bound (b8r _ x2) f2; have m3 := mul_bound (b8r _ x3) f3
  have m4 := mul_bound (b8r _ x4) f4; have m5 := mul_bound (b8r _ x5) f5
  have m6 := mul_bound (b8r _ x6) f6; have m7 := mul_bound (b8r _ x7) f7
  simp only [sdot_acc, hcorr, w8 _ f0, w8 _ f1, w8 _ f2, w8 _ f3, w8 _ f4, w8 _ f5,
    w8 _ f6, w8 _ f7, b8 _ x0, b8 _ x1, b8 _ x2, b8 _ x3, b8 _ x4, b8 _ x5, b8 _ x6,
    b8 _ x7]
  have e1 : wrap32 (128 * tap_sum f + (x 0 - 128) * f 0 + (x 1 - 128) * f 1
      + (x 2 - 128) * f 2 + (x 3 - 128) * f 3)
      = 128 * tap_sum f + (x 0 - 128) * f 0 + (x 1 - 128) * f 1
      + (x 2 - 128) * f 2 + (x 3 - 128) * f 3 := by
    unfold tap_sum wrap32; omega
  rw [e1]
  have e2 : wrap32 (128 * tap_sum f + (x 0 - 128) * f 0 + (x 1 - 128) * f 1
      + (x 2 - 128) * f 2 + (x 3 - 128) * f 3 + (x 4 - 128) * f 4 + (x 5 - 128) * f 5
      + (x 6 - 128) * f 6 + (x 7 - 128) * f 7)
      = 128 * tap_sum f + (x 0 - 128) * f 0 + (x 1 - 128) * f 1
      + (x 2 - 128) * f 2 + (x 3 - 128) * f 3 + (x 4 - 128) * f 4 + (x 5 - 128) * f 5
      + (x 6 - 128) * f 6 + (x 7 - 128) * f 7 := by
    unfold tap_sum wrap32; omega
  rw [e2]
  unfold dot8 tap_sum
  ring

theorem pow_filter_bits : ((2 : Int) ^ (FILTER_BITS - 1) = 64) ∧ ((2 : Int) ^ FILTER_BITS = 128) := by
  constructor <;> simp [FILTER_BITS]

/-- Every output lane of `convolve8_8_sdot`, set up as in the pass, is the
scalar dot-product kernel of the window of that lane. -/
theorem sdot8_lane (samples : Vec) (filter_x : Nat → Int) (n : Nat) (hn : n < 8) :
    convolve8_8_sdot samples (vmovn_s16 (vld1q_s16 filter_x))
        (vdupq_n_s32 (vaddvq_s16 (vmulq_n_s16 (vld1q_s16 filter_x) 128)))
        (vdupq_n_u8 128) (vld1q_u8_x3 dot_prod_permute_tbl) n
      = sdot_lane (sdot_window samples n) filter_x := by
  by_cases h4 : n < 4
  · simp only [convolve8_8_sdot, vqrshrun_n_s16, vcombine_s16, vqmovn_s32, h4, if_true,
      (sdot8_sums_lane samples filter_x n h4).1, sdot_lane, pow_filter_bits.1,
      pow_filter_bits.2]
  · obtain ⟨m, rfl⟩ : ∃ m, n = m + 4 := ⟨n - 4, by omega⟩
    simp only [convolve8_8_sdot, vqrshrun_n_s16, vcombine_s16, vqmovn_s32, h4, if_false,
      Nat.add_sub_cancel, (sdot8_sums_lane samples filter_x m (by omega)).2, sdot_lane,
      pow_filter_bits.1, pow_filter_bits.2]

/-- Every output lane of `convolve8_4_sdot` followed by the narrowing of the
pass is the scalar dot-product kernel of the window of that lane. -/
theorem sdot4_lane (samples : Vec) (filter_x : Nat → Int) (n : Nat) (hn : n < 4) :
    vqrshrun_n_s16 (convolve8_4_sdot samples (vmovn_s16 (vld1q_s16 filter_x))
        (vdupq_n_s32 (vaddvq_s16 (vmulq_n_s16 (vld1q_s16 filter_x) 128)))
        (vdupq_n_u8 128) (vld1q_u8_x2 dot_prod_permute_tbl)) FILTER_BITS n
      = sdot_lane (sdot_window samples n) filter_x := by
  simp only [convolve8_4_sdot, vqrshrun_n_s16, vqmovn_s32,
    sdot4_sum_lane samples filter_x n hn, sdot_lane, pow_filter_bits.1, pow_filter_bits.2]

/-- With taps that fit 8 bits and `128 * tap_sum` that fits 16 bits, the
dot-product kernel rounds the exact sum. -/
theorem sdot_lane_exact (x f : Nat → Int) (hx : ∀ k, k < 8 → 0 ≤ x k ∧ x k ≤ 255)
    (hf : ∀ k, k < 8 → fits8 (f k)) (hsum : fits16 (128 * tap_sum f)) :
    sdot_lane x f = round_clamp (dot8 x f) := by
  rw [sdot_lane, sdot_acc_exact x f hx hf hsum, satu8_shift_sat16, round_clamp]

/-- On inputs that do not overflow the 16-bit accumulation, the dot-product
kernel and the tap kernel agree. -/
theorem sdot_lane_eq_convolve8_lane (x f : Nat → Int)
    (hx : ∀ k, k < 8 → 0 ≤ x k ∧ x k ≤ 255)
    (hf : ∀ k, k < 8 → fits8 (f k)) (hsum : fits16 (128 * tap_sum f))
    (hno : no_overflow16 x f) : sdot_lane x f = convolve8_lane x f := by
  rw [sdot_lane_exact x f hx hf hsum, convolve8_lane_exact x f hno]

/-! ## Correction identity and equivalence of the evaluators -/

/-- C4, counterexample: with the taps `0,0,0,128,0,0,0,0` and a chunk of zero
samples the first accumulator lane of `convolve8_8_sdot` is 32768, not the
exact sum 0: the tap 128 is narrowed to -128 by `vmovn_s16`. -/
theorem sdot_identity_fails_for_tap_128 :
    (convolve8_8_sdot_sums (fun _ => 0)
        (vmovn_s16 (vld1q_s16 (fun k => if k = 3 then 128 else 0)))
        (vdupq_n_s32 (vaddvq_s16 (vmulq_n_s16
          (vld1q_s16 (fun k => if k = 3 then 128 else 0)) 128)))
        (vdupq_n_u8 128) (vld1q_u8_x3 dot_prod_permute_tbl)).1 0
      ≠ dot8 (sdot_window (fun _ => 0) 0) (fun k => if k = 3 then 128 else 0) := by
  decide

/-- C4, amended: for taps that each fit a signed byte and whose sum times 128
fits 16 bits, and a chunk of samples in `[0, 255]`, every accumulator lane of
`convolve8_8_sdot` and of `convolve8_4_sdot`, before any narrowing, with
filter and correction set up as in `aom_convolve8_horiz_neon`, is the exact
sum of `sample * tap` over the window of that lane. -/
theorem sdot_correction_identity (samples : Vec) (filter_x : Nat → Int)
    (hs : ∀ i, i < 16 → 0 ≤ samples i ∧ samples i ≤ 255)
    (hf : ∀ k, k < 8 → fits8 (filter_x k)) (hsum : fits16 (128 * tap_sum filter_x))
    (n : Nat) (hn : n < 4) :
    (convolve8_8_sdot_sums samples (vmovn_s16 (vld1q_s16 filter_x))
        (vdupq_n_s32 (vaddvq_s16 (vmulq_n_s16 (vld1q_s16 filter_x) 128)))
        (vdupq_n_u8 128) (vld1q_u8_x3 dot_prod_permute_tbl)).1 n
      = dot8 (sdot_window samples n) filter_x ∧
    (convolve8_8_sdot_sums samples (vmovn_s16 (vld1q_s16 filter_x))
        (vdupq_n_s32 (vaddvq_s16 (vmulq_n_s16 (vld1q_s16 filter_x) 128)))
        (vdupq_n_u8 128) (vld1q_u8_x3 dot_prod_permute_tbl)).2 n
      = dot8 (sdot_window samples (n + 4)) filter_x ∧
    convolve8_4_sdot_sum samples (vmovn_s16 (vld1q_s16 filter_x))
        (vdupq_n_s32 (vaddvq_s16 (vmulq_n_s16 (vld1q_s16 filter_x) 128)))
        (vdupq_n_u8 128) (vld1q_u8_x2 dot_prod_permute_tbl) n
      = dot8 (sdot_window samples n) filter_x := by
  have h1 : ∀ k, k < 8 → 0 ≤ sdot_window samples n k ∧ sdot_window samples n k ≤ 255 :=
    fun k hk => hs (n + k) (by omega)
  have h2 : ∀ k, k < 8 →
      0 ≤ sdot_window samples (n + 4) k ∧ sdot_window samples (n + 4) k ≤ 255 :=
    fun k hk => hs (n + 4 + k) (by omega)
  refine ⟨?_, ?_, ?_⟩
  · rw [(sdot8_sums_lane samples filter_x n hn).1]
    exact sdot_acc_exact _ _ h1 hf hsum
  · rw [(sdot8_sums_lane samples filter_x n hn).2]
    exact sdot_acc_exact _ _ h2 hf hsum
  · rw [sdot4_sum_lane samples filter_x n hn]
    exact sdot_acc_exact _ _ h1 hf hsum

theorem sdot_correction_identity_witness :
    (∀ i, i < 16 → 0 ≤ (fun j : Nat => (17 * j : Int)) i ∧ (fun j : Nat => (17 * j : Int)) i ≤ 255) ∧
    (∀ k, k < 8 → fits8 ((fun k : Nat => if k = 3 then (127 : Int) else -1) k)) ∧
    fits16 (128 * tap_sum (fun k : Nat => if k = 3 then (127 : Int) else -1)) ∧ 2 < 4 ∧
    ((convolve8_8_sdot_sums (fun j : Nat => (17 * j : Int))
        (vmovn_s16 (vld1q_s16 (fun k : Nat => if k = 3 then (127 : Int) else -1)))
        (vdupq_n_s32 (vaddvq_s16 (vmulq_n_s16
          (vld1q_s16 (fun k : Nat => if k = 3 then (127 : Int) else -1)) 128)))
        (vdupq_n_u8 128) (vld1q_u8_x3 dot_prod_permute_tbl)).1 2
      = dot8 (sdot_window (fun j : Nat => (17 * j : Int)) 2)
          (fun k : Nat => if k = 3 then (127 : Int) else -1) ∧
    (convolve8_8_sdot_sums (fun j : Nat => (17 * j : Int))
        (vmovn_s16 (vld1q_s16 (fun k : Nat => if k = 3 then (127 : Int) else -1)))
        (vdupq_n_s32 (vaddvq_s16 (vmulq_n_s16
          (vld1q_s16 (fun k : Nat => if k = 3 then (127 : Int) else -1)) 128)))
        (vdupq_n_u8 128) (vld1q_u8_x3 dot_prod_permute_tbl)).2 2
      = dot8 (sdot_window (fun j : Nat => (17 * j : Int)) (2 + 4))
          (fun k : Nat => if k = 3 then (127 : Int) else -1) ∧
    convolve8_4_sdot_sum (fun j : Nat => (17 * j : Int))
        (vmovn_s16 (vld1q_s16 (fun k : Nat => if k = 3 then (127 : Int) else -1)))
        (vdupq_n_s32 (vaddvq_s16 (vmulq_n_s16
          (vld1q_s16 (fun k : Nat => if k = 3 then (127 : Int) else -1)) 128)))
        (vdupq_n_u8 128) (vld1q_u8_x2 dot_prod_permute_tbl) 2
      = dot8 (sdot_window (fun j : Nat => (17 * j : Int)) 2)
          (fun k : Nat => if k = 3 then (127 : Int) else -1)) :=
  ⟨by decide, by decide, by decide, by decide,
    sdot_correction_identity (fun j : Nat => (17 * j : Int))
      (fun k : Nat => if k = 3 then (127 : Int) else -1) (by decide) (by decide) (by decide)
      2 (by decide)⟩

/-- C5, counterexample: the taps `127,127,127,-127,-126,0,0,0` fit a signed
byte and sum to 128; on the chunk `255,255,255,0,...` the dot-product kernel
gives 255 for lane 0 while `convolve8_8` gives 247 for the same window,
because its 16-bit accumulation wraps at the second addition. -/
theorem evaluators_differ_on_overflow :
    (∀ k, k < 8 → fits8 (([127, 127, 127, -127, -126, 0, 0, 0] : List Int).getD k 0)) ∧
    tap_sum (fun k => ([127, 127, 127, -127, -126, 0, 0, 0] : List Int).getD k 0) = 128 ∧
    convolve8_8_sdot (fun i => if i < 3 then 255 else 0)
        (vmovn_s16 (vld1q_s16
          (fun k => ([127, 127, 127, -127, -126, 0, 0, 0] : List Int).getD k 0)))
        (vdupq_n_s32 (vaddvq_s16 (vmulq_n_s16 (vld1q_s16
          (fun k => ([127, 127, 127, -127, -126, 0, 0, 0] : List Int).getD k 0)) 128)))
        (vdupq_n_u8 128) (vld1q_u8_x3 dot_prod_permute_tbl) 0 = 255 ∧
    convolve8_lane (sdot_window (fun i => if i < 3 then 255 else 0) 0)
        (fun k => ([127, 127, 127, -127, -126, 0, 0, 0] : List Int).getD k 0) = 247 ∧
    convolve8_8_sdot (fun i => if i < 3 then 255 else 0)
        (vmovn_s16 (vld1q_s16
          (fun k => ([127, 127, 127, -127, -126, 0, 0, 0] : List Int).getD k 0)))
        (vdupq_n_s32 (vaddvq_s16 (vmulq_n_s16 (vld1q_s16
          (fun k => ([127, 127, 127, -127, -126, 0, 0, 0] : List Int).getD k 0)) 128)))
        (vdupq_n_u8 128) (vld1q_u8_x3 dot_prod_permute_tbl) 0
      ≠ convolve8_lane (sdot_window (fun i => if i < 3 then 255 else 0) 0)
          (fun k => ([127, 127, 127, -127, -126, 0, 0, 0] : List Int).getD k 0) := by
  decide

/-- C5, amended: for taps that each fit a signed byte and sum to 128, a chunk
of samples in `[0, 255]` and an output lane `n < 8` whose window does not
overflow the 16-bit accumulation of the portable evaluator (products and
running sums over terms 0, 1, 2, 5, 6, 7, 3), the byte of `convolve8_8_sdot`
equals the byte of `convolve8_8` on the same window and taps, and the byte of
`convolve8_4` followed by the rounding narrow. -/
theorem evaluators_agree_without_overflow (samples : Vec) (filter_x : Nat → Int)
    (hs : ∀ i, i < 16 → 0 ≤ samples i ∧ samples i ≤ 255)
    (hf : ∀ k, k < 8 → fits8 (filter_x k)) (hsum : tap_sum filter_x = 128)
    (n : Nat) (hn : n < 8) (hno : no_overflow16 (sdot_window samples n) filter_x) :
    convolve8_8_sdot samples (vmovn_s16 (vld1q_s16 filter_x))
        (vdupq_n_s32 (vaddvq_s16 (vmulq_n_s16 (vld1q_s16 filter_x) 128)))
        (vdupq_n_u8 128) (vld1q_u8_x3 dot_prod_permute_tbl) n
      = convolve8_lane (sdot_window samples n) filter_x ∧
    convolve8_8_sdot samples (vmovn_s16 (vld1q_s16 filter_x))
        (vdupq_n_s32 (vaddvq_s16 (vmulq_n_s16 (vld1q_s16 filter_x) 128)))
        (vdupq_n_u8 128) (vld1q_u8_x3 dot_prod_permute_tbl) n
      = vqrshrun_n_s16 (convolve8_4
          (fun _ => sdot_window samples n 0) (fun _ => sdot_window samples n 1)
          (fun _ => sdot_window samples n 2) (fun _ => sdot_window samples n 3)
          (fun _ => sdot_window samples n 4) (fun _ => sdot_window samples n 5)
          (fun _ => sdot_window samples n 6) (fun _ => sdot_window samples n 7)
          (vld1q_s16 filter_x)) FILTER_BITS 0 := by
  have h1 : ∀ k, k < 8 → 0 ≤ sdot_window samples n k ∧ sdot_window samples n k ≤ 255 :=
    fun k hk => hs (n + k) (by omega)
  have h16 : fits16 (128 * tap_sum filter_x) := by rw [hsum]; decide
  have e := sdot_lane_eq_convolve8_lane _ _ h1 hf h16 hno
  have e4 := @conv4_lane_of
    (fun _ => sdot_window samples n 0) (fun _ => sdot_window samples n 1)
    (fun _ => sdot_window samples n 2) (fun _ => sdot_window samples n 3)
    (fun _ => sdot_window samples n 4) (fun _ => sdot_window samples n 5)
    (fun _ => sdot_window samples n 6) (fun _ => sdot_window samples n 7)
    (vld1q_s16 filter_x) 0 (sdot_window samples n) rfl rfl rfl rfl rfl rfl rfl rfl
  rw [sdot8_lane samples filter_x n hn, e, e4]
  exact ⟨rfl, rfl⟩

theorem evaluators_agree_without_overflow_witness :
    (∀ i, i < 16 → 0 ≤ (fun j : Nat => (17 * j : Int)) i ∧ (fun j : Nat => (17 * j : Int)) i ≤ 255) ∧
    (∀ k, k < 8 → fits8 (([-2, 6, -12, 124, 18, -6, 0, 0] : List Int).getD k 0)) ∧
    tap_sum (fun k => ([-2, 6, -12, 124, 18, -6, 0, 0] : List Int).getD k 0) = 128 ∧ 5 < 8 ∧
    no_overflow16 (sdot_window (fun j : Nat => (17 * j : Int)) 5)
      (fun k => ([-2, 6, -12, 124, 18, -6, 0, 0] : List Int).getD k 0) ∧
    (convolve8_8_sdot (fun j : Nat => (17 * j : Int))
        (vmovn_s16 (vld1q_s16 (fun k => ([-2, 6, -12, 124, 18, -6, 0, 0] : List Int).getD k 0)))
        (vdupq_n_s32 (vaddvq_s16 (vmulq_n_s16 (vld1q_s16
          (fun k => ([-2, 6, -12, 124, 18, -6, 0, 0] : List Int).getD k 0)) 128)))
        (vdupq_n_u8 128) (vld1q_u8_x3 dot_prod_permute_tbl) 5
      = convolve8_lane (sdot_window (fun j : Nat => (17 * j : Int)) 5)
          (fun k => ([-2, 6, -12, 124, 18, -6, 0, 0] : List Int).getD k 0) ∧
    convolve8_8_sdot (fun j : Nat => (17 * j : Int))
        (vmovn_s16 (vld1q_s16 (fun k => ([-2, 6, -12, 124, 18, -6, 0, 0] : List Int).getD k 0)))
        (vdupq_n_s32 (vaddvq_s16 (vmulq_n_s16 (vld1q_s16
          (fun k => ([-2, 6, -12, 124, 18, -6, 0, 0] : List Int).getD k 0)) 128)))
        (vdupq_n_u8 128) (vld1q_u8_x3 dot_prod_permute_tbl) 5
      = vqrshrun_n_s16 (convolve8_4
          (fun _ => sdot_window (fun j : Nat => (17 * j : Int)) 5 0)
          (fun _ => sdot_window (fun j : Nat => (17 * j : Int)) 5 1)
          (fun _ => sdot_window (fun j : Nat => (17 * j : Int)) 5 2)
          (fun _ => sdot_window (fun j : Nat => (17 * j : Int)) 5 3)
          (fun _ => sdot_window (fun j : Nat => (17 * j : Int)) 5 4)
          (fun _ => sdot_window (fun j : Nat => (17 * j : Int)) 5 5)
          (fun _ => sdot_window (fun j : Nat => (17 * j : Int)) 5 6)
          (fun _ => sdot_window (fun j : Nat => (17 * j : Int)) 5 7)
          (vld1q_s16 (fun k => ([-2, 6, -12, 124, 18, -6, 0, 0] : List Int).getD k 0)))
        FILTER_BITS 0) :=
  ⟨by decide, by decide, by decide, by decide, by decide,
    evaluators_agree_without_overflow (fun j : Nat => (17 * j : Int))
      (fun k => ([-2, 6, -12, 124, 18, -6, 0, 0] : List Int).getD k 0)
      (by decide) (by decide) (by decide) 5 (by decide) (by decide)⟩

/-! ## Horizontal pass, dot-product build: tiles and loops -/

theorem sdot_window_load (S : Mem) (p : Int) (c : Nat) :
    sdot_window (vld1q_u8 S p) c = row_window S (p + c) := by
  funext k
  show px S (p + ((c + k : Nat) : Int)) = px S (p + c + k)
  exact congrArg (px S) (by push_cast; ring1)

theorem dot_w4_tile (S : Mem) (ss ds : Int) (filter_x : Nat → Int) (st : Walk)
    (hds : 4 ≤ ds) :
    Wrote st.out (DotProd.horiz_w4_body S ss ds (vmovn_s16 (vld1q_s16 filter_x))
        (vdupq_n_s32 (vaddvq_s16 (vmulq_n_s16 (vld1q_s16 filter_x) 128)))
        (vdupq_n_u8 128) (vld1q_u8_x2 dot_prod_permute_tbl) st).out st.dst ds 4 4
      (fun r c => sdot_lane (row_window S (st.src + r * ss + c)) filter_x) := by
  simp only [DotProd.horiz_w4_body, load_u8_16x4]
  refine Wrote.congr (wrote_rows4x4 st.out st.dst ds _ _ _ _ 0 1 0 1 hds) ?_
  intro r c hr hc
  interval_cases r
  · simp only [tile_rows, List.getD_cons_succ, List.getD_cons_zero, Nat.mul_zero, Nat.zero_add]
    rw [vqrshrun_combine_lo _ _ _ _ hc, sdot4_lane _ _ c hc, sdot_window_load]
    exact congrArg (fun p => sdot_lane (row_window S p) filter_x) (by push_cast; ring1)
  · simp only [tile_rows, List.getD_cons_succ, List.getD_cons_zero, Nat.mul_one]
    rw [vqrshrun_combine_hi, sdot4_lane _ _ c hc, sdot_window_load]
    exact congrArg (fun p => sdot_lane (row_window S p) filter_x) (by push_cast; ring1)
  · simp only [tile_rows, List.getD_cons_succ, List.getD_cons_zero, Nat.mul_zero, Nat.zero_add]
    rw [vqrshrun_combine_lo _ _ _ _ hc, sdot4_lane _ _ c hc, sdot_window_load]
    exact congrArg (fun p => sdot_lane (row_window S p) filter_x) (by push_cast; ring1)
  · simp only [tile_rows, List.getD_cons_succ, List.getD_cons_zero, Nat.mul_one]
    rw [vqrshrun_combine_hi, sdot4_lane _ _ c hc, sdot_window_load]
    exact congrArg (fun p => sdot_lane (row_window S p) filter_x) (by push_cast; ring1)

theorem dot_8x4_tile (S : Mem) (ss ds : Int) (filter_x : Nat → Int) (st : Walk)
    (hds : 8 ≤ ds) :
    Wrote st.out (DotProd.horiz_8x4_body S ss ds (vmovn_s16 (vld1q_s16 filter_x))
        (vdupq_n_s32 (vaddvq_s16 (vmulq_n_s16 (vld1q_s16 filter_x) 128)))
        (vdupq_n_u8 128) (vld1q_u8_x3 dot_prod_permute_tbl) st).out st.dst ds 4 8
      (fun r c => sdot_lane (row_window S (st.src + r * ss + c)) filter_x) := by
  simp only [DotProd.horiz_8x4_body, load_u8_16x4]
  refine Wrote.congr (wrote_store_u8_8x4 st.out st.dst ds _ _ _ _ hds) ?_
  intro r c hr hc
  interval_cases r
  all_goals
    simp only [tile_rows, List.getD_cons_succ, List.getD_cons_zero, List.getD_nil,
      Nat.zero_add]
    rw [sdot8_lane _ _ c hc, sdot_window_load]
    exact congrArg (fun p => sdot_lane (row_window S p) filter_x) (by push_cast; ring1)

theorem dot_w4_loop (S : Mem) (ss ds : Int) (filter_x : Nat → Int) (hds : 4 ≤ ds)
    (n : Nat) (st : Walk) (fuel : Nat) (hcnt : st.cnt = 4 * (n + 1 : Nat))
    (hfuel : n + 1 ≤ fuel) :
    ∃ st2, do_while (fun r => some (DotProd.horiz_w4_body S ss ds
          (vmovn_s16 (vld1q_s16 filter_x))
          (vdupq_n_s32 (vaddvq_s16 (vmulq_n_s16 (vld1q_s16 filter_x) 128)))
          (vdupq_n_u8 128) (vld1q_u8_x2 dot_prod_permute_tbl) r))
        (fun r => decide (r.cnt > 0)) fuel st = some st2 ∧
      Wrote st.out st2.out st.dst ds (4 * (n + 1)) 4
        (fun r c => sdot_lane (row_window S (st.src + r * ss + c)) filter_x) := by
  refine do_while_vstack _ _ (fun _ => True) (fun r => r.out) (fun r => r.dst)
    (fun r => r.cnt) ds 4 4
    (fun st r c => sdot_lane (row_window S (st.src + r * ss + c)) filter_x)
    (by exact_mod_cast hds) ?_ ?_ n st fuel (by exact_mod_cast hcnt) hfuel trivial
  · intro st _
    refine ⟨_, rfl, trivial, ?_, ?_, dot_w4_tile S ss ds filter_x st hds, ?_⟩
    · simp only [DotProd.horiz_w4_body, load_u8_16x4]; push_cast; ring1
    · simp only [DotProd.horiz_w4_body, load_u8_16x4]; push_cast; ring1
    · intro r c
      simp only [DotProd.horiz_w4_body, load_u8_16x4]
      exact congrArg (fun p => sdot_lane (row_window S p) filter_x) (by push_cast; ring1)
  · intro st k hk
    exact cond_pos_iff 4 (by norm_num) st.cnt k hk

theorem dot_8x4_loop (S : Mem) (ss ds : Int) (filter_x : Nat → Int) (n : Nat)
    (st : Walk) (fuel : Nat) (hcnt : st.cnt = 8 * (n + 1 : Nat)) (hfuel : n + 1 ≤ fuel)
    (hds : ((8 * (n + 1) : Nat) : Int) ≤ ds) :
    ∃ st2, do_while (fun r => some (DotProd.horiz_8x4_body S ss ds
          (vmovn_s16 (vld1q_s16 filter_x))
          (vdupq_n_s32 (vaddvq_s16 (vmulq_n_s16 (vld1q_s16 filter_x) 128)))
          (vdupq_n_u8 128) (vld1q_u8_x3 dot_prod_permute_tbl) r))
        (fun r => decide (r.cnt ≠ 0)) fuel st = some st2 ∧
      Wrote st.out st2.out st.dst ds 4 (8 * (n + 1))
        (fun r c => sdot_lane (row_window S (st.src + r * ss + c)) filter_x) := by
  have hds8 : 8 ≤ ds := by push_cast at hds; nlinarith
  refine do_while_hstack _ _ (fun _ => True) (fun r => r.out) (fun r => r.dst)
    (fun r => r.cnt) ds 8 4
    (fun st r c => sdot_lane (row_window S (st.src + r * ss + c)) filter_x)
    ?_ ?_ n st fuel (by exact_mod_cast hcnt) hfuel hds trivial
  · intro st _
    refine ⟨_, rfl, trivial, ?_, ?_, dot_8x4_tile S ss ds filter_x st hds8, ?_⟩
    · simp only [DotProd.horiz_8x4_body, load_u8_16x4]; push_cast; ring1
    · simp only [DotProd.horiz_8x4_body, load_u8_16x4]; push_cast; ring1
    · intro r c
      simp only [DotProd.horiz_8x4_body, load_u8_16x4]
      exact congrArg (fun p => sdot_lane (row_window S p) filter_x) (by push_cast; ring1)
  · intro st k hk
    exact cond_ne_zero_iff 8 (by norm_num) st.cnt k hk

theorem dot_8x4_band_spec (S : Mem) (ss ds : Int) (filter_x : Nat → Int) (m : Nat)
    (hds : ((8 * (m + 1) : Nat) : Int) ≤ ds) (fuel : Nat) (hfuel : m + 1 ≤ fuel)
    (st : Walk) :
    ∃ st1, DotProd.horiz_8x4_band fuel S ss ds (vmovn_s16 (vld1q_s16 filter_x))
          (vdupq_n_s32 (vaddvq_s16 (vmulq_n_s16 (vld1q_s16 filter_x) 128)))
          (vdupq_n_u8 128) (vld1q_u8_x3 dot_prod_permute_tbl) (8 * (m + 1 : Nat)) st
        = some st1 ∧
      st1.cnt = st.cnt - 4 ∧ st1.dst = st.dst + 4 * ds ∧ st1.src = st.src + 4 * ss ∧
      Wrote st.out st1.out st.dst ds 4 (8 * (m + 1))
        (fun r c => sdot_lane (row_window S (st.src + r * ss + c)) filter_x) := by
  obtain ⟨r2, hrun, hw⟩ := dot_8x4_loop S ss ds filter_x m
    { src := st.src, dst := st.dst, cnt := 8 * ((m + 1 : Nat) : Int), out := st.out }
    fuel rfl hfuel hds
  exact ⟨{ src := st.src + 4 * ss, dst := st.dst + 4 * ds, cnt := st.cnt - 4,
           out := r2.out },
    by simp only [DotProd.horiz_8x4_band, hrun], rfl, rfl, rfl, hw⟩

theorem dot_wide_loop (S : Mem) (ss ds : Int) (filter_x : Nat → Int) (n m : Nat)
    (fuel : Nat) (hfuel : n + 1 ≤ fuel) (hfuel2 : m + 1 ≤ fuel)
    (hds : ((8 * (m + 1) : Nat) : Int) ≤ ds) (st : Walk)
    (hcnt : st.cnt = 4 * (n + 1 : Nat)) :
    ∃ st2, do_while (DotProd.horiz_8x4_band fuel S ss ds (vmovn_s16 (vld1q_s16 filter_x))
          (vdupq_n_s32 (vaddvq_s16 (vmulq_n_s16 (vld1q_s16 filter_x) 128)))
          (vdupq_n_u8 128) (vld1q_u8_x3 dot_prod_permute_tbl) (8 * (m + 1 : Nat)))
        (fun r => decide (r.cnt > 0)) fuel st = some st2 ∧
      Wrote st.out st2.out st.dst ds (4 * (n + 1)) (8 * (m + 1))
        (fun r c => sdot_lane (row_window S (st.src + r * ss + c)) filter_x) := by
  refine do_while_vstack _ _ (fun _ => True) (fun r => r.out) (fun r => r.dst)
    (fun r => r.cnt) ds 4 (8 * (m + 1))
    (fun st r c => sdot_lane (row_window S (st.src + r * ss + c)) filter_x)
    hds ?_ ?_ n st fuel (by exact_mod_cast hcnt) hfuel trivial
  · intro st _
    obtain ⟨st1, h1, h2, h3, h4, h5⟩ :=
      dot_8x4_band_spec S ss ds filter_x m hds fuel hfuel2 st
    refine ⟨st1, h1, trivial, by exact_mod_cast h2, by exact_mod_cast h3, h5, ?_⟩
    intro r c
    simp only [h4]
    exact congrArg (fun p => sdot_lane (row_window S p) filter_x) (by push_cast; ring1)
  · intro st k hk
    exact cond_pos_iff 4 (by norm_num) st.cnt k hk

/-- The dot-product horizontal pass writes the whole block, each byte being
the dot-product kernel of its row window, and changes nothing else. -/
theorem dot_pass_spec (fuel : Nat) (S : Mem) (src ss : Int) (D : Mem) (dst ds : Int)
    (filter_x : Nat → Int) (w h : Int) (hw : w = 4 ∨ (0 < w ∧ 8 ∣ w))
    (hh : 0 < h ∧ 4 ∣ h) (hds : w ≤ ds)
    (hdst : dst % 4 = 0) (hstr : ds % 4 = 0) (hfuel : w + h ≤ fuel) :
    ∃ D1, DotProd.aom_convolve8_horiz_neon fuel S src ss D dst ds filter_x w h = some D1 ∧
      Wrote D D1 dst ds h.toNat w.toNat
        (fun r c => sdot_lane (row_window S (src + r * ss + c - 3)) filter_x) := by
  obtain ⟨n, rfl⟩ := exists_mul_succ (by norm_num) hh.1 hh.2
  have e := toNat_mul_succ 4 n
  simp only [Nat.cast_ofNat] at e
  rw [e]
  rcases hw with rfl | ⟨hw0, hw8⟩
  · obtain ⟨st2, hrun, hwr⟩ := dot_w4_loop S ss ds filter_x hds n
      { src := src - (SUBPEL_TAPS / 2 - 1), dst := dst, cnt := 4 * ((n + 1 : Nat) : Int),
        out := D } fuel rfl (by push_cast at hfuel; omega)
    refine ⟨st2.out, ?_, ?_⟩
    · simp only [DotProd.aom_convolve8_horiz_neon, if_pos hdst, if_pos hstr,
        if_true, hrun, Option.map_some']
    · refine Wrote.congr hwr ?_
      intro r c _ _
      exact congrArg (fun p => sdot_lane (row_window S p) filter_x)
        (by simp only [taps_offset]; ring1)
  · obtain ⟨m, rfl⟩ := exists_mul_succ (by norm_num) hw0 hw8
    have e2 := toNat_mul_succ 8 m
    simp only [Nat.cast_ofNat] at e2
    rw [e2]
    have hne : ¬ (8 * ((m + 1 : Nat) : Int) = 4) := by omega
    obtain ⟨st2, hrun, hwr⟩ := dot_wide_loop S ss ds filter_x n m fuel
      (by push_cast at hfuel; omega) (by push_cast at hfuel; omega)
      (by push_cast at hds ⊢; linarith)
      { src := src - (SUBPEL_TAPS / 2 - 1), dst := dst, cnt := 4 * ((n + 1 : Nat) : Int),
        out := D } rfl
    refine ⟨st2.out, ?_, ?_⟩
    · simp only [DotProd.aom_convolve8_horiz_neon, if_pos hdst, if_pos hstr,
        hne, if_false, hrun, Option.map_some']
    · refine Wrote.congr hwr ?_
      intro r c _ _
      exact congrArg (fun p => sdot_lane (row_window S p) filter_x)
        (by simp only [taps_offset]; ring1)

/-! ## Equivalence of the two horizontal builds -/

theorem Wrote.ext {D0 D1 D2 : Mem} {dst ds : Int} {R C : Nat} {v1 v2 : Nat → Nat → Int}
    (h1 : Wrote D0 D1 dst ds R C v1) (h2 : Wrote D0 D2 dst ds R C v2)
    (e : ∀ r c, r < R → c < C → v1 r c = v2 r c) : D1 = D2 := by
  funext a
  by_cases ha : ∃ r c, r < R ∧ c < C ∧ a = dst + r * ds + c
  · obtain ⟨r, c, hr, hc, rfl⟩ := ha
    rw [h1.1 r c hr hc, h2.1 r c hr hc, e r c hr hc]
  · have hn : ∀ r c, r < R → c < C → a ≠ dst + r * ds + c :=
      fun r c hr hc heq => ha ⟨r, c, hr, hc, heq⟩
    rw [h1.2 a hn, h2.2 a hn]

theorem row_window_range (S : Mem) (p : Int) (k : Nat) :
    0 ≤ row_window S p k ∧ row_window S p k ≤ 255 := px_range S (p + k)

/-- C6: for `w` equal to 4 or a positive multiple of 8, `h` equal to 4 or a
positive multiple of 8, taps that each fit a signed byte with `128 * sum` in
the signed 16-bit range, and a source such that at every output position the
products and the running sums of the portable accumulation (terms 0, 1, 2, 5,
6, 7, 3) fit 16 bits, both builds of `aom_convolve8_horiz_neon`, called with
`dst` and `dst_stride` multiples of 4 as they assert, return, given enough
fuel, and leave the same destination memory; in particular the same block. -/
theorem horiz_builds_agree (fuel : Nat) (S : Mem) (src ss : Int)
    (D : Mem) (dst ds : Int) (filter_x : Nat → Int) (w h : Int)
    (hw : w = 4 ∨ (0 < w ∧ 8 ∣ w)) (hh : h = 4 ∨ (0 < h ∧ 8 ∣ h))
    (hds : w ≤ ds) (hdst : dst % 4 = 0) (hstr : ds % 4 = 0) (hfuel : w + h ≤ fuel)
    (hf : ∀ k, k < 8 → fits8 (filter_x k)) (hsum : fits16 (128 * tap_sum filter_x))
    (hno : ∀ r c : Int, 0 ≤ r → r < h → 0 ≤ c → c < w →
      no_overflow16 (row_window S (src + r * ss + c - 3)) filter_x) :
    ∃ D1 D2,
      DotProd.aom_convolve8_horiz_neon fuel S src ss D dst ds filter_x w h = some D1 ∧
      Portable.aom_convolve8_horiz_neon fuel S src ss D dst ds filter_x w h = some D2 ∧
      (∀ r c : Int, 0 ≤ r → r < h → 0 ≤ c → c < w →
        D1 (dst + r * ds + c) = D2 (dst + r * ds + c)) ∧
      D1 = D2 := by
  have hh4 : 0 < h ∧ 4 ∣ h := by
    rcases hh with rfl | ⟨h0, h8⟩
    · exact ⟨by norm_num, dvd_refl 4⟩
    · exact ⟨h0, Dvd.dvd.trans (by norm_num) h8⟩
  obtain ⟨D1, hrun1, hw1⟩ :=
    dot_pass_spec fuel S src ss D dst ds filter_x w h hw hh4 hds hdst hstr hfuel
  obtain ⟨D2, hrun2, hw2⟩ :=
    horiz_pass_spec fuel S src ss D dst ds filter_x w h hw hh hds hdst hstr hfuel
  have key : D1 = D2 := by
    refine Wrote.ext hw1 hw2 ?_
    intro r c hr hc
    have hr' : (r : Int) < h := by omega
    have hc' : (c : Int) < w := by omega
    exact sdot_lane_eq_convolve8_lane _ _ (fun k _ => row_window_range S _ k) hf hsum
      (hno r c (by omega) hr' (by omega) hc')
  exact ⟨D1, D2, hrun1, hrun2, fun r c _ _ _ _ => by rw [key], key⟩

theorem horiz_builds_agree_witness :
    ((8 : Int) = 4 ∨ (0 < (8 : Int) ∧ (8 : Int) ∣ 8)) ∧
    ((4 : Int) = 4 ∨ (0 < (4 : Int) ∧ (8 : Int) ∣ 4)) ∧ (8 : Int) ≤ 8 ∧
    (0 : Int) % 4 = 0 ∧ (8 : Int) % 4 = 0 ∧
    (8 : Int) + 4 ≤ (12 : Nat) ∧ (∀ k, k < 8 → fits8 (halfpel_taps k)) ∧
    fits16 (128 * tap_sum halfpel_taps) ∧
    (∀ r c : Int, 0 ≤ r → r < 4 → 0 ≤ c → c < 8 →
      no_overflow16 (row_window (fun a => a) (0 + r * 16 + c - 3)) halfpel_taps) ∧
    ∃ D1 D2,
      DotProd.aom_convolve8_horiz_neon 12 (fun a => a) 0 16 (fun _ => 0) 0 8
        halfpel_taps 8 4 = some D1 ∧
      Portable.aom_convolve8_horiz_neon 12 (fun a => a) 0 16 (fun _ => 0) 0 8
        halfpel_taps 8 4 = some D2 ∧
      (∀ r c : Int, 0 ≤ r → r < 4 → 0 ≤ c → c < 8 →
        D1 (0 + r * 8 + c) = D2 (0 + r * 8 + c)) ∧
      D1 = D2 :=
  have hno : ∀ r c : Int, 0 ≤ r → r < 4 → 0 ≤ c → c < 8 →
      no_overflow16 (row_window (fun a => a) (0 + r * 16 + c - 3)) halfpel_taps := by
    intro r c _ _ _ _
    have hx := fun k => row_window_range (fun a => a) (0 + r * 16 + c - 3) k
    have h0 := hx 0; have h1 := hx 1; have h2 := hx 2; have h3 := hx 3
    have h4 := hx 4; have h5 := hx 5; have h6 := hx 6; have h7 := hx 7
    simp only [no_overflow16, fits16, halfpel_taps, List.getD_cons_succ,
      List.getD_cons_zero]
    omega
  ⟨by decide, by decide, by decide, by decide, by decide, by decide, by decide, by decide, hno,
    horiz_builds_agree 12 (fun a => a) 0 16 (fun _ => 0) 0 8 halfpel_taps 8 4
      (by decide) (by decide) (by decide) (by decide) (by decide) (by decide) (by decide) (by decide) hno⟩

/-! ## Flat fields, the reference kernel and the saturation boundary -/

theorem clamp_round_half_away (S : Int) :
    min 255 (max 0 (round_half_away S)) = min 255 (max 0 ((S + 64) / 128)) := by
  unfold round_half_away
  split_ifs <;> omega

/-- C9: with the taps `1,-5,20,90,20,-5,1,0` and eight samples in `[0, 255]`
in lane `i`, `convolve8_8` returns the reference value: the exact sum `S` of
`sample * tap`, divided by 128 with rounding to nearest, clamped to
`[0, 255]`; rounding halves up and rounding halves away from zero give the
same clamped value. -/
theorem sharp_kernel_matches_reference (s0 s1 s2 s3 s4 s5 s6 s7 : Vec) (i : Nat)
    (hs : ∀ k, k < 8 → 0 ≤ lane_window s0 s1 s2 s3 s4 s5 s6 s7 i k ∧
      lane_window s0 s1 s2 s3 s4 s5 s6 s7 i k ≤ 255) :
    convolve8_8 s0 s1 s2 s3 s4 s5 s6 s7 sharp_taps i
      = min 255 (max 0
          ((dot8 (lane_window s0 s1 s2 s3 s4 s5 s6 s7 i) sharp_taps + 64) / 128)) ∧
    convolve8_8 s0 s1 s2 s3 s4 s5 s6 s7 sharp_taps i
      = min 255 (max 0
          (round_half_away (dot8 (lane_window s0 s1 s2 s3 s4 s5 s6 s7 i) sharp_taps))) := by
  have h0 := hs 0 (by norm_num); have h1 := hs 1 (by norm_num)
  have h2 := hs 2 (by norm_num); have h3 := hs 3 (by norm_num)
  have h4 := hs 4 (by norm_num); have h5 := hs 5 (by norm_num)
  have h6 := hs 6 (by norm_num); have h7 := hs 7 (by norm_num)
  have key : convolve8_8 s0 s1 s2 s3 s4 s5 s6 s7 sharp_taps i
      = round_clamp (dot8 (lane_window s0 s1 s2 s3 s4 s5 s6 s7 i) sharp_taps) := by
    rw [convolve8_8_lane]
    refine convolve8_lane_exact _ sharp_taps ?_
    simp only [no_overflow16, fits16, sharp_taps, List.getD_cons_succ, List.getD_cons_zero]
    omega
  exact ⟨key, by rw [clamp_round_half_away]; exact key⟩

theorem sharp_kernel_matches_reference_witness :
    (∀ k, k < 8 → 0 ≤ lane_window (fun _ => 0) (fun _ => 32) (fun _ => 64) (fun _ => 96)
        (fun _ => 128) (fun _ => 160) (fun _ => 192) (fun _ => 224) 0 k ∧
      lane_window (fun _ => 0) (fun _ => 32) (fun _ => 64) (fun _ => 96)
        (fun _ => 128) (fun _ => 160) (fun _ => 192) (fun _ => 224) 0 k ≤ 255) ∧
    convolve8_8 (fun _ => 0) (fun _ => 32) (fun _ => 64) (fun _ => 96)
        (fun _ => 128) (fun _ => 160) (fun _ => 192) (fun _ => 224) sharp_taps 0
      = min 255 (max 0
          ((dot8 (lane_window (fun _ => 0) (fun _ => 32) (fun _ => 64) (fun _ => 96)
            (fun _ => 128) (fun _ => 160) (fun _ => 192) (fun _ => 224) 0) sharp_taps
            + 64) / 128)) :=
  ⟨by decide, (sharp_kernel_matches_reference _ _ _ _ _ _ _ _ 0 (by decide)).1⟩

/-- C10, counterexample: on the samples `255,0,255,0,...` with the taps
`128,0,128,0,0,0,0,0` every product fits 16 bits and the second running sum
is 65280; `convolve8_8` wraps it to -256 and returns 0, while the
accumulation with saturating additions returns 255. -/
theorem outer_additions_wrap :
    products_fit16 (fun k => if k % 2 = 0 then 255 else 0)
      (fun k => if k = 0 then 128 else if k = 2 then 128 else 0) ∧
    convolve8_lane (fun k => if k % 2 = 0 then 255 else 0)
      (fun k => if k = 0 then 128 else if k = 2 then 128 else 0) = 0 ∧
    convolve8_sat_lane (fun k => if k % 2 = 0 then 255 else 0)
      (fun k => if k = 0 then 128 else if k = 2 then 128 else 0) = 255 ∧
    convolve8_lane (fun k => if k % 2 = 0 then 255 else 0)
      (fun k => if k = 0 then 128 else if k = 2 then 128 else 0)
      ≠ convolve8_sat_lane (fun k => if k % 2 = 0 then 255 else 0)
        (fun k => if k = 0 then 128 else if k = 2 then 128 else 0) := by
  decide

/-- C10, amended: when every product fits 16 bits and the running sums over
the six outer terms (0, 1, 2, 5, 6, 7) fit 16 bits, so that only the two last
additions, of terms 3 and 4, can leave the 16-bit range, `convolve8_8` and
`convolve8_4` followed by the rounding narrow saturate there: lane `i` equals
the accumulation in which every addition saturates. -/
theorem centre_additions_saturate (s0 s1 s2 s3 s4 s5 s6 s7 filter : Vec) (i : Nat)
    (hp : products_fit16 (lane_window s0 s1 s2 s3 s4 s5 s6 s7 i) filter)
    (ho : outer_sums_fit16 (lane_window s0 s1 s2 s3 s4 s5 s6 s7 i) filter) :
    convolve8_8 s0 s1 s2 s3 s4 s5 s6 s7 filter i
      = convolve8_sat_lane (lane_window s0 s1 s2 s3 s4 s5 s6 s7 i) filter ∧
    vqrshrun_n_s16 (convolve8_4 s0 s1 s2 s3 s4 s5 s6 s7 filter) FILTER_BITS i
      = convolve8_sat_lane (lane_window s0 s1 s2 s3 s4 s5 s6 s7 i) filter := by
  obtain ⟨p0, p1, p2, p3, p4, p5, p6, p7⟩ := hp
  obtain ⟨a1, a2, a5, a6, a7⟩ := ho
  have key : convolve8_lane (lane_window s0 s1 s2 s3 s4 s5 s6 s7 i) filter
      = convolve8_sat_lane (lane_window s0 s1 s2 s3 s4 s5 s6 s7 i) filter := by
    rw [convolve8_lane_unfold, convolve8_sat_lane, wrap16_of_fits16 p0, wrap16_of_fits16 p1,
      wrap16_of_fits16 p2, wrap16_of_fits16 p3, wrap16_of_fits16 p4, wrap16_of_fits16 p5,
      wrap16_of_fits16 p6, wrap16_of_fits16 p7, wrap16_of_fits16 a1, wrap16_of_fits16 a2,
      wrap16_of_fits16 a5, wrap16_of_fits16 a6, wrap16_of_fits16 a7, sat16_of_fits16 a1,
      sat16_of_fits16 a2, sat16_of_fits16 a5, sat16_of_fits16 a6, sat16_of_fits16 a7]
  constructor
  · rw [convolve8_8_lane, key]
  · rw [← key]
    exact conv4_lane_of filter rfl rfl rfl rfl rfl rfl rfl rfl

theorem centre_additions_saturate_witness :
    products_fit16 (lane_window (fun _ => 10) (fun _ => 20) (fun _ => 30) (fun _ => 255)
        (fun _ => 255) (fun _ => 40) (fun _ => 50) (fun _ => 60) 0)
      (fun k => if k = 3 then 128 else if k = 4 then 128 else 1) ∧
    outer_sums_fit16 (lane_window (fun _ => 10) (fun _ => 20) (fun _ => 30) (fun _ => 255)
        (fun _ => 255) (fun _ => 40) (fun _ => 50) (fun _ => 60) 0)
      (fun k => if k = 3 then 128 else if k = 4 then 128 else 1) ∧
    (convolve8_8 (fun _ => 10) (fun _ => 20) (fun _ => 30) (fun _ => 255)
        (fun _ => 255) (fun _ => 40) (fun _ => 50) (fun _ => 60)
        (fun k => if k = 3 then 128 else if k = 4 then 128 else 1) 0
      = convolve8_sat_lane (lane_window (fun _ => 10) (fun _ => 20) (fun _ => 30)
          (fun _ => 255) (fun _ => 255) (fun _ => 40) (fun _ => 50) (fun _ => 60) 0)
          (fun k => if k = 3 then 128 else if k = 4 then 128 else 1) ∧
    vqrshrun_n_s16 (convolve8_4 (fun _ => 10) (fun _ => 20) (fun _ => 30) (fun _ => 255)
        (fun _ => 255) (fun _ => 40) (fun _ => 50) (fun _ => 60)
        (fun k => if k = 3 then 128 else if k = 4 then 128 else 1)) FILTER_BITS 0
      = convolve8_sat_lane (lane_window (fun _ => 10) (fun _ => 20) (fun _ => 30)
          (fun _ => 255) (fun _ => 255) (fun _ => 40) (fun _ => 50) (fun _ => 60) 0)
          (fun k => if k = 3 then 128 else if k = 4 then 128 else 1)) :=
  ⟨by decide, by decide,
    centre_additions_saturate _ _ _ _ _ _ _ _ _ 0 (by decide) (by decide)⟩

/-! ## Further properties of the evaluators -/

theorem wrap16_add_wrap16 (a b : Int) : wrap16 (wrap16 a + b) = wrap16 (a + b) := by
  unfold wrap16; omega

theorem convolve8_lane_scalar (x : Nat → Int) (filter : Vec) :
    convolve8_lane x filter = scalar_eval x filter := by
  rw [convolve8_lane_unfold, scalar_eval]
  simp only [wrap16_add_wrap16]

/-- C14: for every eight registers, every filter and every lane `i`, with no
range precondition, the lane of `convolve8_4` after the rounding narrow of
the caller equals the lane of `convolve8_8`, and both equal the direct scalar
evaluation: the six outer products summed and reduced to 16 bits, then the
saturating additions of the reduced products of terms 3 and 4, rounded and
saturated to `[0, 255]`. -/
theorem four_and_eight_lane_agree (s0 s1 s2 s3 s4 s5 s6 s7 filter : Vec) (i : Nat) :
    vqrshrun_n_s16 (convolve8_4 s0 s1 s2 s3 s4 s5 s6 s7 filter) FILTER_BITS i
      = convolve8_8 s0 s1 s2 s3 s4 s5 s6 s7 filter i ∧
    convolve8_8 s0 s1 s2 s3 s4 s5 s6 s7 filter i
      = scalar_eval (lane_window s0 s1 s2 s3 s4 s5 s6 s7 i) filter := by
  have e8 := convolve8_8_lane s0 s1 s2 s3 s4 s5 s6 s7 filter i
  have e4 := @conv4_lane_of s0 s1 s2 s3 s4 s5 s6 s7 filter i
    (lane_window s0 s1 s2 s3 s4 s5 s6 s7 i) rfl rfl rfl rfl rfl rfl rfl rfl
  exact ⟨e4.trans e8.symm, e8.trans (convolve8_lane_scalar _ filter)⟩

/-- C18: for taps that each fit a signed byte and whose sum lies in
`[-256, 255]`, and a chunk of samples in `[0, 255]`, every 32-bit accumulator
lane of `convolve8_8_sdot` is the exact sum `S` of `sample * tap` over its
window, and every output byte is `min 255 (max 0 ((S + 64) / 128))`; the
intermediate saturation to 16 bits does not change the byte. -/
theorem sdot_exact_rounding (samples : Vec) (filter_x : Nat → Int)
    (hs : ∀ i, i < 16 → 0 ≤ samples i ∧ samples i ≤ 255)
    (hf : ∀ k, k < 8 → -128 ≤ filter_x k ∧ filter_x k ≤ 127)
    (hsum : -256 ≤ tap_sum filter_x ∧ tap_sum filter_x ≤ 255) (n : Nat) (hn : n < 8) :
    vcombine_s16
        (convolve8_8_sdot_sums samples (vmovn_s16 (vld1q_s16 filter_x))
          (vdupq_n_s32 (vaddvq_s16 (vmulq_n_s16 (vld1q_s16 filter_x) 128)))
          (vdupq_n_u8 128) (vld1q_u8_x3 dot_prod_permute_tbl)).1
        (convolve8_8_sdot_sums samples (vmovn_s16 (vld1q_s16 filter_x))
          (vdupq_n_s32 (vaddvq_s16 (vmulq_n_s16 (vld1q_s16 filter_x) 128)))
          (vdupq_n_u8 128) (vld1q_u8_x3 dot_prod_permute_tbl)).2 n
      = dot8 (sdot_window samples n) filter_x ∧
    convolve8_8_sdot samples (vmovn_s16 (vld1q_s16 filter_x))
        (vdupq_n_s32 (vaddvq_s16 (vmulq_n_s16 (vld1q_s16 filter_x) 128)))
        (vdupq_n_u8 128) (vld1q_u8_x3 dot_prod_permute_tbl) n
      = min 255 (max 0 ((dot8 (sdot_window samples n) filter_x + 64) / 128)) := by
  have h1 : ∀ k, k < 8 → 0 ≤ sdot_window samples n k ∧ sdot_window samples n k ≤ 255 :=
    fun k hk => hs (n + k) (by omega)
  have h16 : fits16 (128 * tap_sum filter_x) := by unfold fits16; omega
  have hacc := sdot_acc_exact _ _ h1 hf h16
  constructor
  · by_cases h4 : n < 4
    · simp only [vcombine_s16, h4, if_true, (sdot8_sums_lane samples filter_x n h4).1, hacc]
    · obtain ⟨m, rfl⟩ : ∃ m, n = m + 4 := ⟨n - 4, by omega⟩
      simp only [vcombine_s16, h4, if_false, Nat.add_sub_cancel,
        (sdot8_sums_lane samples filter_x m (by omega)).2, hacc]
  · rw [sdot8_lane samples filter_x n hn, sdot_lane_exact _ _ h1 hf h16, round_clamp]

theorem sdot_exact_rounding_witness :
    (∀ i, i < 16 → 0 ≤ (fun j : Nat => (17 * j : Int)) i ∧ (fun j : Nat => (17 * j : Int)) i ≤ 255) ∧
    (∀ k, k < 8 → -128 ≤ sharp_taps k ∧ sharp_taps k ≤ 127) ∧
    (-256 ≤ tap_sum sharp_taps ∧ tap_sum sharp_taps ≤ 255) ∧ 6 < 8 ∧
    (vcombine_s16
        (convolve8_8_sdot_sums (fun j : Nat => (17 * j : Int)) (vmovn_s16 (vld1q_s16 sharp_taps))
          (vdupq_n_s32 (vaddvq_s16 (vmulq_n_s16 (vld1q_s16 sharp_taps) 128)))
          (vdupq_n_u8 128) (vld1q_u8_x3 dot_prod_permute_tbl)).1
        (convolve8_8_sdot_sums (fun j : Nat => (17 * j : Int)) (vmovn_s16 (vld1q_s16 sharp_taps))
          (vdupq_n_s32 (vaddvq_s16 (vmulq_n_s16 (vld1q_s16 sharp_taps) 128)))
          (vdupq_n_u8 128) (vld1q_u8_x3 dot_prod_permute_tbl)).2 6
      = dot8 (sdot_window (fun j : Nat => (17 * j : Int)) 6) sharp_taps ∧
    convolve8_8_sdot (fun j : Nat => (17 * j : Int)) (vmovn_s16 (vld1q_s16 sharp_taps))
        (vdupq_n_s32 (vaddvq_s16 (vmulq_n_s16 (vld1q_s16 sharp_taps) 128)))
        (vdupq_n_u8 128) (vld1q_u8_x3 dot_prod_permute_tbl) 6
      = min 255 (max 0
          ((dot8 (sdot_window (fun j : Nat => (17 * j : Int)) 6) sharp_taps + 64) / 128))) :=
  ⟨by decide, by decide, by decide, by decide,
    sdot_exact_rounding (fun j : Nat => (17 * j : Int)) sharp_taps (by decide) (by decide)
      (by decide) 6 (by decide)⟩

theorem identity_kernel_lane (x : Nat → Int) (hx : 0 ≤ x 3 ∧ x 3 ≤ 255) :
    convolve8_lane x identity_taps = x 3 := by
  have hno : no_overflow16 x identity_taps := by
    simp only [no_overflow16, fits16, identity_taps, List.getD_cons_succ,
      List.getD_cons_zero, mul_zero, add_zero, zero_add]
    omega
  rw [convolve8_lane_exact x _ hno]
  simp only [round_clamp, dot8, identity_taps, List.getD_cons_succ, List.getD_cons_zero,
    mul_zero, add_zero, zero_add]
  omega

/-- C19: with the taps `0,0,0,128,0,0,0,0`, for every source, every width
that is 4 or a positive multiple of 8 and every valid height (a positive
multiple of 4 for the vertical pass, 4 or a positive multiple of 8 for the
portable horizontal pass), both passes, called with `dst` and `dst_stride`
multiples of 4 as they assert, return, given enough fuel, and write
`dst[r][c] = src[r][c]` for every byte of the block. -/
theorem identity_kernel_copies (fuel : Nat) (S : Mem) (src ss : Int) (D : Mem)
    (dst ds w hv hh : Int) (hw : w = 4 ∨ (0 < w ∧ 8 ∣ w)) (hhv : 0 < hv ∧ 4 ∣ hv)
    (hhh : hh = 4 ∨ (0 < hh ∧ 8 ∣ hh)) (hds : w ≤ ds)
    (hdst : dst % 4 = 0) (hstr : ds % 4 = 0) (hfv : w + hv ≤ fuel)
    (hfh : w + hh ≤ fuel) :
    (∃ D1, aom_convolve8_vert_neon fuel S src ss D dst ds identity_taps w hv = some D1 ∧
      ∀ r c : Int, 0 ≤ r → r < hv → 0 ≤ c → c < w →
        D1 (dst + r * ds + c) = px S (src + r * ss + c)) ∧
    (∃ D2, Portable.aom_convolve8_horiz_neon fuel S src ss D dst ds identity_taps w hh
        = some D2 ∧
      ∀ r c : Int, 0 ≤ r → r < hh → 0 ≤ c → c < w →
        D2 (dst + r * ds + c) = px S (src + r * ss + c)) := by
  constructor
  · obtain ⟨D1, hrun, hwr⟩ :=
      vert_pass_spec fuel S src ss D dst ds identity_taps w hv hw hhv hds hdst hstr hfv
    refine ⟨D1, hrun, fun r c hr0 hr hc0 hc => ?_⟩
    rw [hwr.at r c hr0 hr hc0 hc, identity_kernel_lane _ (px_range S _),
      Int.toNat_of_nonneg hr0, Int.toNat_of_nonneg hc0]
    exact congrArg (px S) (by push_cast; ring1)
  · obtain ⟨D2, hrun, hwr⟩ :=
      horiz_pass_spec fuel S src ss D dst ds identity_taps w hh hw hhh hds hdst hstr hfh
    refine ⟨D2, hrun, fun r c hr0 hr hc0 hc => ?_⟩
    rw [hwr.at r c hr0 hr hc0 hc, identity_kernel_lane _ (px_range S _),
      Int.toNat_of_nonneg hr0, Int.toNat_of_nonneg hc0]
    exact congrArg (px S) (by push_cast; ring1)

theorem identity_kernel_copies_witness :
    ((8 : Int) = 4 ∨ (0 < (8 : Int) ∧ (8 : Int) ∣ 8)) ∧ (0 < (12 : Int) ∧ (4 : Int) ∣ 12) ∧
    ((16 : Int) = 4 ∨ (0 < (16 : Int) ∧ (8 : Int) ∣ 16)) ∧ (8 : Int) ≤ 8 ∧
    (0 : Int) % 4 = 0 ∧ (8 : Int) % 4 = 0 ∧
    (8 : Int) + 12 ≤ (24 : Nat) ∧ (8 : Int) + 16 ≤ (24 : Nat) ∧
    (∃ D1, aom_convolve8_vert_neon 24 (fun a => a) 0 16 (fun _ => 0) 0 8 identity_taps 8 12
        = some D1 ∧
      ∀ r c : Int, 0 ≤ r → r < 12 → 0 ≤ c → c < 8 →
        D1 (0 + r * 8 + c) = px (fun a => a) (0 + r * 16 + c)) ∧
    (∃ D2, Portable.aom_convolve8_horiz_neon 24 (fun a => a) 0 16 (fun _ => 0) 0 8
        identity_taps 8 16 = some D2 ∧
      ∀ r c : Int, 0 ≤ r → r < 16 → 0 ≤ c → c < 8 →
        D2 (0 + r * 8 + c) = px (fun a => a) (0 + r * 16 + c)) :=
  ⟨by decide, by decide, by decide, by decide, by decide, by decide, by decide, by decide,
    identity_kernel_copies 24 (fun a => a) 0 16 (fun _ => 0) 0 8 8 12 16
      (by decide) (by decide) (by decide) (by decide) (by decide) (by decide) (by decide) (by decide)⟩

theorem window_min_le (x : Nat → Int) :
    window_min x ≤ x 0 ∧ window_min x ≤ x 1 ∧ window_min x ≤ x 2 ∧ window_min x ≤ x 3 ∧
    window_min x ≤ x 4 ∧ window_min x ≤ x 5 ∧ window_min x ≤ x 6 ∧ window_min x ≤ x 7 := by
  unfold window_min; omega

theorem le_window_max (x : Nat → Int) :
    x 0 ≤ window_max x ∧ x 1 ≤ window_max x ∧ x 2 ≤ window_max x ∧ x 3 ≤ window_max x ∧
    x 4 ≤ window_max x ∧ x 5 ≤ window_max x ∧ x 6 ≤ window_max x ∧ x 7 ≤ window_max x := by
  unfold window_max; omega

/-- A window bounded by `lo` and `hi` within `[0, 255]`, filtered with
non-negative taps that sum to 128, gives a byte between `lo` and `hi`. -/
theorem convex_lane (x f : Nat → Int) (lo hi : Int) (hlo : 0 ≤ lo) (hhi : hi ≤ 255)
    (hx : ∀ k, k < 8 → lo ≤ x k ∧ x k ≤ hi) (hf : ∀ k, k < 8 → 0 ≤ f k)
    (hsum : tap_sum f = 128) :
    lo ≤ convolve8_lane x f ∧ convolve8_lane x f ≤ hi := by
  have x0 := hx 0 (by norm_num); have x1 := hx 1 (by norm_num)
  have x2 := hx 2 (by norm_num); have x3 := hx 3 (by norm_num)
  have x4 := hx 4 (by norm_num); have x5 := hx 5 (by norm_num)
  have x6 := hx 6 (by norm_num); have x7 := hx 7 (by norm_num)
  have f0 := hf 0 (by norm_num); have f1 := hf 1 (by norm_num)
  have f2 := hf 2 (by norm_num); have f3 := hf 3 (by norm_num)
  have f4 := hf 4 (by norm_num); have f5 := hf 5 (by norm_num)
  have f6 := hf 6 (by norm_num); have f7 := hf 7 (by norm_num)
  have l0 := mul_le_mul_of_nonneg_right x0.1 f0
  have l1 := mul_le_mul_of_nonneg_right x1.1 f1
  have l2 := mul_le_mul_of_nonneg_right x2.1 f2
  have l3 := mul_le_mul_of_nonneg_right x3.1 f3
  have l4 := mul_le_mul_of_nonneg_right x4.1 f4
  have l5 := mul_le_mul_of_nonneg_right x5.1 f5
  have l6 := mul_le_mul_of_nonneg_right x6.1 f6
  have l7 := mul_le_mul_of_nonneg_right x7.1 f7
  have u0 := mul_le_mul_of_nonneg_right x0.2 f0
  have u1 := mul_le_mul_of_nonneg_right x1.2 f1
  have u2 := mul_le_mul_of_nonneg_right x2.2 f2
  have u3 := mul_le_mul_of_nonneg_right x3.2 f3
  have u4 := mul_le_mul_of_nonneg_right x4.2 f4
  have u5 := mul_le_mul_of_nonneg_right x5.2 f5
  have u6 := mul_le_mul_of_nonneg_right x6.2 f6
  have u7 := mul_le_mul_of_nonneg_right x7.2 f7
  have z0 := mul_nonneg hlo f0; have z1 := mul_nonneg hlo f1
  have z2 := mul_nonneg hlo f2; have z3 := mul_nonneg hlo f3
  have z4 := mul_nonneg hlo f4; have z5 := mul_nonneg hlo f5
  have z6 := mul_nonneg hlo f6; have z7 := mul_nonneg hlo f7
  have t0 := mul_le_mul_of_nonneg_right hhi f0
  have t1 := mul_le_mul_of_nonneg_right hhi f1
  have t2 := mul_le_mul_of_nonneg_right hhi f2
  have t3 := mul_le_mul_of_nonneg_right hhi f3
  have t4 := mul_le_mul_of_nonneg_right hhi f4
  have t5 := mul_le_mul_of_nonneg_right hhi f5
  have t6 := mul_le_mul_of_nonneg_right hhi f6
  have t7 := mul_le_mul_of_nonneg_right hhi f7
  have elo : lo * f 0 + lo * f 1 + lo * f 2 + lo * f 3 + lo * f 4 + lo * f 5 + lo * f 6
      + lo * f 7 = lo * 128 := by rw [← hsum]; unfold tap_sum; ring
  have ehi : hi * f 0 + hi * f 1 + hi * f 2 + hi * f 3 + hi * f 4 + hi * f 5 + hi * f 6
      + hi * f 7 = hi * 128 := by rw [← hsum]; unfold tap_sum; ring
  unfold tap_sum at hsum
  have hno : no_overflow16 x f := by
    unfold no_overflow16 fits16
    refine ⟨⟨?_, ?_⟩, ⟨?_, ?_⟩, ⟨?_, ?_⟩, ⟨?_, ?_⟩, ⟨?_, ?_⟩, ⟨?_, ?_⟩, ⟨?_, ?_⟩, ⟨?_, ?_⟩,
      ⟨?_, ?_⟩, ⟨?_, ?_⟩, ⟨?_, ?_⟩, ⟨?_, ?_⟩, ⟨?_, ?_⟩, ⟨?_, ?_⟩⟩ <;> linarith
  rw [convolve8_lane_exact x f hno]
  have hS1 : lo * 128 ≤ dot8 x f := by unfold dot8; linarith
  have hS2 : dot8 x f ≤ hi * 128 := by unfold dot8; linarith
  unfold round_clamp
  omega

/-- C20: for taps that are all non-negative and sum to 128, and eight samples
in `[0, 255]` in lane `i`, the byte of `convolve8_8` lies between the
smallest and the largest of the eight samples. -/
theorem nonneg_kernel_is_convex (s0 s1 s2 s3 s4 s5 s6 s7 filter : Vec) (i : Nat)
    (hs : ∀ k, k < 8 → 0 ≤ lane_window s0 s1 s2 s3 s4 s5 s6 s7 i k ∧
      lane_window s0 s1 s2 s3 s4 s5 s6 s7 i k ≤ 255)
    (hf : ∀ k, k < 8 → 0 ≤ filter k) (hsum : tap_sum filter = 128) :
    window_min (lane_window s0 s1 s2 s3 s4 s5 s6 s7 i)
      ≤ convolve8_8 s0 s1 s2 s3 s4 s5 s6 s7 filter i ∧
    convolve8_8 s0 s1 s2 s3 s4 s5 s6 s7 filter i
      ≤ window_max (lane_window s0 s1 s2 s3 s4 s5 s6 s7 i) := by
  have hmin := window_min_le (lane_window s0 s1 s2 s3 s4 s5 s6 s7 i)
  have hmax := le_window_max (lane_window s0 s1 s2 s3 s4 s5 s6 s7 i)
  have h0 := hs 0 (by norm_num); have h1 := hs 1 (by norm_num)
  have h2 := hs 2 (by norm_num); have h3 := hs 3 (by norm_num)
  have h4 := hs 4 (by norm_num); have h5 := hs 5 (by norm_num)
  have h6 := hs 6 (by norm_num); have h7 := hs 7 (by norm_num)
  have hlo : 0 ≤ window_min (lane_window s0 s1 s2 s3 s4 s5 s6 s7 i) := by
    unfold window_min; omega
  have hhi : window_max (lane_window s0 s1 s2 s3 s4 s5 s6 s7 i) ≤ 255 := by
    unfold window_max; omega
  rw [convolve8_8_lane]
  refine convex_lane _ filter _ _ hlo hhi ?_ hf hsum
  intro k hk
  interval_cases k
  · exact ⟨hmin.1, hmax.1⟩
  · exact ⟨hmin.2.1, hmax.2.1⟩
  · exact ⟨hmin.2.2.1, hmax.2.2.1⟩
  · exact ⟨hmin.2.2.2.1, hmax.2.2.2.1⟩
  · exact ⟨hmin.2.2.2.2.1, hmax.2.2.2.2.1⟩
  · exact ⟨hmin.2.2.2.2.2.1, hmax.2.2.2.2.2.1⟩
  · exact ⟨hmin.2.2.2.2.2.2.1, hmax.2.2.2.2.2.2.1⟩
  · exact ⟨hmin.2.2.2.2.2.2.2, hmax.2.2.2.2.2.2.2⟩

theorem nonneg_kernel_is_convex_witness :
    (∀ k, k < 8 → 0 ≤ lane_window (fun _ => 90) (fun _ => 32) (fun _ => 64) (fun _ => 96)
        (fun _ => 128) (fun _ => 160) (fun _ => 192) (fun _ => 224) 0 k ∧
      lane_window (fun _ => 90) (fun _ => 32) (fun _ => 64) (fun _ => 96)
        (fun _ => 128) (fun _ => 160) (fun _ => 192) (fun _ => 224) 0 k ≤ 255) ∧
    (∀ k, k < 8 → 0 ≤ halfpel_taps k) ∧ tap_sum halfpel_taps = 128 ∧
    (window_min (lane_window (fun _ => 90) (fun _ => 32) (fun _ => 64) (fun _ => 96)
        (fun _ => 128) (fun _ => 160) (fun _ => 192) (fun _ => 224) 0)
      ≤ convolve8_8 (fun _ => 90) (fun _ => 32) (fun _ => 64) (fun _ => 96)
        (fun _ => 128) (fun _ => 160) (fun _ => 192) (fun _ => 224) halfpel_taps 0 ∧
    convolve8_8 (fun _ => 90) (fun _ => 32) (fun _ => 64) (fun _ => 96)
        (fun _ => 128) (fun _ => 160) (fun _ => 192) (fun _ => 224) halfpel_taps 0
      ≤ window_max (lane_window (fun _ => 90) (fun _ => 32) (fun _ => 64) (fun _ => 96)
        (fun _ => 128) (fun _ => 160) (fun _ => 192) (fun _ => 224) 0)) :=
  ⟨by decide, by decide, by decide,
    nonneg_kernel_is_convex _ _ _ _ _ _ _ _ halfpel_taps 0 (by decide) (by decide)
      (by decide)⟩

/-! ## Correction term and sliding windows of the dot-product kernel -/

theorem correction_wraps (f : Nat → Int) (i : Nat) :
    vdupq_n_s32 (vaddvq_s16 (vmulq_n_s16 (vld1q_s16 f) 128)) i
      = wrap16 (128 * tap_sum f) := by
  simp only [vdupq_n_s32, vaddvq_s16, vmulq_n_s16, vld1q_s16, wrap16, tap_sum]
  omega

/-- C11, counterexample: the taps `0,0,0,128,128,0,0,0` are 16-bit values
with sum 256; the correction computed by the pass is -32768, not
`128 * 256 = 32768`: the sum is carried in 16 bits and wraps before it is
widened. -/
theorem correction_wraps_for_sum_256 :
    vdupq_n_s32 (vaddvq_s16 (vmulq_n_s16
        (vld1q_s16 (fun k => if k = 3 then 128 else if k = 4 then 128 else 0)) 128)) 0
      = -32768 ∧
    128 * tap_sum (fun k => if k = 3 then 128 else if k = 4 then 128 else 0) = 32768 := by
  decide

/-- C11, amended: for taps whose sum lies in `[-256, 255]`, every lane of the
correction vector of the dot-product build is the exact `128 * sum`; for any
taps it is `128 * sum` reduced to the signed 16-bit range, because the products
by 128 and their sum are carried in 16 bits. -/
theorem correction_exact (filter_x : Nat → Int)
    (hsum : -256 ≤ tap_sum filter_x ∧ tap_sum filter_x ≤ 255) (i : Nat) :
    vdupq_n_s32 (vaddvq_s16 (vmulq_n_s16 (vld1q_s16 filter_x) 128)) i
      = 128 * tap_sum filter_x ∧
    ∀ g : Nat → Int, vdupq_n_s32 (vaddvq_s16 (vmulq_n_s16 (vld1q_s16 g) 128)) i
      = wrap16 (128 * tap_sum g) := by
  refine ⟨?_, fun g => correction_wraps g i⟩
  rw [correction_wraps]
  unfold wrap16; omega

theorem correction_exact_witness :
    (-256 ≤ tap_sum sharp_taps ∧ tap_sum sharp_taps ≤ 255) ∧
    (vdupq_n_s32 (vaddvq_s16 (vmulq_n_s16 (vld1q_s16 sharp_taps) 128)) 2
      = 128 * tap_sum sharp_taps ∧
    ∀ g : Nat → Int, vdupq_n_s32 (vaddvq_s16 (vmulq_n_s16 (vld1q_s16 g) 128)) 2
      = wrap16 (128 * tap_sum g)) :=
  ⟨by decide, correction_exact sharp_taps (by decide) 2⟩

theorem sdot8_sums_general (samples filter correction range_limit : Vec) (n : Nat)
    (hn : n < 4) :
    (convolve8_8_sdot_sums samples filter correction range_limit
        (vld1q_u8_x3 dot_prod_permute_tbl)).1 n
      = sdot_sum (vreinterpretq_s8_u8 (vsubq_u8 samples range_limit)) filter
          (correction n) n ∧
    (convolve8_8_sdot_sums samples filter correction range_limit
        (vld1q_u8_x3 dot_prod_permute_tbl)).2 n
      = sdot_sum (vreinterpretq_s8_u8 (vsubq_u8 samples range_limit)) filter
          (correction n) (n + 4) := by
  obtain ⟨⟨a0, a1, a2, a3⟩, ⟨b0, b1, b2, b3⟩, ⟨c0, c1, c2, c3⟩⟩ :=
    perm_views3 (vreinterpretq_s8_u8 (vsubq_u8 samples range_limit)) n hn
  constructor
  · simp only [convolve8_8_sdot_sums, vdotq_lane_s32, a0, a1, a2, a3, b0, b1, b2, b3]
    simp only [sdot_sum, Nat.mul_zero, Nat.zero_add, Nat.mul_one, Nat.add_zero]
  · simp only [convolve8_8_sdot_sums, vdotq_lane_s32, b0, b1, b2, b3, c0, c1, c2, c3]
    simp only [sdot_sum, Nat.mul_zero, Nat.zero_add, Nat.mul_one, Nat.add_zero,
      Nat.add_assoc, Nat.reduceAdd]

theorem sdot4_sum_general (samples filter correction range_limit : Vec) (n : Nat)
    (hn : n < 4) :
    convolve8_4_sdot_sum samples filter correction range_limit
        (vld1q_u8_x2 dot_prod_permute_tbl) n
      = sdot_sum (vreinterpretq_s8_u8 (vsubq_u8 samples range_limit)) filter
          (correction n) n := by
  obtain ⟨⟨a0, a1, a2, a3⟩, ⟨b0, b1, b2, b3⟩⟩ :=
    perm_views2 (vreinterpretq_s8_u8 (vsubq_u8 samples range_limit)) n hn
  simp only [convolve8_4_sdot_sum, vdotq_lane_s32, a0, a1, a2, a3, b0, b1, b2, b3]
  simp only [sdot_sum, Nat.mul_zero, Nat.zero_add, Nat.mul_one, Nat.add_zero]

theorem clamped_byte (samples : Vec) (i : Nat) (h : 0 ≤ samples i ∧ samples i ≤ 255) :
    vreinterpretq_s8_u8 (vsubq_u8 samples (vdupq_n_u8 128)) i = samples i - 128 := by
  simp only [vreinterpretq_s8_u8, vsubq_u8, vdupq_n_u8, wrap8]
  omega

theorem sdot_sum_exact (samples filter : Vec) (corr : Int) (n : Nat) (hn : n < 8)
    (hs : ∀ i, i < 16 → 0 ≤ samples i ∧ samples i ≤ 255)
    (hf : ∀ k, k < 8 → -128 ≤ filter k ∧ filter k ≤ 127)
    (hc : -1073741824 ≤ corr ∧ corr ≤ 1073741824) :
    sdot_sum (vreinterpretq_s8_u8 (vsubq_u8 samples (vdupq_n_u8 128))) filter corr n
      = corr + (samples n - 128) * filter 0 + (samples (n + 1) - 128) * filter 1
        + (samples (n + 2) - 128) * filter 2 + (samples (n + 3) - 128) * filter 3
        + (samples (n + 4) - 128) * filter 4 + (samples (n + 5) - 128) * filter 5
        + (samples (n + 6) - 128) * filter 6 + (samples (n + 7) - 128) * filter 7 := by
  have x0 := hs n (by omega); have x1 := hs (n + 1) (by omega)
  have x2 := hs (n + 2) (by omega); have x3 := hs (n + 3) (by omega)
  have x4 := hs (n + 4) (by omega); have x5 := hs (n + 5) (by omega)
  have x6 := hs (n + 6) (by omega); have x7 := hs (n + 7) (by omega)
  have b8r : ∀ s : Int, 0 ≤ s ∧ s ≤ 255 → -128 ≤ s - 128 ∧ s - 128 ≤ 127 := by
    intro s hs; omega
  have m0 := mul_bound (b8r _ x0) (hf 0 (by norm_num))
  have m1 := mul_bound (b8r _ x1) (hf 1 (by norm_num))
  have m2 := mul_bound (b8r _ x2) (hf 2 (by norm_num))
  have m3 := mul_bound (b8r _ x3) (hf 3 (by norm_num))
  have m4 := mul_bound (b8r _ x4) (hf 4 (by norm_num))
  have m5 := mul_bound (b8r _ x5) (hf 5 (by norm_num))
  have m6 := mul_bound (b8r _ x6) (hf 6 (by norm_num))
  have m7 := mul_bound (b8r _ x7) (hf 7 (by norm_num))
  simp only [sdot_sum, clamped_byte samples _ x0, clamped_byte samples _ x1,
    clamped_byte samples _ x2, clamped_byte samples _ x3, clamped_byte samples _ x4,
    clamped_byte samples _ x5, clamped_byte samples _ x6, clamped_byte samples _ x7]
  have e1 : wrap32 (corr + (samples n - 128) * filter 0 + (samples (n + 1) - 128) * filter 1
      + (samples (n + 2) - 128) * filter 2 + (samples (n + 3) - 128) * filter 3)
      = corr + (samples n - 128) * filter 0 + (samples (n + 1) - 128) * filter 1
      + (samples (n + 2) - 128) * filter 2 + (samples (n + 3) - 128) * filter 3 := by
    unfold wrap32; omega
  rw [e1]
  unfold wrap32; omega

theorem sdot_sum_congr (c1 c2 filter : Vec) (corr : Int) (n : Nat) (hn : n < 8)
    (h : ∀ i, i < 15 → c1 i = c2 i) : sdot_sum c1 filter corr n = sdot_sum c2 filter corr n := by
  simp only [sdot_sum, h n (by omega), h (n + 1) (by omega), h (n + 2) (by omega),
    h (n + 3) (by omega), h (n + 4) (by omega), h (n + 5) (by omega), h (n + 6) (by omega),
    h (n + 7) (by omega)]

theorem sdot8_lane_general (samples filter correction range_limit : Vec) (l : Nat)
    (hl : l < 8) :
    convolve8_8_sdot samples filter correction range_limit
        (vld1q_u8_x3 dot_prod_permute_tbl) l
      = satu8 ((sat16 (sdot_sum (vreinterpretq_s8_u8 (vsubq_u8 samples range_limit)) filter
          (correction (l % 4)) l) + 64) / 128) := by
  by_cases h4 : l < 4
  · have e : l % 4 = l := Nat.mod_eq_of_lt h4
    simp only [convolve8_8_sdot, vqrshrun_n_s16, vcombine_s16, vqmovn_s32, h4, if_true,
      (sdot8_sums_general samples filter correction range_limit l h4).1, e,
      pow_filter_bits.1, pow_filter_bits.2]
  · obtain ⟨m, rfl⟩ : ∃ m, l = m + 4 := ⟨l - 4, by omega⟩
    have e : (m + 4) % 4 = m := by omega
    simp only [convolve8_8_sdot, vqrshrun_n_s16, vcombine_s16, vqmovn_s32, h4, if_false,
      Nat.add_sub_cancel,
      (sdot8_sums_general samples filter correction range_limit m (by omega)).2, e,
      pow_filter_bits.1, pow_filter_bits.2]

/-- C17: entry `16 j + 4 i + m` of `dot_prod_permute_tbl` is `4 j + i + m`;
for a chunk of samples in `[0, 255]`, taps that fit a signed byte and a
correction of at most 31 bits, the accumulator of `convolve8_8_sdot` for
lane `n` (lanes `n` and `n + 4` for `n < 4`) and of `convolve8_4_sdot` for lane
`n` is the correction plus the sum over `k` of `(chunk[n + k] - 128) * tap k`;
byte 15 of the chunk influences no output byte. -/
theorem sdot_sliding_windows (samples filter correction : Vec)
    (hs : ∀ i, i < 16 → 0 ≤ samples i ∧ samples i ≤ 255)
    (hf : ∀ k, k < 8 → -128 ≤ filter k ∧ filter k ≤ 127)
    (hc : ∀ i, i < 4 → -1073741824 ≤ correction i ∧ correction i ≤ 1073741824)
    (n : Nat) (hn : n < 4) :
    (∀ j, j < 3 → ∀ i, i < 4 → ∀ m, m < 4 →
      dot_prod_permute_tbl.getD (16 * j + 4 * i + m) 0 = ((4 * j + i + m : Nat) : Int)) ∧
    (convolve8_8_sdot_sums samples filter correction (vdupq_n_u8 128)
        (vld1q_u8_x3 dot_prod_permute_tbl)).1 n
      = correction n + dot8 (fun k => sdot_window samples n k - 128) filter ∧
    (convolve8_8_sdot_sums samples filter correction (vdupq_n_u8 128)
        (vld1q_u8_x3 dot_prod_permute_tbl)).2 n
      = correction n + dot8 (fun k => sdot_window samples (n + 4) k - 128) filter ∧
    convolve8_4_sdot_sum samples filter correction (vdupq_n_u8 128)
        (vld1q_u8_x2 dot_prod_permute_tbl) n
      = correction n + dot8 (fun k => sdot_window samples n k - 128) filter ∧
    (∀ other : Vec, (∀ i, i < 15 → other i = samples i) → ∀ l, l < 8 →
      convolve8_8_sdot other filter correction (vdupq_n_u8 128)
          (vld1q_u8_x3 dot_prod_permute_tbl) l
        = convolve8_8_sdot samples filter correction (vdupq_n_u8 128)
          (vld1q_u8_x3 dot_prod_permute_tbl) l) := by
  refine ⟨by decide, ?_, ?_, ?_, ?_⟩
  · rw [(sdot8_sums_general samples filter correction _ n hn).1,
      sdot_sum_exact samples filter _ n (by omega) hs hf (hc n hn)]
    simp only [dot8, sdot_window, Nat.add_zero]
    ring
  · rw [(sdot8_sums_general samples filter correction _ n hn).2,
      sdot_sum_exact samples filter _ (n + 4) (by omega) hs hf (hc n hn)]
    simp only [dot8, sdot_window, Nat.add_zero]
    ring
  · rw [sdot4_sum_general samples filter correction _ n hn,
      sdot_sum_exact samples filter _ n (by omega) hs hf (hc n hn)]
    simp only [dot8, sdot_window, Nat.add_zero]
    ring
  · intro other ho l hl
    rw [sdot8_lane_general other filter correction _ l hl,
      sdot8_lane_general samples filter correction _ l hl]
    congr 4
    refine sdot_sum_congr _ _ filter _ l hl ?_
    intro i hi
    simp only [vreinterpretq_s8_u8, vsubq_u8, ho i hi]

theorem sdot_sliding_windows_witness :
    (∀ i, i < 16 → 0 ≤ (fun j : Nat => (17 * j : Int)) i ∧ (fun j : Nat => (17 * j : Int)) i ≤ 255) ∧
    (∀ k, k < 8 → -128 ≤ sharp_taps k ∧ sharp_taps k ≤ 127) ∧
    (∀ i, i < 4 → -1073741824 ≤ (fun _ : Nat => (16384 : Int)) i ∧
      (fun _ : Nat => (16384 : Int)) i ≤ 1073741824) ∧ 3 < 4 ∧
    ((∀ j, j < 3 → ∀ i, i < 4 → ∀ m, m < 4 →
      dot_prod_permute_tbl.getD (16 * j + 4 * i + m) 0 = ((4 * j + i + m : Nat) : Int)) ∧
    (convolve8_8_sdot_sums (fun j : Nat => (17 * j : Int)) sharp_taps (fun _ => 16384)
        (vdupq_n_u8 128) (vld1q_u8_x3 dot_prod_permute_tbl)).1 3
      = (fun _ : Nat => (16384 : Int)) 3
        + dot8 (fun k => sdot_window (fun j : Nat => (17 * j : Int)) 3 k - 128) sharp_taps ∧
    (convolve8_8_sdot_sums (fun j : Nat => (17 * j : Int)) sharp_taps (fun _ => 16384)
        (vdupq_n_u8 128) (vld1q_u8_x3 dot_prod_permute_tbl)).2 3
      = (fun _ : Nat => (16384 : Int)) 3
        + dot8 (fun k => sdot_window (fun j : Nat => (17 * j : Int)) (3 + 4) k - 128)
            sharp_taps ∧
    convolve8_4_sdot_sum (fun j : Nat => (17 * j : Int)) sharp_taps (fun _ => 16384)
        (vdupq_n_u8 128) (vld1q_u8_x2 dot_prod_permute_tbl) 3
      = (fun _ : Nat => (16384 : Int)) 3
        + dot8 (fun k => sdot_window (fun j : Nat => (17 * j : Int)) 3 k - 128) sharp_taps ∧
    (∀ other : Vec, (∀ i, i < 15 → other i = (fun j : Nat => (17 * j : Int)) i) →
      ∀ l, l < 8 →
      convolve8_8_sdot other sharp_taps (fun _ => 16384) (vdupq_n_u8 128)
          (vld1q_u8_x3 dot_prod_permute_tbl) l
        = convolve8_8_sdot (fun j : Nat => (17 * j : Int)) sharp_taps (fun _ => 16384)
          (vdupq_n_u8 128) (vld1q_u8_x3 dot_prod_permute_tbl) l)) :=
  ⟨by decide, by decide, by decide, by decide,
    sdot_sliding_windows (fun j : Nat => (17 * j : Int)) sharp_taps (fun _ => 16384)
      (by decide) (by decide) (by decide) 3 (by decide)⟩

/-! ## Write set of the portable horizontal pass for any height -/

theorem horiz_w4_loop_any (S : Mem) (ss ds : Int) (filter : Vec) (hds : 4 ≤ ds) (n : Nat)
    (e : Int) (he : 0 ≤ e ∧ e < 8)
    (st : Walk) (fuel : Nat) (hcnt : st.cnt + e = 8 * (n + 1 : Nat)) (hfuel : n + 1 ≤ fuel) :
    ∃ st2, do_while (fun r => some (Portable.horiz_w4_body S ss ds filter r))
        (fun r => decide (r.cnt > 0)) fuel st = some st2 ∧
      Wrote st.out st2.out st.dst ds (8 * (n + 1)) 4
        (fun r c => convolve8_lane (row_window S (st.src + r * ss + c)) filter) := by
  refine do_while_vstack _ _ (fun _ => True) (fun r => r.out) (fun r => r.dst)
    (fun r => r.cnt + e) ds 8 4
    (fun st r c => convolve8_lane (row_window S (st.src + r * ss + c)) filter)
    (by exact_mod_cast hds) ?_ ?_ n st fuel (by exact_mod_cast hcnt) hfuel trivial
  · intro st _
    refine ⟨_, rfl, trivial, ?_, ?_, horiz_w4_tile S ss ds filter st hds, ?_⟩
    · simp only [Portable.horiz_w4_body, load_u8_8x8, transpose_u8_8x8, transpose_u8_4x8]
      push_cast; ring1
    · simp only [Portable.horiz_w4_body, load_u8_8x8, transpose_u8_8x8, transpose_u8_4x8]
      push_cast; ring1
    · intro r c
      simp only [Portable.horiz_w4_body, load_u8_8x8, transpose_u8_8x8, transpose_u8_4x8]
      exact congrArg (fun p => convolve8_lane (row_window S p) filter)
        (by push_cast; ring1)
  · intro st k hk
    simp only [decide_eq_true_eq, gt_iff_lt]
    push_cast at hk
    constructor
    · intro h0 hk0; subst hk0; omega
    · intro hk0; omega

theorem horiz_wide_loop_any (S : Mem) (ss ds : Int) (filter : Vec) (n m : Nat)
    (e : Int) (he : 0 ≤ e ∧ e < 8)
    (fuel : Nat) (hfuel : n + 1 ≤ fuel) (hfuel2 : m + 1 ≤ fuel)
    (hds : ((8 * (m + 1) : Nat) : Int) ≤ ds) (st : Walk)
    (hcnt : st.cnt + e = 8 * (n + 1 : Nat)) :
    ∃ st2, do_while (Portable.horiz_8x8_band fuel S ss ds filter (8 * (m + 1 : Nat)))
        (fun r => decide (r.cnt > 0)) fuel st = some st2 ∧
      Wrote st.out st2.out st.dst ds (8 * (n + 1)) (8 * (m + 1))
        (fun r c => convolve8_lane (row_window S (st.src + r * ss + c)) filter) := by
  refine do_while_vstack _ _ (fun _ => True) (fun r => r.out) (fun r => r.dst)
    (fun r => r.cnt + e) ds 8 (8 * (m + 1))
    (fun st r c => convolve8_lane (row_window S (st.src + r * ss + c)) filter)
    hds ?_ ?_ n st fuel (by exact_mod_cast hcnt) hfuel trivial
  · intro st _
    obtain ⟨st1, h1, h2, h3, h4, h5⟩ := horiz_8x8_band_spec S ss ds filter m hds fuel hfuel2 st
    refine ⟨st1, h1, trivial, by show st1.cnt + e = st.cnt + e - ((8 : Nat) : Int); rw [h2]; push_cast; ring1,
      by exact_mod_cast h3, h5, ?_⟩
    intro r c
    simp only [h4]
    exact congrArg (fun p => convolve8_lane (row_window S p) filter)
      (by push_cast; ring1)
  · intro st k hk
    simp only [decide_eq_true_eq, gt_iff_lt]
    push_cast at hk
    constructor
    · intro h0 hk0; subst hk0; omega
    · intro hk0; omega

theorem portable_rows_eq (h : Int) (hh : h = 4 ∨ (0 < h ∧ 8 ∣ h)) : portable_rows h = h := by
  unfold portable_rows
  rcases hh with rfl | ⟨_, h8⟩
  · rfl
  · obtain ⟨q, rfl⟩ := h8
    have : ¬ (8 * q = 4) := by omega
    rw [if_neg this]
    omega

/-- The portable horizontal pass, for any positive height, writes
`portable_rows h` rows of `w` bytes and changes nothing else. -/
theorem horiz_pass_rows (fuel : Nat) (S : Mem) (src ss : Int) (D : Mem) (dst ds : Int)
    (filter_x : Nat → Int) (w h : Int) (hw : w = 4 ∨ (0 < w ∧ 8 ∣ w))
    (hh : 0 < h) (hds : w ≤ ds) (hdst : dst % 4 = 0) (hstr : ds % 4 = 0) (hfuel : w + h ≤ fuel) :
    ∃ D1, Portable.aom_convolve8_horiz_neon fuel S src ss D dst ds filter_x w h = some D1 ∧
      Wrote D D1 dst ds (portable_rows h).toNat w.toNat
        (fun r c => convolve8_lane (row_window S (src + r * ss + c - 3)) filter_x) := by
  by_cases h4 : h = 4
  · subst h4
    exact horiz_pass_spec fuel S src ss D dst ds filter_x w 4 hw (Or.inl rfl) hds hdst hstr hfuel
  · obtain ⟨n, hn⟩ : ∃ n : Nat, (h + 7) / 8 = ((n + 1 : Nat) : Int) := by
      refine ⟨((h + 7) / 8 - 1).toNat, ?_⟩
      have : 1 ≤ (h + 7) / 8 := by omega
      push_cast
      rw [Int.toNat_of_nonneg (by omega)]; ring
    have hrows : (portable_rows h).toNat = 8 * (n + 1) := by
      unfold portable_rows
      rw [if_neg h4, hn]
      have e := toNat_mul_succ 8 n
      simpa only [Nat.cast_ofNat] using e
    rw [hrows]
    have he : 0 ≤ 8 * ((n + 1 : Nat) : Int) - h ∧ 8 * ((n + 1 : Nat) : Int) - h < 8 := by
      rw [← hn]; omega
    have hn1 : (n : Int) + 1 ≤ h := by
      have := hn; push_cast at this; omega
    rcases hw with rfl | ⟨hw0, hw8⟩
    · obtain ⟨st2, hrun, hwr⟩ := horiz_w4_loop_any S ss ds (vld1q_s16 filter_x) hds n
        (8 * ((n + 1 : Nat) : Int) - h) he
        { src := src - (SUBPEL_TAPS / 2 - 1), dst := dst, cnt := h, out := D } fuel
        (by ring) (by omega)
      refine ⟨st2.out, ?_, ?_⟩
      · simp only [Portable.aom_convolve8_horiz_neon, if_pos hdst, if_pos hstr,
        h4, if_false, if_true, hrun,
          Option.map_some']
      · refine Wrote.congr hwr ?_
        intro r c _ _
        exact congrArg (fun p => convolve8_lane (row_window S p) filter_x)
          (by simp only [taps_offset]; ring1)
    · obtain ⟨m, rfl⟩ := exists_mul_succ (by norm_num) hw0 hw8
      have e2 := toNat_mul_succ 8 m
      simp only [Nat.cast_ofNat] at e2
      rw [e2]
      have hne2 : ¬ (8 * ((m + 1 : Nat) : Int) = 4) := by omega
      obtain ⟨st2, hrun, hwr⟩ := horiz_wide_loop_any S ss ds (vld1q_s16 filter_x) n m
        (8 * ((n + 1 : Nat) : Int) - h) he fuel (by omega) (by push_cast at hfuel; omega)
        (by push_cast at hds ⊢; linarith)
        { src := src - (SUBPEL_TAPS / 2 - 1), dst := dst, cnt := h, out := D } (by ring)
      refine ⟨st2.out, ?_, ?_⟩
      · simp only [Portable.aom_convolve8_horiz_neon, if_pos hdst, if_pos hstr,
        h4, hne2, if_false, hrun,
          Option.map_some']
      · refine Wrote.congr hwr ?_
        intro r c _ _
        exact congrArg (fun p => convolve8_lane (row_window S p) filter_x)
          (by simp only [taps_offset]; ring1)

/-- C12, counterexample: with `dst = 0`, `dst_stride = 8` (both assertions
pass), `w = 4`, `h = 12` the portable pass stores two
tiles of 8 rows; the destination byte of row 12, column 0, outside the block of
12 rows, changes from 0 to 100. -/
theorem portable_horiz_writes_below_height_12 :
    (Portable.aom_convolve8_horiz_neon 2 (fun _ => 100) 3 16 (fun _ => 0) 0 8
        halfpel_taps 4 12).map (fun D1 => D1 (0 + 12 * 8 + 0)) = some 100 ∧
    (fun _ => 0 : Mem) (0 + 12 * 8 + 0) = 0 := by
  decide

/-- C12, amended: for `w` equal to 4 or a positive multiple of 8 and every
height `h > 0` (`dst` and `dst_stride`
multiples of 4, as the pass asserts, and destination rows at least `w` bytes
apart) the portable
`aom_convolve8_horiz_neon` returns, given enough fuel, writes every byte
`dst[r][c]` with `0 <= r < H`, `0 <= c < w`, where `H = portable_rows h` is `h`
when `h` is 4 or a multiple of 8 and `h` rounded up to a multiple of 8
otherwise, and leaves every destination byte outside that block unchanged. -/
theorem portable_horiz_write_set (fuel : Nat) (S : Mem) (src ss : Int)
    (D : Mem) (dst ds : Int) (filter_x : Nat → Int) (w h : Int)
    (hw : w = 4 ∨ (0 < w ∧ 8 ∣ w)) (hh : 0 < h) (hds : w ≤ ds)
    (hdst : dst % 4 = 0) (hstr : ds % 4 = 0) (hfuel : w + h ≤ fuel) :
    (∃ D1, Portable.aom_convolve8_horiz_neon fuel S src ss D dst ds filter_x w h = some D1 ∧
      (∀ r c : Int, 0 ≤ r → r < portable_rows h → 0 ≤ c → c < w →
        D1 (dst + r * ds + c)
          = convolve8_lane (row_window S (src + r * ss + c - 3)) filter_x) ∧
      (∀ a : Int, (∀ r c : Int, 0 ≤ r → r < portable_rows h → 0 ≤ c → c < w →
        a ≠ dst + r * ds + c) → D1 a = D a)) ∧
    (h = 4 ∨ 8 ∣ h → portable_rows h = h) := by
  constructor
  · obtain ⟨D1, hrun, hwr⟩ :=
    horiz_pass_rows fuel S src ss D dst ds filter_x w h hw hh hds hdst hstr hfuel
    refine ⟨D1, hrun, fun r c hr0 hr hc0 hc => ?_, fun a ha => ?_⟩
    · rw [hwr.at r c hr0 hr hc0 hc, Int.toNat_of_nonneg hr0, Int.toNat_of_nonneg hc0]
    · refine hwr.2 a (fun r c hr hc => ?_)
      exact ha r c (by omega) (by omega) (by omega) (by omega)
  · intro h48
    refine portable_rows_eq h ?_
    rcases h48 with h4 | h8
    · exact Or.inl h4
    · exact Or.inr ⟨hh, h8⟩

theorem portable_horiz_write_set_witness :
    ((8 : Int) = 4 ∨ (0 < (8 : Int) ∧ (8 : Int) ∣ 8)) ∧ 0 < (12 : Int) ∧ (8 : Int) ≤ 8 ∧
    (0 : Int) % 4 = 0 ∧ (8 : Int) % 4 = 0 ∧
    (8 : Int) + 12 ≤ (20 : Nat) ∧
    (∃ D1, Portable.aom_convolve8_horiz_neon 20 (fun a => a) 0 16 (fun _ => 0) 0 8
        halfpel_taps 8 12 = some D1 ∧
      (∀ r c : Int, 0 ≤ r → r < portable_rows 12 → 0 ≤ c → c < 8 →
        D1 (0 + r * 8 + c)
          = convolve8_lane (row_window (fun a => a) (0 + r * 16 + c - 3)) halfpel_taps) ∧
      (∀ a : Int, (∀ r c : Int, 0 ≤ r → r < portable_rows 12 → 0 ≤ c → c < 8 →
        a ≠ 0 + r * 8 + c) → D1 a = (fun _ => 0) a)) ∧
    ((12 : Int) = 4 ∨ (8 : Int) ∣ 12 → portable_rows 12 = 12) :=
  ⟨by decide, by decide, by decide, by decide, by decide, by decide,
    portable_horiz_write_set 20 (fun a => a) 0 16 (fun _ => 0) 0 8 halfpel_taps 8 12
      (by decide) (by decide) (by decide) (by decide) (by decide) (by decide)⟩

/-! ## Termination of the vertical pass -/

theorem do_while_diverges {σ : Type} (f : σ → σ) (cond : σ → Bool) (Inv : σ → Prop)
    (hstep : ∀ st, Inv st → Inv (f st)) (hcond : ∀ st, Inv st → cond (f st) = true) :
    ∀ (fuel : Nat) (st : σ), Inv st →
      do_while (fun r => some (f r)) cond fuel st = none := by
  intro fuel
  induction fuel with
  | zero => intro st _; rfl
  | succ fuel ih =>
    intro st hinv
    rw [do_while_succ _ cond fuel st (f st) rfl, hcond st hinv]
    exact ih (f st) (hstep st hinv)

/-- C13, counterexample: with `dst = 0` and `dst_stride = 8`, multiples of 4
that pass both assertions, `w = 4` and `h = 2`, the count of the `w == 4` loop
goes 2, -2, -6, ... and is never 0, so the pass returns for no amount of
fuel. -/
theorem vert_diverges_for_height_2 :
    (0 : Int) % 4 = 0 ∧ (8 : Int) % 4 = 0 ∧ ¬ ∃ (fuel : Nat) (D1 : Mem),
      aom_convolve8_vert_neon fuel (fun _ => 100) 48 16 (fun _ => 0) 0 8 halfpel_taps 4 2
        = some D1 := by
  refine ⟨by decide, by decide, ?_⟩
  rintro ⟨fuel, D1, h⟩
  have hdst : (0 : Int) % 4 = 0 := by decide
  have hstr : (8 : Int) % 4 = 0 := by decide
  have hdiv := do_while_diverges
    (vert_w4_body (fun _ => 100) 16 8 (vld1q_s16 halfpel_taps))
    (fun r => decide (r.cnt ≠ 0)) (fun st => st.cnt % 4 = 2)
    (fun st hst => by
      have e : (vert_w4_body (fun _ => 100) 16 8 (vld1q_s16 halfpel_taps) st).cnt
          = st.cnt - 4 := by simp only [vert_w4_body, load_u8_8x4]
      show (vert_w4_body (fun _ => 100) 16 8 (vld1q_s16 halfpel_taps) st).cnt % 4 = 2
      rw [e]; omega)
    (fun st hst => by
      have e : (vert_w4_body (fun _ => 100) 16 8 (vld1q_s16 halfpel_taps) st).cnt
          = st.cnt - 4 := by simp only [vert_w4_body, load_u8_8x4]
      simp only [decide_eq_true_eq, e]
      have : st.cnt % 4 = 2 := hst
      omega)
    fuel
    (vert_w4_init (fun _ => 100) (48 - (SUBPEL_TAPS / 2 - 1) * 16) 16 (fun _ => 0) 0 2)
    (by simp only [vert_w4_init, load_u8_8x7]; decide)
  simp only [aom_convolve8_vert_neon, if_pos hdst, if_pos hstr,
        if_true, hdiv, Option.map_none'] at h
  exact absurd h (by simp)

/-- The vertical pass with the least fuel that lets both loop nests finish:
`h / 4` iterations of the row loop and `w / 8` iterations of the strip loop. -/
theorem vert_pass_spec_tight (fuel : Nat) (S : Mem) (src ss : Int) (D : Mem) (dst ds : Int)
    (filter_y : Nat → Int) (w h : Int) (hw : w = 4 ∨ (0 < w ∧ 8 ∣ w))
    (hh : 0 < h ∧ 4 ∣ h) (hds : w ≤ ds)
    (hdst : dst % 4 = 0) (hstr : ds % 4 = 0) (hf1 : h ≤ 4 * fuel) (hf2 : w ≤ 8 * fuel) :
    ∃ D1, aom_convolve8_vert_neon fuel S src ss D dst ds filter_y w h = some D1 ∧
      Wrote D D1 dst ds h.toNat w.toNat
        (fun r c => convolve8_lane (col_window S (src + (r - 3) * ss + c) ss) filter_y) := by
  obtain ⟨n, rfl⟩ := exists_mul_succ (by norm_num) hh.1 hh.2
  have hn := toNat_mul_succ 4 n
  simp only [Nat.cast_ofNat] at hn
  rw [hn]
  rcases hw with rfl | ⟨hw0, hw8⟩
  · obtain ⟨st2, hrun, hwr⟩ := vert_w4_loop S ss ds (vld1q_s16 filter_y) hds n
      (vert_w4_init S (src - (SUBPEL_TAPS / 2 - 1) * ss) ss D dst (4 * (n + 1 : Nat))) fuel
      (by simp only [vert_w4_init, load_u8_8x7]) (by push_cast at hf1; omega)
      (vert_w4_init_inv S _ ss D dst _)
    refine ⟨st2.out, ?_, ?_⟩
    · simp only [aom_convolve8_vert_neon, if_pos hdst, if_pos hstr, if_true, hrun, Option.map_some']
    · refine Wrote.congr (by simpa only [vert_w4_init, load_u8_8x7] using hwr) ?_
      intro r c _ _
      exact congrArg (fun p => convolve8_lane (col_window S p ss) filter_y)
        (by rw [taps_offset]; ring1)
  · obtain ⟨m, rfl⟩ := exists_mul_succ (by norm_num) hw0 hw8
    have hm := toNat_mul_succ 8 m
    simp only [Nat.cast_ofNat] at hm
    rw [hm]
    have hne : ¬ (8 * ((m + 1 : Nat) : Int) = 4) := by omega
    obtain ⟨st2, hrun, hwr⟩ := vert_wide_loop S ss ds (vld1q_s16 filter_y) n m fuel
      (by push_cast at hf1; omega) (by push_cast at hf2; omega)
      (by push_cast at hds ⊢; linarith)
      { src := src - (SUBPEL_TAPS / 2 - 1) * ss, dst := dst,
        cnt := 8 * ((m + 1 : Nat) : Int), out := D } rfl
    refine ⟨st2.out, ?_, ?_⟩
    · simp only [aom_convolve8_vert_neon, if_pos hdst, if_pos hstr,
        hne, if_false, hrun, Option.map_some']
    · refine Wrote.congr hwr ?_
      intro r c _ _
      exact congrArg (fun p => convolve8_lane (col_window S p ss) filter_y)
        (by simp only [taps_offset]; ring1)

/-- C13, amended: for `w` equal to 4 or a positive multiple of 8 and `h` a
positive multiple of 4 (`dst` and `dst_stride`
multiples of 4, as the pass asserts, and destination rows at least `w` bytes
apart), both loop
nests of `aom_convolve8_vert_neon` terminate, the row loop within `h / 4`
iterations and the strip loop within `w / 8` iterations, and the pass returns
a destination whose block `[0, w) x [0, h)` holds the tap kernel of each
column window, every other byte being unchanged. -/
theorem vert_terminates (fuel : Nat) (S : Mem) (src ss : Int)
    (D : Mem) (dst ds : Int) (filter_y : Nat → Int) (w h : Int)
    (hw : w = 4 ∨ (0 < w ∧ 8 ∣ w)) (hh : 0 < h ∧ 4 ∣ h) (hds : w ≤ ds)
    (hdst : dst % 4 = 0) (hstr : ds % 4 = 0)
    (hf1 : h ≤ 4 * fuel) (hf2 : w ≤ 8 * fuel) :
    ∃ D1, aom_convolve8_vert_neon fuel S src ss D dst ds filter_y w h = some D1 ∧
      (∀ r c : Int, 0 ≤ r → r < h → 0 ≤ c → c < w →
        D1 (dst + r * ds + c)
          = convolve8_lane (col_window S (src + (r - 3) * ss + c) ss) filter_y) ∧
      (∀ a : Int, (∀ r c : Int, 0 ≤ r → r < h → 0 ≤ c → c < w → a ≠ dst + r * ds + c) →
        D1 a = D a) := by
  obtain ⟨D1, hrun, hwr⟩ :=
    vert_pass_spec_tight fuel S src ss D dst ds filter_y w h hw hh hds hdst hstr hf1 hf2
  refine ⟨D1, hrun, fun r c hr0 hr hc0 hc => ?_, fun a ha => ?_⟩
  · rw [hwr.at r c hr0 hr hc0 hc, Int.toNat_of_nonneg hr0, Int.toNat_of_nonneg hc0]
  · refine hwr.2 a (fun r c hr hc => ?_)
    exact ha r c (by omega) (by omega) (by omega) (by omega)

theorem vert_terminates_witness :
    ((16 : Int) = 4 ∨ (0 < (16 : Int) ∧ (8 : Int) ∣ 16)) ∧ (0 < (12 : Int) ∧ (4 : Int) ∣ 12) ∧
    (16 : Int) ≤ 16 ∧
    (0 : Int) % 4 = 0 ∧ (16 : Int) % 4 = 0 ∧ (12 : Int) ≤ 4 * (3 : Nat) ∧ (16 : Int) ≤ 8 * (3 : Nat) ∧
    ∃ D1, aom_convolve8_vert_neon 3 (fun a => a) 0 32 (fun _ => 0) 0 16 halfpel_taps 16 12
        = some D1 ∧
      (∀ r c : Int, 0 ≤ r → r < 12 → 0 ≤ c → c < 16 →
        D1 (0 + r * 16 + c)
          = convolve8_lane (col_window (fun a => a) (0 + (r - 3) * 32 + c) 32) halfpel_taps) ∧
      (∀ a : Int, (∀ r c : Int, 0 ≤ r → r < 12 → 0 ≤ c → c < 16 → a ≠ 0 + r * 16 + c) →
        D1 a = (fun _ => 0) a) :=
  ⟨by decide, by decide, by decide, by decide, by decide, by decide, by decide,
    vert_terminates 3 (fun a => a) 0 32 (fun _ => 0) 0 16 halfpel_taps 16 12
      (by decide) (by decide) (by decide) (by decide) (by decide) (by decide) (by decide)⟩

/-! ## Source loads of the vertical pass -/

/-- A counting loop: if every iteration keeps the invariant of its index and
the condition holds exactly before the last index, the loop returns after
`n + 1` iterations. -/
theorem do_while_count {σ : Type} (body : σ → Option σ) (cond : σ → Bool)
    (I : Nat → σ → Prop) (n : Nat)
    (hbody : ∀ k st, k ≤ n → I k st →
      ∃ st1, body st = some st1 ∧ I (k + 1) st1 ∧ (cond st1 = true ↔ k < n)) :
    ∀ (fuel k : Nat) (st : σ), k ≤ n → I k st → n - k + 1 ≤ fuel →
      ∃ st2, do_while body cond fuel st = some st2 ∧ I (n + 1) st2 := by
  intro fuel
  induction fuel with
  | zero => intro k st _ _ hf; omega
  | succ fuel ih =>
    intro k st hk hI hf
    obtain ⟨st1, hb, hI1, hc⟩ := hbody k st hk hI
    rw [do_while_succ body cond fuel st st1 hb]
    by_cases hlt : k < n
    · rw [hc.2 hlt, if_pos rfl]
      exact ih (k + 1) st1 hlt hI1 (by omega)
    · have hkn : k = n := by omega
      have hcf : cond st1 = false := by
        cases h : cond st1
        · rfl
        · exact absurd (hc.1 h) hlt
      rw [hcf]
      subst hkn
      exact ⟨st1, by simp, hI1⟩

theorem load_rows_append (s p : Int) (a b bytes : Nat) :
    load_rows s p (a + b) bytes = load_rows s p a bytes ++ load_rows (s + a * p) p b bytes := by
  unfold load_rows
  rw [List.range_add, List.map_append, List.map_map]
  congr 1
  apply List.map_congr_left
  intro i _
  simp only [Function.comp, Prod.mk.injEq, and_true]
  push_cast; ring

theorem batch_rows_eq (src ss : Int) (h : Nat) (col : Int) :
    batch_rows src ss h col = load_rows (src + col - 3 * ss) ss (h + 7) 8 := by
  unfold batch_rows load_rows
  apply List.map_congr_left
  intro j _
  simp only [Prod.mk.injEq, and_true]
  ring

theorem vert_body_loads_loop (ss : Int) (n : Nat) (base : Int) (pre : List (Int × Nat))
    (fuel : Nat) (hfuel : n + 1 ≤ fuel) :
    ∃ st2, do_while (fun r => some (vert_body_loads ss r)) (fun r => decide (r.cnt ≠ 0)) fuel
        { src := base + 7 * ss, cnt := 4 * ((n + 1 : Nat) : Int),
          log := pre ++ load_rows base ss 7 8 } = some st2 ∧
      st2.log = pre ++ load_rows base ss (4 * (n + 1) + 7) 8 := by
  obtain ⟨st2, hrun, hI⟩ := do_while_count (fun r => some (vert_body_loads ss r))
    (fun r => decide (r.cnt ≠ 0))
    (fun k st => st.src = base + (7 + 4 * k : Nat) * ss ∧
      st.cnt = 4 * ((n + 1 : Nat) : Int) - 4 * k ∧
      st.log = pre ++ load_rows base ss (7 + 4 * k) 8) n
    (fun k st hk hI => by
      obtain ⟨h1, h2, h3⟩ := hI
      refine ⟨_, rfl, ⟨?_, ?_, ?_⟩, ?_⟩
      · simp only [vert_body_loads, h1]; push_cast; ring
      · simp only [vert_body_loads, h2]; push_cast; ring
      · simp only [vert_body_loads, h3, h1]
        rw [List.append_assoc, ← load_rows_append]
        congr 2
      · simp only [vert_body_loads, h2, decide_eq_true_eq]
        push_cast
        omega)
    fuel 0 { src := base + 7 * ss, cnt := 4 * ((n + 1 : Nat) : Int),
             log := pre ++ load_rows base ss 7 8 } (Nat.zero_le n)
    ⟨by push_cast; ring, by push_cast; ring, rfl⟩ (by omega)
  refine ⟨st2, hrun, ?_⟩
  rw [hI.2.2]
  congr 2
  omega

theorem vert_strip_loads_eq (fuel : Nat) (src ss : Int) (n : Nat) (st : Trace)
    (hfuel : n + 1 ≤ fuel) (col : Int)
    (hsrc : st.src = src - (SUBPEL_TAPS / 2 - 1) * ss + col) :
    vert_strip_loads fuel ss (4 * ((n + 1 : Nat) : Int)) st =
      some { src := st.src + 8, cnt := st.cnt - 8,
             log := st.log ++ batch_rows src ss (4 * (n + 1)) col } := by
  obtain ⟨st2, hrun, hlog⟩ := vert_body_loads_loop ss n st.src st.log fuel hfuel
  unfold vert_strip_loads
  rw [hrun]
  simp only [hlog, batch_rows_eq, hsrc, SUBPEL_TAPS]
  congr 4
  ring

theorem vert_loads_batches (fuel : Nat) (src ss : Int) (n m : Nat)
    (hn : n + 1 ≤ fuel) (hm : m + 1 ≤ fuel) :
    vert_loads fuel src ss 4 (4 * ((n + 1 : Nat) : Int)) =
      some (batch_rows src ss (4 * (n + 1)) 0) ∧
    vert_loads fuel src ss (8 * ((m + 1 : Nat) : Int)) (4 * ((n + 1 : Nat) : Int)) =
      some ((List.range (m + 1)).flatMap
        (fun (b : Nat) => batch_rows src ss (4 * (n + 1)) (8 * (b : Int)))) := by
  constructor
  · obtain ⟨st2, hrun, hlog⟩ :=
      vert_body_loads_loop ss n (src - (SUBPEL_TAPS / 2 - 1) * ss) [] fuel hn
    unfold vert_loads
    simp only [if_pos]
    rw [List.nil_append] at hrun
    rw [hrun]
    simp only [Option.map_some', hlog, batch_rows_eq, List.nil_append, SUBPEL_TAPS]
    congr 2
    ring
  · have hw : ¬ (8 * ((m + 1 : Nat) : Int) = 4) := by omega
    unfold vert_loads
    simp only [if_neg hw]
    obtain ⟨st2, hrun, hI⟩ := do_while_count
      (vert_strip_loads fuel ss (4 * ((n + 1 : Nat) : Int))) (fun r => decide (r.cnt ≠ 0))
      (fun k st => st.src = src - (SUBPEL_TAPS / 2 - 1) * ss + 8 * (k : Int) ∧
        st.cnt = 8 * ((m + 1 : Nat) : Int) - 8 * k ∧
        st.log = (List.range k).flatMap
          (fun (b : Nat) => batch_rows src ss (4 * (n + 1)) (8 * (b : Int)))) m
      (fun k st hk hI => by
        obtain ⟨h1, h2, h3⟩ := hI
        refine ⟨_, vert_strip_loads_eq fuel src ss n st hn (8 * (k : Int)) h1, ⟨?_, ?_, ?_⟩, ?_⟩
        · simp only [h1]; push_cast; ring
        · simp only [h2]; push_cast; ring
        · simp only [h3, List.range_succ, List.flatMap_append, List.flatMap_cons,
            List.flatMap_nil, List.append_nil]
        · simp only [h2, decide_eq_true_eq]
          push_cast
          omega)
      fuel 0 { src := src - (SUBPEL_TAPS / 2 - 1) * ss, cnt := 8 * ((m + 1 : Nat) : Int),
               log := [] } (Nat.zero_le m)
      ⟨by push_cast; ring, by push_cast; ring, rfl⟩ (by omega)
    rw [hrun]
    simp only [Option.map_some', hI.2.2]

theorem batch_rows_length (src ss : Int) (h : Nat) (col : Int) :
    (batch_rows src ss h col).length = h + 7 := by
  simp [batch_rows]

theorem batch_rows_get (src ss : Int) (h : Nat) (col : Int) (j : Nat) (hj : j < h + 7) :
    (batch_rows src ss h col)[j]? = some (src + col + ((j : Int) - 3) * ss, 8) := by
  simp [batch_rows, List.getElem?_map, List.getElem?_range hj]

/-- C16: for every height that is a positive multiple of 4 and every width that
is 4 or a positive multiple of 8, with enough fuel the row loads of
`aom_convolve8_vert_neon` are, batch by batch from left to right (one batch
for width 4, `w / 8` batches of 8 columns otherwise), the rows
`-3, -2, ..., h + 3` of the batch in that order, each loaded once as 8 bytes
at the first column of the batch: `h + 7` row loads per batch, the `j`-th of
them at row `j - 3`, and nothing else. -/
theorem vert_loads_rows_once (fuel : Nat) (src ss w h : Int)
    (hw : w = 4 ∨ (0 < w ∧ w % 8 = 0)) (hh : 0 < h ∧ h % 4 = 0)
    (hfh : h ≤ 4 * fuel) (hfw : w ≤ 8 * fuel) :
    vert_loads fuel src ss w h =
      some ((List.range (if w = 4 then 1 else (w / 8).toNat)).flatMap
        (fun (b : Nat) => batch_rows src ss h.toNat (8 * (b : Int)))) ∧
    ∀ col : Int, (batch_rows src ss h.toNat col).length = h.toNat + 7 ∧
      ∀ j : Nat, j < h.toNat + 7 →
        (batch_rows src ss h.toNat col)[j]? = some (src + col + ((j : Int) - 3) * ss, 8) := by
  refine ⟨?_, fun col => ⟨batch_rows_length src ss _ col,
    fun j hj => batch_rows_get src ss _ col j hj⟩⟩
  obtain ⟨n, hn⟩ := exists_mul_succ (by norm_num : (0 : Int) < 4) hh.1 (Int.dvd_of_emod_eq_zero hh.2)
  have hnat : h.toNat = 4 * (n + 1) := by rw [hn]; push_cast; omega
  rw [hnat]
  have hn1 : n + 1 ≤ fuel := by omega
  rcases hw with hw | ⟨hw0, hw8⟩
  · subst hw
    rw [hn, (vert_loads_batches fuel src ss n 0 hn1 (by omega)).1]
    simp [List.range_succ]
  · obtain ⟨m, hm⟩ := exists_mul_succ (by norm_num : (0 : Int) < 8) hw0 (Int.dvd_of_emod_eq_zero hw8)
    have hne : ¬ (w = 4) := by omega
    have hq : (w / 8).toNat = m + 1 := by rw [hm]; push_cast; omega
    rw [if_neg hne, hq, hm, hn]
    exact (vert_loads_batches fuel src ss n m hn1 (by omega)).2

theorem vert_loads_rows_once_witness :
    vert_loads 2 48 16 8 8 =
      some ((List.range (if (8 : Int) = 4 then 1 else ((8 : Int) / 8).toNat)).flatMap
        (fun (b : Nat) => batch_rows 48 16 (8 : Int).toNat (8 * (b : Int)))) ∧
    ∀ col : Int, (batch_rows 48 16 (8 : Int).toNat col).length = (8 : Int).toNat + 7 ∧
      ∀ j : Nat, j < (8 : Int).toNat + 7 →
        (batch_rows 48 16 (8 : Int).toNat col)[j]? =
          some (48 + col + ((j : Int) - 3) * 16, 8) :=
  vert_loads_rows_once 2 48 16 8 8 (by decide) (by decide) (by decide) (by decide)

/-! ## Source loads of the horizontal pass -/

theorem loads_within_nil (src ss R lo hi : Int) : loads_within [] src ss R lo hi := by
  intro e he
  simp at he

theorem loads_within_append {A B : List (Int × Nat)} {src ss R lo hi : Int}
    (hA : loads_within A src ss R lo hi) (hB : loads_within B src ss R lo hi) :
    loads_within (A ++ B) src ss R lo hi := by
  intro e he
  rcases List.mem_append.1 he with h | h
  · exact hA e h
  · exact hB e h

theorem load_rows_within (s ss : Int) (rows bytes : Nat) (src R lo hi r0 c0 : Int)
    (hs : s = src + r0 * ss + c0) (hr0 : 0 ≤ r0) (hr : r0 + rows ≤ R)
    (hlo : lo ≤ c0) (hhi : c0 + bytes ≤ hi + 1) :
    loads_within (load_rows s ss rows bytes) src ss R lo hi := by
  intro e he j hj
  simp only [load_rows, List.mem_map, List.mem_range] at he
  obtain ⟨i, hi, rfl⟩ := he
  refine ⟨r0 + i, c0 + j, by omega, by omega, by omega, ?_, ?_⟩
  · have : (j : Int) < bytes := by exact_mod_cast hj
    omega
  · simp only [hs]; ring

/-- A counting loop over a trace: the pointer and the count move by fixed
steps and a property of the log is kept. -/
theorem loads_loop (body : Trace → Option Trace) (cond : Trace → Bool)
    (Q : List (Int × Nat) → Prop) (n : Nat) (s0 ds c0 dc : Int)
    (hbody : ∀ (k : Nat) st, k ≤ n → st.src = s0 + k * ds → st.cnt = c0 - k * dc →
      Q st.log → ∃ st1, body st = some st1 ∧ st1.src = st.src + ds ∧
        st1.cnt = st.cnt - dc ∧ Q st1.log)
    (hcond : ∀ (k : Nat) st, k ≤ n → st.cnt = c0 - (k + 1) * dc → (cond st = true ↔ k < n))
    (fuel : Nat) (hf : n + 1 ≤ fuel) (st0 : Trace) (h0 : st0.src = s0) (hc0 : st0.cnt = c0)
    (hQ : Q st0.log) :
    ∃ st2, do_while body cond fuel st0 = some st2 ∧ Q st2.log := by
  obtain ⟨st2, hrun, hI⟩ := do_while_count body cond
    (fun k st => st.src = s0 + k * ds ∧ st.cnt = c0 - k * dc ∧ Q st.log) n
    (fun k st hk hI => by
      obtain ⟨h1, h2, h3⟩ := hI
      obtain ⟨st1, hb, hs1, hcn1, hQ1⟩ := hbody k st hk h1 h2 h3
      have hc1 : st1.cnt = c0 - ((k : Int) + 1) * dc := by rw [hcn1, h2]; ring
      refine ⟨st1, hb, ⟨?_, ?_, hQ1⟩, hcond k st1 hk hc1⟩
      · rw [hs1, h1]; push_cast; ring
      · rw [hc1]; push_cast; ring)
    fuel 0 st0 (Nat.zero_le n) ⟨by rw [h0]; push_cast; ring, by rw [hc0]; push_cast; ring, hQ⟩
    (by omega)
  exact ⟨st2, hrun, hI.2.2⟩

theorem portable_h4_loads (fuel : Nat) (src ss w : Int) (n : Nat)
    (hw : w = 4 * ((n + 1 : Nat) : Int)) (hf : n + 1 ≤ fuel) :
    ∃ L, Portable.horiz_loads fuel src ss w 4 = some L ∧
      loads_within L src ss 4 (-3) (w + 7) := by
  obtain ⟨st2, hrun, hQ⟩ := loads_loop (fun r => some (Portable.horiz_h4_loads ss r))
    (fun r => decide (r.cnt ≠ 0)) (fun L => loads_within L src ss 4 (-3) (w + 7)) n
    (src - (SUBPEL_TAPS / 2 - 1) + 7) 4 w 4
    (fun k st _ h1 _ hQ => ⟨_, rfl, rfl, rfl, loads_within_append hQ
      (load_rows_within st.src ss 4 8 src 4 (-3) (w + 7) 0 (4 + 4 * k)
        (by rw [h1, taps_offset]; ring) (by omega) (by norm_num) (by omega)
        (by push_cast at hw ⊢; omega))⟩)
    (fun k st _ hc => by
      rw [decide_eq_true_eq, hc, hw]; push_cast; omega)
    fuel hf { src := src - (SUBPEL_TAPS / 2 - 1) + 7, cnt := w,
              log := load_rows (src - (SUBPEL_TAPS / 2 - 1)) ss 4 8 } rfl rfl
    (load_rows_within _ ss 4 8 src 4 (-3) (w + 7) 0 (-3)
      (by rw [taps_offset]; ring) (by omega) (by norm_num) (by omega)
      (by push_cast at hw ⊢; omega))
  refine ⟨st2.log, ?_, hQ⟩
  unfold Portable.horiz_loads
  simp only [if_true]
  rw [hrun]
  rfl

theorem portable_w4_loads (fuel : Nat) (src ss h : Int) (hh : 0 < h) (h4 : h ≠ 4)
    (hf : h ≤ 8 * fuel) :
    ∃ L, Portable.horiz_loads fuel src ss 4 h = some L ∧
      loads_within L src ss (8 * ((h + 7) / 8)) (-3) (4 + 7) := by
  obtain ⟨st2, hrun, hQ⟩ := loads_loop (fun r => some (Portable.horiz_w4_loads ss r))
    (fun r => decide (r.cnt > 0))
    (fun L => loads_within L src ss (8 * ((h + 7) / 8)) (-3) (4 + 7)) ((h - 1) / 8).toNat
    (src - (SUBPEL_TAPS / 2 - 1)) (8 * ss) h 8
    (fun k st hk h1 _ hQ => ⟨_, rfl, rfl, rfl, loads_within_append
      (loads_within_append hQ
        (load_rows_within st.src ss 8 8 src _ (-3) (4 + 7) (8 * k) (-3)
          (by rw [h1, taps_offset]; ring) (by omega) (by push_cast; omega) (by omega)
          (by norm_num)))
      (load_rows_within (st.src + 7) ss 8 8 src _ (-3) (4 + 7) (8 * k) 4
        (by rw [h1, taps_offset]; ring) (by omega) (by push_cast; omega) (by omega)
        (by norm_num))⟩)
    (fun k st _ hc => by
      rw [decide_eq_true_eq, hc]; omega)
    fuel (by omega) { src := src - (SUBPEL_TAPS / 2 - 1), cnt := h, log := [] } rfl rfl
    (loads_within_nil _ _ _ _ _)
  refine ⟨st2.log, ?_, hQ⟩
  unfold Portable.horiz_loads
  simp only [if_neg h4, if_true]
  rw [hrun]
  rfl

theorem portable_band_loads (fuel : Nat) (src ss w : Int) (R : Int) (m : Nat)
    (hw : w = 8 * ((m + 1 : Nat) : Int)) (hf : m + 1 ≤ fuel) (b : Nat) (st : Trace)
    (hsrc : st.src = src - (SUBPEL_TAPS / 2 - 1) + b * (8 * ss)) (hb : 8 * (b : Int) + 8 ≤ R)
    (hQ : loads_within st.log src ss R (-3) (w + 3)) :
    ∃ st1, Portable.horiz_band_loads fuel ss w st = some st1 ∧
      st1.src = st.src + 8 * ss ∧ st1.cnt = st.cnt - 8 ∧
      loads_within st1.log src ss R (-3) (w + 3) := by
  obtain ⟨st2, hrun, hQ2⟩ := loads_loop (fun r => some (Portable.horiz_8x8_loads ss r))
    (fun r => decide (r.cnt ≠ 0)) (fun L => loads_within L src ss R (-3) (w + 3)) m
    (st.src + 7) 8 w 8
    (fun k st1 _ h1 _ hQ1 => ⟨_, rfl, rfl, rfl, loads_within_append hQ1
      (load_rows_within st1.src ss 8 8 src R (-3) (w + 3) (8 * b) (4 + 8 * k)
        (by rw [h1, hsrc, taps_offset]; ring) (by omega) (by push_cast; omega) (by omega)
        (by push_cast at hw ⊢; omega))⟩)
    (fun k st1 _ hc => by
      rw [decide_eq_true_eq, hc, hw]; push_cast; omega)
    fuel hf { src := st.src + 7, cnt := w, log := st.log ++ load_rows st.src ss 8 8 } rfl rfl
    (loads_within_append hQ
      (load_rows_within st.src ss 8 8 src R (-3) (w + 3) (8 * b) (-3)
        (by rw [hsrc, taps_offset]; ring) (by omega) (by push_cast; omega) (by omega)
        (by push_cast at hw ⊢; omega)))
  refine ⟨{ src := st.src + 8 * ss, cnt := st.cnt - 8, log := st2.log }, ?_, rfl, rfl, hQ2⟩
  unfold Portable.horiz_band_loads
  rw [hrun]

theorem portable_wide_loads (fuel : Nat) (src ss w h : Int) (hh : 0 < h) (h4 : h ≠ 4)
    (m : Nat) (hw : w = 8 * ((m + 1 : Nat) : Int)) (hfw : m + 1 ≤ fuel)
    (hf : h ≤ 8 * fuel) :
    ∃ L, Portable.horiz_loads fuel src ss w h = some L ∧
      loads_within L src ss (8 * ((h + 7) / 8)) (-3) (w + 3) := by
  obtain ⟨st2, hrun, hQ⟩ := loads_loop (Portable.horiz_band_loads fuel ss w)
    (fun r => decide (r.cnt > 0))
    (fun L => loads_within L src ss (8 * ((h + 7) / 8)) (-3) (w + 3)) ((h - 1) / 8).toNat
    (src - (SUBPEL_TAPS / 2 - 1)) (8 * ss) h 8
    (fun k st hk h1 _ hQ =>
      portable_band_loads fuel src ss w _ m hw hfw k st h1 (by omega) hQ)
    (fun k st _ hc => by
      rw [decide_eq_true_eq, hc]; omega)
    fuel (by omega) { src := src - (SUBPEL_TAPS / 2 - 1), cnt := h, log := [] } rfl rfl
    (loads_within_nil _ _ _ _ _)
  have hw4 : ¬ (w = 4) := by omega
  refine ⟨st2.log, ?_, hQ⟩
  unfold Portable.horiz_loads
  simp only [if_neg h4, if_neg hw4]
  rw [hrun]
  rfl

theorem dotprod_w4_loads (fuel : Nat) (src ss h : Int) (hh : 0 < h) (hf : h ≤ 4 * fuel) :
    ∃ L, DotProd.horiz_loads fuel src ss 4 h = some L ∧
      loads_within L src ss (4 * ((h + 3) / 4)) (-3) (4 + 8) := by
  obtain ⟨st2, hrun, hQ⟩ := loads_loop (fun r => some (DotProd.horiz_w4_loads ss r))
    (fun r => decide (r.cnt > 0))
    (fun L => loads_within L src ss (4 * ((h + 3) / 4)) (-3) (4 + 8)) ((h - 1) / 4).toNat
    (src - (SUBPEL_TAPS / 2 - 1)) (4 * ss) h 4
    (fun k st hk h1 _ hQ => ⟨_, rfl, rfl, rfl, loads_within_append hQ
      (load_rows_within st.src ss 4 16 src _ (-3) (4 + 8) (4 * k) (-3)
        (by rw [h1, taps_offset]; ring) (by omega) (by push_cast; omega) (by omega)
        (by norm_num))⟩)
    (fun k st _ hc => by
      rw [decide_eq_true_eq, hc]; omega)
    fuel (by omega) { src := src - (SUBPEL_TAPS / 2 - 1), cnt := h, log := [] } rfl rfl
    (loads_within_nil _ _ _ _ _)
  refine ⟨st2.log, ?_, hQ⟩
  unfold DotProd.horiz_loads
  simp only [if_true]
  rw [hrun]
  rfl

theorem dotprod_band_loads (fuel : Nat) (src ss w : Int) (R : Int) (m : Nat)
    (hw : w = 8 * ((m + 1 : Nat) : Int)) (hf : m + 1 ≤ fuel) (b : Nat) (st : Trace)
    (hsrc : st.src = src - (SUBPEL_TAPS / 2 - 1) + b * (4 * ss)) (hb : 4 * (b : Int) + 4 ≤ R)
    (hQ : loads_within st.log src ss R (-3) (w + 4)) :
    ∃ st1, DotProd.horiz_band_loads fuel ss w st = some st1 ∧
      st1.src = st.src + 4 * ss ∧ st1.cnt = st.cnt - 4 ∧
      loads_within st1.log src ss R (-3) (w + 4) := by
  obtain ⟨st2, hrun, hQ2⟩ := loads_loop (fun r => some (DotProd.horiz_8x4_loads ss r))
    (fun r => decide (r.cnt ≠ 0)) (fun L => loads_within L src ss R (-3) (w + 4)) m
    st.src 8 w 8
    (fun k st1 _ h1 _ hQ1 => ⟨_, rfl, rfl, rfl, loads_within_append hQ1
      (load_rows_within st1.src ss 4 16 src R (-3) (w + 4) (4 * b) (-3 + 8 * k)
        (by rw [h1, hsrc, taps_offset]; ring) (by omega) (by push_cast; omega) (by omega)
        (by push_cast at hw ⊢; omega))⟩)
    (fun k st1 _ hc => by
      rw [decide_eq_true_eq, hc, hw]; push_cast; omega)
    fuel hf { src := st.src, cnt := w, log := st.log } rfl rfl hQ
  refine ⟨{ src := st.src + 4 * ss, cnt := st.cnt - 4, log := st2.log }, ?_, rfl, rfl, hQ2⟩
  unfold DotProd.horiz_band_loads
  rw [hrun]

theorem dotprod_wide_loads (fuel : Nat) (src ss w h : Int) (hh : 0 < h)
    (m : Nat) (hw : w = 8 * ((m + 1 : Nat) : Int)) (hfw : m + 1 ≤ fuel)
    (hf : h ≤ 4 * fuel) :
    ∃ L, DotProd.horiz_loads fuel src ss w h = some L ∧
      loads_within L src ss (4 * ((h + 3) / 4)) (-3) (w + 4) := by
  obtain ⟨st2, hrun, hQ⟩ := loads_loop (DotProd.horiz_band_loads fuel ss w)
    (fun r => decide (r.cnt > 0))
    (fun L => loads_within L src ss (4 * ((h + 3) / 4)) (-3) (w + 4)) ((h - 1) / 4).toNat
    (src - (SUBPEL_TAPS / 2 - 1)) (4 * ss) h 4
    (fun k st hk h1 _ hQ =>
      dotprod_band_loads fuel src ss w _ m hw hfw k st h1 (by omega) hQ)
    (fun k st _ hc => by
      rw [decide_eq_true_eq, hc]; omega)
    fuel (by omega) { src := src - (SUBPEL_TAPS / 2 - 1), cnt := h, log := [] } rfl rfl
    (loads_within_nil _ _ _ _ _)
  have hw4 : ¬ (w = 4) := by omega
  refine ⟨st2.log, ?_, hQ⟩
  unfold DotProd.horiz_loads
  simp only [if_neg hw4]
  rw [hrun]
  rfl

/-- C15, the claim as stated fails: for `w = 4`, `h = 4` the portable pass
loads the 8 bytes at columns 4..11 of row 0 (address 7 for `src = 3`), and for
`w = 8`, `h = 4` the dot-product pass loads the 16 bytes at columns -3..12 of
row 0; the last byte of each load is at no row `0 ≤ r < h` and column
`-3 ≤ c ≤ w + 3` of the source (stride 100). -/
theorem horiz_loads_past_right_margin :
    (∃ L, Portable.horiz_loads 1 3 100 4 4 = some L ∧ ((7 : Int), 8) ∈ L ∧
      ¬ in_region 3 100 4 (-3) (4 + 3) (7 + ((7 : Nat) : Int))) ∧
    (∃ L, DotProd.horiz_loads 1 3 100 8 4 = some L ∧ ((0 : Int), 16) ∈ L ∧
      ¬ in_region 3 100 4 (-3) (8 + 3) (0 + ((15 : Nat) : Int))) := by
  refine ⟨⟨_, rfl, by decide, ?_⟩, ⟨_, rfl, by decide, ?_⟩⟩
  · rintro ⟨r, c, h1, h2, h3, h4, h5⟩
    push_cast at h5
    omega
  · rintro ⟨r, c, h1, h2, h3, h4, h5⟩
    push_cast at h5
    omega

/-- C15 as amended: for every width that is 4 or a positive multiple of 8 and
every height `h > 0`, with enough fuel, every source byte loaded by
`aom_convolve8_horiz_neon` lies in a column `-3 ≤ c ≤ w + 7` (portable
branches `h == 4` and `w == 4`), `c ≤ w + 3` (portable 8x8 branch),
`c ≤ w + 8` (dot-product `w == 4`) or `c ≤ w + 4` (dot-product wide branch),
and in a row `0 ≤ r` below the height rounded up to whole row tiles, which is
`h` itself when `h` is 4 or a multiple of 8 (portable) or a multiple of 4
(dot product). -/
theorem horiz_loads_within_margin (fuel : Nat) (src ss w h : Int)
    (hw : w = 4 ∨ (0 < w ∧ w % 8 = 0)) (hh : 0 < h)
    (hfh : h ≤ 4 * fuel) (hfw : w ≤ 4 * fuel) :
    (∃ L, Portable.horiz_loads fuel src ss w h = some L ∧
      loads_within L src ss (portable_rows h) (-3) (w + portable_right_margin w h)) ∧
    (∃ L, DotProd.horiz_loads fuel src ss w h = some L ∧
      loads_within L src ss (dotprod_rows h) (-3) (w + dotprod_right_margin w)) ∧
    (h = 4 ∨ h % 8 = 0 → portable_rows h = h) ∧ (h % 4 = 0 → dotprod_rows h = h) := by
  refine ⟨?_, ?_, ?_, ?_⟩
  · unfold portable_rows portable_right_margin
    by_cases h4 : h = 4
    · subst h4
      have hw4 : ∃ n : Nat, w = 4 * ((n + 1 : Nat) : Int) := by
        rcases hw with hw | ⟨hw0, hw8⟩
        · exact ⟨0, by rw [hw]; norm_num⟩
        · exact exists_mul_succ (by norm_num : (0 : Int) < 4) hw0
            (Int.dvd_of_emod_eq_zero (by omega))
      obtain ⟨n, hn⟩ := hw4
      simp only [if_true, true_or]
      exact portable_h4_loads fuel src ss w n hn (by omega)
    · rw [if_neg h4]
      rcases hw with hw | ⟨hw0, hw8⟩
      · subst hw
        simp only [or_true, if_true]
        exact portable_w4_loads fuel src ss h hh h4 (by omega)
      · obtain ⟨m, hm⟩ := exists_mul_succ (by norm_num : (0 : Int) < 8) hw0
          (Int.dvd_of_emod_eq_zero hw8)
        have hw4 : ¬ (w = 4) := by omega
        have hor : ¬ (h = 4 ∨ w = 4) := by omega
        rw [if_neg hor]
        exact portable_wide_loads fuel src ss w h hh h4 m hm (by omega) (by omega)
  · unfold dotprod_rows dotprod_right_margin
    rcases hw with hw | ⟨hw0, hw8⟩
    · subst hw
      simp only [if_true]
      exact dotprod_w4_loads fuel src ss h hh hfh
    · obtain ⟨m, hm⟩ := exists_mul_succ (by norm_num : (0 : Int) < 8) hw0
        (Int.dvd_of_emod_eq_zero hw8)
      have hw4 : ¬ (w = 4) := by omega
      rw [if_neg hw4]
      exact dotprod_wide_loads fuel src ss w h hh m hm (by omega) hfh
  · intro hv
    unfold portable_rows
    split
    · omega
    · omega
  · intro hv
    unfold dotprod_rows
    omega

theorem horiz_loads_within_margin_witness :
    (∃ L, Portable.horiz_loads 2 3 100 8 8 = some L ∧
      loads_within L 3 100 (portable_rows 8) (-3) (8 + portable_right_margin 8 8)) ∧
    (∃ L, DotProd.horiz_loads 2 3 100 8 8 = some L ∧
      loads_within L 3 100 (dotprod_rows 8) (-3) (8 + dotprod_right_margin 8)) ∧
    ((8 : Int) = 4 ∨ (8 : Int) % 8 = 0 → portable_rows 8 = 8) ∧
    ((8 : Int) % 4 = 0 → dotprod_rows 8 = 8) :=
  horiz_loads_within_margin 2 3 100 8 8 (by decide) (by decide) (by decide) (by decide)

end AomConvolve8
